import Mathlib

/-!
# SmartPointers: reference-counted handles over a control block

A shallow embedding of `shared_ptr.cpp`.  The heap of control blocks is passed
explicitly; every member function of `SharedPtr` / `WeakPtr` becomes a function
on the heap and on the field values of the handles it touches.  On top of that
sits a small program layer (`State`, `Op`, `step`) in which handle variables live
in slots, so that statements about "all live handles" can be made.

Conventions
* a pointer is an `Option`: `none` is `nullptr`;
* control blocks are identified by their allocation number (`Heap.next` is the
  next fresh one), object addresses are values of `Addr`;
* `size_t` counters are natural numbers reduced modulo `SIZE_MOD = 2^64`;
* calls of the two virtual hooks are recorded in `Heap.trace`, newest first,
  together with the counter values the block had when the hook was called;
  what a hook does to the managed object or to the block's memory is the
  business of the deleter and the allocator, and the hooks here run no handle
  operation of their own.
-/

namespace SmartPointers

/-! ## Data model -/

/-- Modulus of `size_t` arithmetic on a 64-bit target. -/
def SIZE_MOD : Nat := 18446744073709551616

/-- Addresses an `object_ptr_` can hold. -/
inductive Addr where
  /-- an object allocated independently of any control block -/
  | raw (n : Nat)
  /-- Embeds `std::addressof(ctrl_ptr->object)`: the member embedded in combined block `b` -/
  | object (b : Nat)
  /-- the address of control block `b` itself, used as an object address -/
  | block (b : Nat)
  deriving DecidableEq

/-- Dynamic type of a control block with the members that type adds.
Allocators and deleters are collaborators; they are represented by an identifier
(`0` stands for `std::allocator` / `std::default_delete`). -/
inductive Variant where
  /-- Embeds `ControlBlockRegular<T, Allocator, Deleter>` with members `ptr`, `alloc`, `del` -/
  | ControlBlockRegular (ptr : Option Addr) (alloc : Nat) (del : Nat)
  /-- Embeds `ControlBlockMakeShared<T, Allocator>` with member `alloc` (and the embedded `object`) -/
  | ControlBlockMakeShared (alloc : Nat)
  deriving DecidableEq

/-- Embeds `struct BaseControlBlock`: the two counters, with their default member initialisers. -/
structure BaseControlBlock where
  shared_count : Nat := 1
  weak_count : Nat := 0
  variant : Variant
  deriving DecidableEq

/-- The two virtual hooks of `BaseControlBlock`. -/
inductive Hook where
  | del_ptr
  | del_object
  deriving DecidableEq

/-- One recorded hook call: which hook, on which block, and the values of the
block's counters at the moment of the call. -/
structure Event where
  hook : Hook
  block : Nat
  shared_count : Nat
  weak_count : Nat
  deriving DecidableEq

/-- The heap of control blocks, the allocation cursor and the record of hook calls
(newest first). -/
structure Heap where
  blocks : Nat → BaseControlBlock
  next : Nat
  trace : List Event

/-- The heap before anything has been allocated. -/
def Heap.empty : Heap :=
  { blocks := fun _ => { shared_count := 0, weak_count := 0,
                         variant := Variant.ControlBlockRegular none 0 0 },
    next := 0,
    trace := [] }

/-- Store `blk` at block address `b`. -/
def Heap.write (h : Heap) (b : Nat) (blk : BaseControlBlock) : Heap :=
  { h with blocks := fun x => if x = b then blk else h.blocks x }

/-- Allocate and construct a control block of dynamic type `v`; the counters
take their default member initialisers (`shared_count = 1`, `weak_count = 0`). -/
def Heap.alloc (h : Heap) (v : Variant) : Heap × Nat :=
  ({ blocks := fun x => if x = h.next then { variant := v } else h.blocks x,
     next := h.next + 1,
     trace := h.trace }, h.next)

/-- Virtual call `contorol_block_->del_ptr()` on block `b`: the call is recorded.
The deleter or the destructor of the managed object that the hook runs is taken
to run no handle operation here; `del_ptr_with` is the hook of a managed object
that owns Weak Handles. -/
def del_ptr (h : Heap) (b : Nat) : Heap :=
  { h with trace := { hook := Hook.del_ptr, block := b,
                      shared_count := (h.blocks b).shared_count,
                      weak_count := (h.blocks b).weak_count } :: h.trace }

/-- Virtual call `contorol_block_->del_object()` on block `b`. -/
def del_object (h : Heap) (b : Nat) : Heap :=
  { h with trace := { hook := Hook.del_object, block := b,
                      shared_count := (h.blocks b).shared_count,
                      weak_count := (h.blocks b).weak_count } :: h.trace }

/-- Number of recorded `del_ptr` calls on block `b`. -/
def Heap.delPtrCount (h : Heap) (b : Nat) : Nat :=
  h.trace.countP (fun e => decide (e.hook = Hook.del_ptr ∧ e.block = b))

/-- Number of recorded `del_object` calls on block `b`. -/
def Heap.delObjectCount (h : Heap) (b : Nat) : Nat :=
  h.trace.countP (fun e => decide (e.hook = Hook.del_object ∧ e.block = b))

/-- Embeds `class SharedPtr`: the two private fields with their default initialisers. -/
structure SharedPtr where
  contorol_block_ : Option Nat := none
  object_ptr_ : Option Addr := none
  deriving DecidableEq

/-- Embeds `class WeakPtr`: the two private fields with their default initialisers. -/
structure WeakPtr where
  contorol_block_ : Option Nat := none
  object_ptr_ : Option Addr := none
  deriving DecidableEq

/-! ## `SharedPtr` member functions -/

/-- Embeds `SharedPtr::swap`: returns the new values of `*this` and of `tmp`. -/
def SharedPtr.swap (this tmp : SharedPtr) : SharedPtr × SharedPtr :=
  ({ contorol_block_ := tmp.contorol_block_, object_ptr_ := tmp.object_ptr_ },
   { contorol_block_ := this.contorol_block_, object_ptr_ := this.object_ptr_ })

/-- Embeds `SharedPtr::operator==`: compares the object pointers only. -/
def SharedPtr.eq (this ptr : SharedPtr) : Bool :=
  decide (this.object_ptr_ = ptr.object_ptr_)

/-- Embeds `SharedPtr()` and `SharedPtr(std::nullptr_t)`. -/
def SharedPtr.default_ctor : SharedPtr := {}

/-- Embeds `SharedPtr(Y* ptr)`, `SharedPtr(Y* ptr, Deleter del)` and
`SharedPtr(Y* ptr, Deleter del, Allocator alloc)`: a fresh
`ControlBlockRegular` adopting `ptr`. -/
def SharedPtr.raw_ctor (h : Heap) (ptr : Option Addr) (alloc del : Nat) : Heap × SharedPtr :=
  let r := h.alloc (Variant.ControlBlockRegular ptr alloc del)
  (r.1, { contorol_block_ := some r.2, object_ptr_ := ptr })

/-- Embeds `SharedPtr(const SharedPtr& ptr)` (also the converting overload). -/
def SharedPtr.copy_ctor (h : Heap) (ptr : SharedPtr) : Heap × SharedPtr :=
  match ptr.contorol_block_ with
  | none => (h, { contorol_block_ := none, object_ptr_ := ptr.object_ptr_ })
  | some b =>
    (h.write b { h.blocks b with shared_count := ((h.blocks b).shared_count + 1) % SIZE_MOD },
     { contorol_block_ := some b, object_ptr_ := ptr.object_ptr_ })

/-- Embeds `SharedPtr(SharedPtr&& ptr)` (also the converting overload): returns the new
handle and the value `ptr` is left with. -/
def SharedPtr.move_ctor (ptr : SharedPtr) : SharedPtr × SharedPtr :=
  ({ contorol_block_ := ptr.contorol_block_, object_ptr_ := ptr.object_ptr_ },
   { contorol_block_ := none, object_ptr_ := none })

/-- Embeds `SharedPtr(BaseControlBlock* ctrl_b, T* ptr)`, the private constructor. -/
def SharedPtr.private_ctor (ctrl_b : Option Nat) (ptr : Option Addr) : SharedPtr :=
  { contorol_block_ := ctrl_b, object_ptr_ := ptr }

/-- Embeds `SharedPtr::~SharedPtr`. -/
def SharedPtr.dtor (h : Heap) (this : SharedPtr) : Heap :=
  match this.contorol_block_ with
  | none => h
  | some b =>
    let h1 := h.write b
      { h.blocks b with shared_count := ((h.blocks b).shared_count + SIZE_MOD - 1) % SIZE_MOD }
    if (h1.blocks b).shared_count = 0 then
      let h2 := del_ptr h1 b
      if (h2.blocks b).weak_count = 0 then del_object h2 b else h2
    else h1

/-- Embeds `SharedPtr::operator=(const SharedPtr& ptr)` (also the converting overload):
returns the heap and the new value of `*this`. -/
def SharedPtr.copy_assign (h : Heap) (this ptr : SharedPtr) : Heap × SharedPtr :=
  if SharedPtr.eq this ptr then (h, this)
  else
    let c := SharedPtr.copy_ctor h ptr
    let w := SharedPtr.swap this c.2
    (SharedPtr.dtor c.1 w.2, w.1)

/-- Embeds `SharedPtr::operator=(SharedPtr&& ptr)` (also the converting overload):
returns the heap, the new value of `*this` and the value `ptr` is left with. -/
def SharedPtr.move_assign (h : Heap) (this ptr : SharedPtr) : Heap × SharedPtr × SharedPtr :=
  if SharedPtr.eq this ptr then (h, this, ptr)
  else
    let m := SharedPtr.move_ctor ptr
    let w := SharedPtr.swap this m.1
    (SharedPtr.dtor h w.2, w.1, m.2)

/-- Embeds `SharedPtr::use_count`. -/
def SharedPtr.use_count (h : Heap) (this : SharedPtr) : Nat :=
  match this.contorol_block_ with
  | some b => (h.blocks b).shared_count
  | none => 0

/-- Embeds `SharedPtr::get`. -/
def SharedPtr.get (this : SharedPtr) : Option Addr :=
  this.object_ptr_

/-- Embeds `SharedPtr::reset`: `SharedPtr().swap(*this)`, then the temporary dies. -/
def SharedPtr.reset (h : Heap) (this : SharedPtr) : Heap × SharedPtr :=
  let w := SharedPtr.swap SharedPtr.default_ctor this
  (SharedPtr.dtor h w.1, w.2)

/-- Embeds `MakeShared<T>(args...)`: a fresh `ControlBlockMakeShared` and a handle on the
object embedded in it. -/
def MakeShared (h : Heap) : Heap × SharedPtr :=
  let r := h.alloc (Variant.ControlBlockMakeShared 0)
  (r.1, SharedPtr.private_ctor (some r.2) (some (Addr.object r.2)))

/-- Embeds `AllocateShared<T>(alloc, args...)`. -/
def AllocateShared (h : Heap) (alloc : Nat) : Heap × SharedPtr :=
  let r := h.alloc (Variant.ControlBlockMakeShared alloc)
  (r.1, SharedPtr.private_ctor (some r.2) (some (Addr.object r.2)))

/-! ## `WeakPtr` member functions -/

/-- Embeds `WeakPtr::swap`: returns the new values of `*this` and of `tmp`. -/
def WeakPtr.swap (this tmp : WeakPtr) : WeakPtr × WeakPtr :=
  ({ contorol_block_ := tmp.contorol_block_, object_ptr_ := tmp.object_ptr_ },
   { contorol_block_ := this.contorol_block_, object_ptr_ := this.object_ptr_ })

/-- Embeds `WeakPtr::operator==`: compares the object pointers only. -/
def WeakPtr.eq (this ptr : WeakPtr) : Bool :=
  decide (this.object_ptr_ = ptr.object_ptr_)

/-- Embeds `WeakPtr()`. -/
def WeakPtr.default_ctor : WeakPtr := {}

/-- Embeds `WeakPtr(const WeakPtr& ptr)`. -/
def WeakPtr.copy_ctor (h : Heap) (ptr : WeakPtr) : Heap × WeakPtr :=
  match ptr.contorol_block_ with
  | some b =>
    (h.write b { h.blocks b with weak_count := ((h.blocks b).weak_count + 1) % SIZE_MOD },
     { contorol_block_ := some b, object_ptr_ := ptr.object_ptr_ })
  | none => (h, { contorol_block_ := none, object_ptr_ := ptr.object_ptr_ })

/-- Embeds `WeakPtr(const SharedPtr<T>& ptr)`. -/
def WeakPtr.from_shared (h : Heap) (ptr : SharedPtr) : Heap × WeakPtr :=
  match ptr.contorol_block_ with
  | some b =>
    (h.write b { h.blocks b with weak_count := ((h.blocks b).weak_count + 1) % SIZE_MOD },
     { contorol_block_ := some b, object_ptr_ := ptr.object_ptr_ })
  | none => (h, { contorol_block_ := none, object_ptr_ := ptr.object_ptr_ })

/-- Embeds `WeakPtr(WeakPtr&& ptr)`: returns the new handle and the value `ptr` is left with. -/
def WeakPtr.move_ctor (ptr : WeakPtr) : WeakPtr × WeakPtr :=
  ({ contorol_block_ := ptr.contorol_block_, object_ptr_ := ptr.object_ptr_ },
   { contorol_block_ := none, object_ptr_ := none })

/-- Embeds `WeakPtr::~WeakPtr`. -/
def WeakPtr.dtor (h : Heap) (this : WeakPtr) : Heap :=
  match this.contorol_block_ with
  | none => h
  | some b =>
    let h1 := h.write b
      { h.blocks b with weak_count := ((h.blocks b).weak_count + SIZE_MOD - 1) % SIZE_MOD }
    if (h1.blocks b).shared_count = 0 ∧ (h1.blocks b).weak_count = 0 then del_object h1 b
    else h1

/-- Embeds `WeakPtr::operator=(const WeakPtr& ptr)`. -/
def WeakPtr.copy_assign (h : Heap) (this ptr : WeakPtr) : Heap × WeakPtr :=
  if WeakPtr.eq this ptr then (h, this)
  else
    let c := WeakPtr.copy_ctor h ptr
    let w := WeakPtr.swap this c.2
    (WeakPtr.dtor c.1 w.2, w.1)

/-- Embeds `WeakPtr::operator=(WeakPtr&& ptr)`. -/
def WeakPtr.move_assign (h : Heap) (this ptr : WeakPtr) : Heap × WeakPtr × WeakPtr :=
  if WeakPtr.eq this ptr then (h, this, ptr)
  else
    let m := WeakPtr.move_ctor ptr
    let w := WeakPtr.swap this m.1
    (WeakPtr.dtor h w.2, w.1, m.2)

/-- Embeds `WeakPtr::expired`: reads `contorol_block_->shared_count` without a null
check; on an empty handle the read has no defined result (`none`). -/
def WeakPtr.expired (h : Heap) (this : WeakPtr) : Option Bool :=
  match this.contorol_block_ with
  | none => none
  | some b => some (decide ((h.blocks b).shared_count = 0))

/-- Embeds `WeakPtr::lock`: `return SharedPtr<T>(contorol_block_);`.  The only
constructor of `SharedPtr<T>` that accepts a single `BaseControlBlock*` is the
adopting `SharedPtr(Y* ptr)` with `Y = BaseControlBlock` (well-formed when
`BaseControlBlock*` converts to `T*`), so the block address is adopted as a raw
object pointer under a fresh `ControlBlockRegular`. -/
def WeakPtr.lock (h : Heap) (this : WeakPtr) : Heap × SharedPtr :=
  SharedPtr.raw_ctor h (this.contorol_block_.map Addr.block) 0 0

/-! ## Program layer: handle variables in slots -/

/-- A program state: the heap and the handle variables.  Slot `i` of `strong`
(resp. `weak`) holds `some h` while the `i`-th Strong (resp. Weak) Handle is
alive and `none` once it has been destroyed. -/
structure State where
  heap : Heap
  strong : List (Option SharedPtr)
  weak : List (Option WeakPtr)

/-- The state with no handles and no control blocks. -/
def State.init : State := { heap := Heap.empty, strong := [], weak := [] }

/-- The live Strong Handle in slot `i`, if any. -/
def State.getS (s : State) (i : Nat) : Option SharedPtr := s.strong.getD i none

/-- The live Weak Handle in slot `i`, if any. -/
def State.getW (s : State) (i : Nat) : Option WeakPtr := s.weak.getD i none

/-- Control block a Strong Handle slot refers to (`none` for a dead slot or an
empty handle). -/
def ctrlS (o : Option SharedPtr) : Option Nat := o.bind (fun p => p.contorol_block_)

/-- Control block a Weak Handle slot refers to. -/
def ctrlW (o : Option WeakPtr) : Option Nat := o.bind (fun p => p.contorol_block_)

/-- Number of live Strong Handles whose control-block pointer is `b`. -/
def State.numStrong (s : State) (b : Nat) : Nat :=
  s.strong.countP (fun o => decide (ctrlS o = some b))

/-- Number of live Weak Handles whose control-block pointer is `b`. -/
def State.numWeak (s : State) (b : Nat) : Nat :=
  s.weak.countP (fun o => decide (ctrlW o = some b))

/-- Number of live handle objects (Strong and Weak, empty ones included). -/
def State.live (s : State) : Nat :=
  s.strong.countP Option.isSome + s.weak.countP Option.isSome

/-- The operations a client can perform on handle variables.  Indices name
slots: `S_copy_assign i j` is `strong[i] = strong[j]`, and so on. -/
inductive Op where
  /-- Embeds `SharedPtr()` / `SharedPtr(nullptr)` -/
  | S_default
  /-- Embeds `SharedPtr(ptr)`, `SharedPtr(ptr, del)`, `SharedPtr(ptr, del, alloc)` -/
  | S_raw (ptr : Option Addr) (alloc : Nat) (del : Nat)
  /-- Embeds `MakeShared<T>(args...)` -/
  | S_make
  /-- Embeds `AllocateShared<T>(alloc, args...)` -/
  | S_allocate (alloc : Nat)
  /-- Embeds `SharedPtr(strong[j])` -/
  | S_copy (j : Nat)
  /-- Embeds `SharedPtr(std::move(strong[j]))` -/
  | S_move (j : Nat)
  /-- Embeds `strong[i] = strong[j]` -/
  | S_copy_assign (i j : Nat)
  /-- Embeds `strong[i] = std::move(strong[j])` -/
  | S_move_assign (i j : Nat)
  /-- Embeds `strong[i].reset()` -/
  | S_reset (i : Nat)
  /-- Embeds `strong[i].swap(strong[j])` -/
  | S_swap (i j : Nat)
  /-- Embeds `strong[i]` goes out of scope -/
  | S_dtor (i : Nat)
  /-- Embeds `WeakPtr()` -/
  | W_default
  /-- Embeds `WeakPtr(strong[j])` -/
  | W_from_shared (j : Nat)
  /-- Embeds `WeakPtr(weak[j])` -/
  | W_copy (j : Nat)
  /-- Embeds `WeakPtr(std::move(weak[j]))` -/
  | W_move (j : Nat)
  /-- Embeds `weak[i] = weak[j]` -/
  | W_copy_assign (i j : Nat)
  /-- Embeds `weak[i] = std::move(weak[j])` -/
  | W_move_assign (i j : Nat)
  /-- Embeds `weak[i].swap(weak[j])` -/
  | W_swap (i j : Nat)
  /-- Embeds `weak[i]` goes out of scope -/
  | W_dtor (i : Nat)
  deriving DecidableEq

/-- Add a new live Strong Handle variable holding `v`. -/
def State.pushS (s : State) (v : SharedPtr) : State :=
  { s with strong := s.strong ++ [some v] }

/-- Add a new live Weak Handle variable holding `v`. -/
def State.pushW (s : State) (v : WeakPtr) : State :=
  { s with weak := s.weak ++ [some v] }

/-- Overwrite Strong Handle slot `i`. -/
def State.setS (s : State) (i : Nat) (v : Option SharedPtr) : State :=
  { s with strong := s.strong.set i v }

/-- Overwrite Weak Handle slot `i`. -/
def State.setW (s : State) (i : Nat) (v : Option WeakPtr) : State :=
  { s with weak := s.weak.set i v }

/-- Replace the heap. -/
def State.withHeap (s : State) (h : Heap) : State :=
  { s with heap := h }

/-- One client operation.  The result is `none` when the operation names a slot
that holds no live handle (using a destroyed variable is not a program). -/
def step (s : State) : Op → Option State
  | Op.S_default => some (s.pushS SharedPtr.default_ctor)
  | Op.S_raw ptr alloc del =>
    let r := SharedPtr.raw_ctor s.heap ptr alloc del
    some ((s.withHeap r.1).pushS r.2)
  | Op.S_make =>
    let r := MakeShared s.heap
    some ((s.withHeap r.1).pushS r.2)
  | Op.S_allocate alloc =>
    let r := AllocateShared s.heap alloc
    some ((s.withHeap r.1).pushS r.2)
  | Op.S_copy j =>
    match s.getS j with
    | none => none
    | some b =>
      let r := SharedPtr.copy_ctor s.heap b
      some ((s.withHeap r.1).pushS r.2)
  | Op.S_move j =>
    match s.getS j with
    | none => none
    | some b =>
      let r := SharedPtr.move_ctor b
      some ((s.setS j (some r.2)).pushS r.1)
  | Op.S_copy_assign i j =>
    match s.getS i, s.getS j with
    | some a, some b =>
      let r := SharedPtr.copy_assign s.heap a b
      some ((s.withHeap r.1).setS i (some r.2))
    | _, _ => none
  | Op.S_move_assign i j =>
    match s.getS i, s.getS j with
    | some a, some b =>
      let r := SharedPtr.move_assign s.heap a b
      some (((s.withHeap r.1).setS j (some r.2.2)).setS i (some r.2.1))
    | _, _ => none
  | Op.S_reset i =>
    match s.getS i with
    | none => none
    | some a =>
      let r := SharedPtr.reset s.heap a
      some ((s.withHeap r.1).setS i (some r.2))
  | Op.S_swap i j =>
    match s.getS i, s.getS j with
    | some a, some b =>
      let r := SharedPtr.swap a b
      some ((s.setS j (some r.2)).setS i (some r.1))
    | _, _ => none
  | Op.S_dtor i =>
    match s.getS i with
    | none => none
    | some a => some ((s.withHeap (SharedPtr.dtor s.heap a)).setS i none)
  | Op.W_default => some (s.pushW WeakPtr.default_ctor)
  | Op.W_from_shared j =>
    match s.getS j with
    | none => none
    | some b =>
      let r := WeakPtr.from_shared s.heap b
      some ((s.withHeap r.1).pushW r.2)
  | Op.W_copy j =>
    match s.getW j with
    | none => none
    | some b =>
      let r := WeakPtr.copy_ctor s.heap b
      some ((s.withHeap r.1).pushW r.2)
  | Op.W_move j =>
    match s.getW j with
    | none => none
    | some b =>
      let r := WeakPtr.move_ctor b
      some ((s.setW j (some r.2)).pushW r.1)
  | Op.W_copy_assign i j =>
    match s.getW i, s.getW j with
    | some a, some b =>
      let r := WeakPtr.copy_assign s.heap a b
      some ((s.withHeap r.1).setW i (some r.2))
    | _, _ => none
  | Op.W_move_assign i j =>
    match s.getW i, s.getW j with
    | some a, some b =>
      let r := WeakPtr.move_assign s.heap a b
      some (((s.withHeap r.1).setW j (some r.2.2)).setW i (some r.2.1))
    | _, _ => none
  | Op.W_swap i j =>
    match s.getW i, s.getW j with
    | some a, some b =>
      let r := WeakPtr.swap a b
      some ((s.setW j (some r.2)).setW i (some r.1))
    | _, _ => none
  | Op.W_dtor i =>
    match s.getW i with
    | none => none
    | some a => some ((s.withHeap (WeakPtr.dtor s.heap a)).setW i none)

/-- Operations that bring a handle object into existence, the temporary of a
copy assignment included. -/
def Op.creates : Op → Bool
  | Op.S_default => true
  | Op.S_raw _ _ _ => true
  | Op.S_make => true
  | Op.S_allocate _ => true
  | Op.S_copy _ => true
  | Op.S_move _ => true
  | Op.S_copy_assign _ _ => true
  | Op.W_default => true
  | Op.W_from_shared _ => true
  | Op.W_copy _ => true
  | Op.W_move _ => true
  | Op.W_copy_assign _ _ => true
  | _ => false

/-- Address-space guard: every live handle object occupies storage of its own in
an address space of `SIZE_MOD` bytes, so an operation that creates a handle can
only run while fewer than `SIZE_MOD - 1` handles are alive. -/
def Op.fits (op : Op) (s : State) : Prop :=
  op.creates = true → s.live + 1 < SIZE_MOD

/-- Run a list of operations in order. -/
def run (s : State) : List Op → Option State
  | [] => some s
  | op :: ops =>
    match step s op with
    | none => none
    | some t => run t ops

/-- States reachable from no handles through the client operations. -/
inductive Reachable : State → Prop where
  | init : Reachable State.init
  | step (s t : State) (op : Op) :
      Reachable s → op.fits s → step s op = some t → Reachable t

/-- Bookkeeping invariant of a heap against the number `cS b` of live Strong
Handles and `cW b` of live Weak Handles on every block `b`. -/
structure HeapInv (h : Heap) (cS cW : Nat → Nat) : Prop where
  /-- the counters of an allocated block are the handle counts -/
  counts : ∀ b, b < h.next →
    (h.blocks b).shared_count = cS b ∧ (h.blocks b).weak_count = cW b
  /-- no handle refers to a block that has not been allocated -/
  fresh : ∀ b, h.next ≤ b → cS b = 0 ∧ cW b = 0
  /-- hook calls made so far on an allocated block -/
  hooks : ∀ b, b < h.next →
    h.delPtrCount b = (if cS b = 0 then 1 else 0) ∧
    h.delObjectCount b = (if cS b = 0 ∧ cW b = 0 then 1 else 0)
  /-- no hook has been called on a block that has not been allocated -/
  nohooks : ∀ b, h.next ≤ b → h.delPtrCount b = 0 ∧ h.delObjectCount b = 0
  /-- counter values recorded at every hook call -/
  snap : ∀ e, e ∈ h.trace →
    e.shared_count = 0 ∧ (e.hook = Hook.del_object → e.weak_count = 0)

/-- The invariant of a program state. -/
def Inv (s : State) : Prop :=
  HeapInv s.heap s.numStrong s.numWeak ∧ s.live < SIZE_MOD

/-- Whether every operation of `ops`, run in order from `s`, is defined and
passes the address-space guard. -/
def fitsAll (s : State) : List Op → Bool
  | [] => true
  | op :: ops =>
    (!op.creates || decide (s.live + 1 < SIZE_MOD)) &&
      (match step s op with
       | none => false
       | some t => fitsAll t ops)

/-- The state after running `ops` from no handles (the empty state when some
operation is undefined). -/
def after (ops : List Op) : State := (run State.init ops).getD State.init

/-- The empty handle value: both fields null. -/
def SharedPtr.null : SharedPtr := { contorol_block_ := none, object_ptr_ := none }

/-- The empty Weak Handle value: both fields null. -/
def WeakPtr.null : WeakPtr := { contorol_block_ := none, object_ptr_ := none }

/-- A small program: one combined block with two Strong Handles and one Weak Handle. -/
def demoOps : List Op := [Op.S_make, Op.S_copy 0, Op.W_from_shared 0]

/-- A program that ends with the object of block `0` released while two Weak
Handles keep the block. -/
def weakOutlivesOps : List Op :=
  [Op.S_make, Op.S_copy 0, Op.W_from_shared 0, Op.W_copy 0, Op.S_dtor 0]

/-- A program that creates a block, takes a Weak Handle and destroys every handle. -/
def allGoneOps : List Op := [Op.S_make, Op.W_from_shared 0, Op.S_dtor 0, Op.W_dtor 0]

/-- Operations that create a Strong Handle over a fresh control block. -/
def Op.isFactory : Op → Bool
  | Op.S_raw _ _ _ => true
  | Op.S_make => true
  | Op.S_allocate _ => true
  | _ => false

/-- The program "create a Strong Handle with `mk` (it lands in slot `k`) and copy
it `n` times". -/
def createAndCopy (mk : Op) (k n : Nat) : List Op :=
  mk :: List.replicate n (Op.S_copy k)

/-- A program leaving one Strong Handle and one Weak Handle on combined block `0`. -/
def lockOps : List Op := [Op.S_make, Op.W_from_shared 0]

/-- As `lockOps`, then the only Strong Handle is destroyed: the Weak Handle is expired. -/
def lockExpiredOps : List Op := [Op.S_make, Op.W_from_shared 0, Op.S_dtor 0]

/-- The handle value `MakeShared` returns for block `b`. -/
def SharedPtr.onObject (b : Nat) : SharedPtr :=
  { contorol_block_ := some b, object_ptr_ := some (Addr.object b) }

/-- The Weak Handle value taken from `SharedPtr.onObject b`. -/
def WeakPtr.onObject (b : Nat) : WeakPtr :=
  { contorol_block_ := some b, object_ptr_ := some (Addr.object b) }

/-- A Strong Handle and a copy of it. -/
def twoCopiesOps : List Op := [Op.S_make, Op.S_copy 0]

/-- A Weak Handle and a copy of it. -/
def twoWeakOps : List Op := [Op.S_make, Op.W_from_shared 0, Op.W_copy 0]

/-- Two Strong Handles over different combined blocks. -/
def twoBlocksOps : List Op := [Op.S_make, Op.S_make]

/-! ## The in-place factories with the value of the managed object -/

/-- Memory as the in-place factories see it: the heap of control blocks, the
value held by the `object` member of each combined block (`none` while no object
is constructed there), and the blocks whose storage was given back by the
unwinding of a failed construction. -/
structure Mem (T : Type) where
  heap : Heap
  object : Nat → Option T
  unwound : List Nat

/-- Memory before anything has been allocated. -/
def Mem.empty (T : Type) : Mem T :=
  { heap := Heap.empty, object := fun _ => none, unwound := [] }

/-- Obtain raw storage for one control block (`operator new`, or
`ctrl_alloc_traits::allocate(alloc_c, 1)`): returns the address of the storage. -/
def Mem.allocate {T : Type} (m : Mem T) : Mem T × Nat :=
  ({ m with heap := { m.heap with next := m.heap.next + 1 } }, m.heap.next)

/-- Give the storage of block `b` back (`operator delete`). -/
def Mem.deallocate {T : Type} (m : Mem T) (b : Nat) : Mem T :=
  { m with unwound := b :: m.unwound }

/-- Whether the storage of block `b` is allocated and has not been given back,
neither by unwinding nor by `del_object`. -/
def Mem.outstanding {T : Type} (m : Mem T) (b : Nat) : Bool :=
  decide (b < m.heap.next) && !(decide (b ∈ m.unwound)) &&
    decide (m.heap.delObjectCount b = 0)

/-- Embeds `ControlBlockMakeShared(const Allocator& alloc, Args&&... args)` run on the
storage at `b`: the base sub-object gets its default counters, the member `alloc`
is copied, and the body calls `alloc_traits::construct` on `addressof(object)`,
which builds `T(args...)` there.  `construct args` is that direct construction,
`none` when it throws.  The flag tells whether the constructor returned. -/
def ControlBlockMakeShared.ctor {T Args : Type} (construct : Args → Option T)
    (m : Mem T) (b : Nat) (alloc : Nat) (args : Args) : Mem T × Bool :=
  let m1 : Mem T :=
    { m with heap := m.heap.write b { variant := Variant.ControlBlockMakeShared alloc } }
  match construct args with
  | some v => ({ m1 with object := fun x => if x = b then some v else m1.object x }, true)
  | none => (m1, false)

/-- Embeds `MakeShared<T>(args...)` with the object value: the new-expression
allocates, runs the constructor of the block and, when that exits by an
exception, calls `operator delete` on the storage before the exception
propagates (no handle is returned then). -/
def MakeShared_with_args {T Args : Type} (construct : Args → Option T) (m : Mem T)
    (args : Args) : Mem T × Option SharedPtr :=
  let a := m.allocate
  let c := ControlBlockMakeShared.ctor construct a.1 a.2 0 args
  if c.2 then (c.1, some (SharedPtr.private_ctor (some a.2) (some (Addr.object a.2))))
  else (c.1.deallocate a.2, none)

/-- Embeds `AllocateShared<T>(alloc, args...)` with the object value: storage comes
from `ctrl_alloc_traits::allocate`, the block is constructed by placement new;
when the constructor exits by an exception nothing is given back (the placement
form has no storage of its own to release) and the exception propagates. -/
def AllocateShared_with_args {T Args : Type} (construct : Args → Option T) (m : Mem T)
    (alloc : Nat) (args : Args) : Mem T × Option SharedPtr :=
  let a := m.allocate
  let c := ControlBlockMakeShared.ctor construct a.1 a.2 alloc args
  if c.2 then (c.1, some (SharedPtr.private_ctor (some a.2) (some (Addr.object a.2))))
  else (c.1, none)

/-- Embeds `SharedPtr::operator*`: `*get()`.  The model holds the values of embedded
objects only; dereferencing anything else has no defined result here. -/
def SharedPtr.deref {T : Type} (m : Mem T) (this : SharedPtr) : Option T :=
  match SharedPtr.get this with
  | some (Addr.object b) => m.object b
  | _ => none

/-! ## What `del_ptr()` runs -/

/-- The call made by `del_ptr()`, by dynamic type of the block. -/
inductive Release where
  /-- the call `del(ptr)` of `ControlBlockRegular::del_ptr` -/
  | deleter (del : Nat) (ptr : Option Addr)
  /-- the call `alloc_traits::destroy(alloc, addressof(object))` of
  `ControlBlockMakeShared::del_ptr` -/
  | destroy (alloc : Nat) (object : Addr)
  deriving DecidableEq

/-- Embeds `del_ptr()` of the two variants, for a block at address `b`. -/
def Variant.del_ptr (b : Nat) : Variant → Release
  | Variant.ControlBlockRegular ptr _ del => Release.deleter del ptr
  | Variant.ControlBlockMakeShared alloc => Release.destroy alloc (Addr.object b)

/-- The calls made so far by `del_ptr()` on block `b`. -/
def Heap.releases (h : Heap) (b : Nat) : List Release :=
  List.replicate (h.delPtrCount b) ((h.blocks b).variant.del_ptr b)

/-! ## Executions -/

/-- The state `t` is reached from `s` by client operations. -/
inductive Steps : State → State → Prop where
  | refl (s : State) : Steps s s
  | tail (s t u : State) (op : Op) :
      Steps s t → op.fits t → step t op = some u → Steps s u

/-- The heap `h1` is a later stage of `h`: nothing is un-allocated, the record of
hook calls only grows, and the dynamic type and members of an allocated block
stay what they are. -/
structure Heap.Grows (h h1 : Heap) : Prop where
  next_le : h.next ≤ h1.next
  trace_ext : ∃ evs, h1.trace = evs ++ h.trace
  variant_eq : ∀ b, b < h.next → (h1.blocks b).variant = (h.blocks b).variant

/-! ## Shape of handles -/

/-- A null control-block pointer comes with a null object pointer. -/
def SharedPtr.shaped (a : SharedPtr) : Prop :=
  a.contorol_block_ = none → a.object_ptr_ = none

/-- A null control-block pointer comes with a null object pointer. -/
def WeakPtr.shaped (a : WeakPtr) : Prop :=
  a.contorol_block_ = none → a.object_ptr_ = none

/-- Every live handle of the state has the shape above. -/
def State.shaped (s : State) : Prop :=
  (∀ a, some a ∈ s.strong → a.shaped) ∧ (∀ w, some w ∈ s.weak → w.shaped)

/-! ## Assignment without the short-circuit -/

/-- Copy assignment as the plain sequence: construct a temporary copy of `ptr`,
exchange state with `*this`, destroy the temporary; no equality test. -/
def SharedPtr.copy_assign_plain (h : Heap) (this ptr : SharedPtr) : Heap × SharedPtr :=
  let c := SharedPtr.copy_ctor h ptr
  let w := SharedPtr.swap this c.2
  (SharedPtr.dtor c.1 w.2, w.1)

/-- The statement `a = SharedPtr();`: move assignment from a temporary empty
handle, which is destroyed at the end of the full expression. -/
def SharedPtr.assign_empty (h : Heap) (this : SharedPtr) : Heap × SharedPtr :=
  let r := SharedPtr.move_assign h this SharedPtr.default_ctor
  (SharedPtr.dtor r.1 r.2.2, r.2.1)

/-! ## Order of the hook calls -/

/-- Whether in a record of hook calls (newest first) every `del_object` call has
an earlier `del_ptr` call on the same block. -/
def orderedTrace : List Event → Bool
  | [] => true
  | e :: rest =>
    (decide (e.hook ≠ Hook.del_object) ||
      rest.any (fun p => decide (p.hook = Hook.del_ptr ∧ p.block = e.block))) &&
    orderedTrace rest

/-! ## A managed object that holds Weak Handles -/

/-- Embeds `del_ptr()` on block `b` when the managed object (or its deleter) holds
the Weak Handles `members`: the hook call is recorded and the destruction of the
object runs `~WeakPtr` on each member. -/
def del_ptr_with (h : Heap) (b : Nat) (members : List WeakPtr) : Heap :=
  members.foldl WeakPtr.dtor (del_ptr h b)

/-- Embeds `SharedPtr::~SharedPtr` for a managed object holding `members`.  After the
hook returns the destructor reads `contorol_block_->weak_count` again. -/
def SharedPtr.dtor_with (h : Heap) (this : SharedPtr) (members : List WeakPtr) : Heap :=
  match this.contorol_block_ with
  | none => h
  | some b =>
    let h1 := h.write b
      { h.blocks b with shared_count := ((h.blocks b).shared_count + SIZE_MOD - 1) % SIZE_MOD }
    if (h1.blocks b).shared_count = 0 then
      let h2 := del_ptr_with h1 b members
      if (h2.blocks b).weak_count = 0 then del_object h2 b else h2
    else h1

/-- Whether `SharedPtr::~SharedPtr` for an object holding `members` reads
`weak_count` of its block after `del_object` has been called on that block. -/
def SharedPtr.dtor_reads_released (h : Heap) (this : SharedPtr)
    (members : List WeakPtr) : Bool :=
  match this.contorol_block_ with
  | none => false
  | some b =>
    let h1 := h.write b
      { h.blocks b with shared_count := ((h.blocks b).shared_count + SIZE_MOD - 1) % SIZE_MOD }
    if (h1.blocks b).shared_count = 0 then
      decide (1 ≤ (del_ptr_with h1 b members).delObjectCount b)
    else false

/-! ## More example programs -/

/-- A handle adopted from a null raw pointer (slot 0) and an empty handle (slot 1). -/
def nullAdoptedOps : List Op := [Op.S_raw none 0 0, Op.S_default]

/-- The handle value adopted from a null raw pointer under block `b`. -/
def SharedPtr.onNull (b : Nat) : SharedPtr :=
  { contorol_block_ := some b, object_ptr_ := none }

/-- A handle adopted from the raw pointer `7` with deleter `3` and allocator `5`,
then copied once. -/
def adoptOps : List Op := [Op.S_raw (some (Addr.raw 7)) 5 3, Op.S_copy 0]

/-- A Strong Handle that has been moved from (slot 0) and the handle that took
over its block (slot 1). -/
def movedFromOps : List Op := [Op.S_make, Op.S_move 0]

/-- A handle adopted from the raw pointer `7` (slot 0) and one Weak Handle taken
from it (slot 0 of the Weak Handles); the Weak Handle is meant to be owned by the
managed object or by its deleter. -/
def ownerOps : List Op := [Op.S_raw (some (Addr.raw 7)) 0 0, Op.W_from_shared 0]

/-- The Strong Handle value of `ownerOps`. -/
def SharedPtr.onRaw7 : SharedPtr :=
  { contorol_block_ := some 0, object_ptr_ := some (Addr.raw 7) }

/-- The Weak Handle value of `ownerOps`. -/
def WeakPtr.onRaw7 : WeakPtr :=
  { contorol_block_ := some 0, object_ptr_ := some (Addr.raw 7) }

/-! ## Arithmetic of the counters -/

theorem mod_succ {c : Nat} (h : c + 1 < SIZE_MOD) : (c + 1) % SIZE_MOD = c + 1 :=
  Nat.mod_eq_of_lt h

theorem mod_pred {c : Nat} (h1 : 1 ≤ c) (h2 : c < SIZE_MOD) :
    (c + SIZE_MOD - 1) % SIZE_MOD = c - 1 := by
  unfold SIZE_MOD at *
  omega

/-! ## Heap primitives -/

@[simp] theorem write_blocks (h : Heap) (b x : Nat) (blk : BaseControlBlock) :
    (h.write b blk).blocks x = if x = b then blk else h.blocks x := rfl

@[simp] theorem write_next (h : Heap) (b : Nat) (blk : BaseControlBlock) :
    (h.write b blk).next = h.next := rfl

@[simp] theorem write_trace (h : Heap) (b : Nat) (blk : BaseControlBlock) :
    (h.write b blk).trace = h.trace := rfl

@[simp] theorem write_delPtrCount (h : Heap) (b x : Nat) (blk : BaseControlBlock) :
    (h.write b blk).delPtrCount x = h.delPtrCount x := rfl

@[simp] theorem write_delObjectCount (h : Heap) (b x : Nat) (blk : BaseControlBlock) :
    (h.write b blk).delObjectCount x = h.delObjectCount x := rfl

@[simp] theorem del_ptr_blocks (h : Heap) (b : Nat) : (del_ptr h b).blocks = h.blocks := rfl

@[simp] theorem del_ptr_next (h : Heap) (b : Nat) : (del_ptr h b).next = h.next := rfl

@[simp] theorem del_object_blocks (h : Heap) (b : Nat) :
    (del_object h b).blocks = h.blocks := rfl

@[simp] theorem del_object_next (h : Heap) (b : Nat) : (del_object h b).next = h.next := rfl

@[simp] theorem del_ptr_delPtrCount (h : Heap) (b x : Nat) :
    (del_ptr h b).delPtrCount x = h.delPtrCount x + (if b = x then 1 else 0) := by
  simp [del_ptr, Heap.delPtrCount, List.countP_cons]

@[simp] theorem del_ptr_delObjectCount (h : Heap) (b x : Nat) :
    (del_ptr h b).delObjectCount x = h.delObjectCount x := by
  simp [del_ptr, Heap.delObjectCount, List.countP_cons]

@[simp] theorem del_object_delPtrCount (h : Heap) (b x : Nat) :
    (del_object h b).delPtrCount x = h.delPtrCount x := by
  simp [del_object, Heap.delPtrCount, List.countP_cons]

@[simp] theorem del_object_delObjectCount (h : Heap) (b x : Nat) :
    (del_object h b).delObjectCount x = h.delObjectCount x + (if b = x then 1 else 0) := by
  simp [del_object, Heap.delObjectCount, List.countP_cons]

theorem mem_del_ptr_trace (h : Heap) (b : Nat) (e : Event) :
    e ∈ (del_ptr h b).trace ↔
      e = { hook := Hook.del_ptr, block := b, shared_count := (h.blocks b).shared_count,
            weak_count := (h.blocks b).weak_count } ∨ e ∈ h.trace := by
  simp [del_ptr]

theorem mem_del_object_trace (h : Heap) (b : Nat) (e : Event) :
    e ∈ (del_object h b).trace ↔
      e = { hook := Hook.del_object, block := b, shared_count := (h.blocks b).shared_count,
            weak_count := (h.blocks b).weak_count } ∨ e ∈ h.trace := by
  simp [del_object]

@[simp] theorem alloc_next (h : Heap) (v : Variant) : (h.alloc v).1.next = h.next + 1 := rfl

@[simp] theorem alloc_snd (h : Heap) (v : Variant) : (h.alloc v).2 = h.next := rfl

@[simp] theorem alloc_trace (h : Heap) (v : Variant) : (h.alloc v).1.trace = h.trace := rfl

@[simp] theorem alloc_blocks (h : Heap) (v : Variant) (x : Nat) :
    (h.alloc v).1.blocks x =
      if x = h.next then { shared_count := 1, weak_count := 0, variant := v }
      else h.blocks x := rfl

@[simp] theorem alloc_delPtrCount (h : Heap) (v : Variant) (x : Nat) :
    (h.alloc v).1.delPtrCount x = h.delPtrCount x := rfl

@[simp] theorem alloc_delObjectCount (h : Heap) (v : Variant) (x : Nat) :
    (h.alloc v).1.delObjectCount x = h.delObjectCount x := rfl

/-! ## The heap invariant under each primitive -/

theorem HeapInv.heap_congr {h : Heap} {cS cW cS1 cW1 : Nat → Nat} (hi : HeapInv h cS cW)
    (hS : ∀ b, cS1 b = cS b) (hW : ∀ b, cW1 b = cW b) : HeapInv h cS1 cW1 := by
  have e1 : cS1 = cS := funext hS
  have e2 : cW1 = cW := funext hW
  rw [e1, e2]
  exact hi

theorem HeapInv.heap_empty : HeapInv Heap.empty (fun _ => 0) (fun _ => 0) := by
  constructor
  · intro b hb
    simp [Heap.empty] at hb
  · intro b _
    simp
  · intro b hb
    simp [Heap.empty] at hb
  · intro b _
    simp [Heap.empty, Heap.delPtrCount, Heap.delObjectCount]
  · intro e he
    simp [Heap.empty] at he

theorem HeapInv.lt_next_of_strong {h : Heap} {cS cW : Nat → Nat} (hi : HeapInv h cS cW)
    {b : Nat} (hb : 1 ≤ cS b) : b < h.next := by
  by_contra hn
  have := (hi.fresh b (by omega)).1
  omega

theorem HeapInv.lt_next_of_weak {h : Heap} {cS cW : Nat → Nat} (hi : HeapInv h cS cW)
    {b : Nat} (hb : 1 ≤ cW b) : b < h.next := by
  by_contra hn
  have := (hi.fresh b (by omega)).2
  omega

theorem HeapInv.heap_alloc {h : Heap} {cS cW cS1 cW1 : Nat → Nat} (hi : HeapInv h cS cW)
    (v : Variant)
    (hS : ∀ b, cS1 b = cS b + (if b = h.next then 1 else 0))
    (hW : ∀ b, cW1 b = cW b) : HeapInv (h.alloc v).1 cS1 cW1 := by
  constructor
  · intro b hb
    rw [hS, hW]
    by_cases hbn : b = h.next
    · have := hi.fresh b (by omega)
      simp [hbn] at this ⊢
      omega
    · have := hi.counts b (by simp at hb; omega)
      simp [hbn, this]
  · intro b hb
    rw [hS, hW]
    simp at hb
    have := hi.fresh b (by omega)
    have hbn : b ≠ h.next := by omega
    simp [hbn, this]
  · intro b hb
    rw [hS, hW]
    by_cases hbn : b = h.next
    · have h1 := hi.nohooks b (by omega)
      simp [hbn] at h1 ⊢
      exact h1
    · have := hi.hooks b (by simp at hb; omega)
      simpa [hbn] using this
  · intro b hb
    simp at hb
    simpa using hi.nohooks b (by omega)
  · intro e he
    exact hi.snap e he

theorem HeapInv.incShared {h : Heap} {cS cW cS1 cW1 : Nat → Nat} (hi : HeapInv h cS cW)
    (b0 : Nat) (h1 : 1 ≤ cS b0) (h2 : cS b0 + 1 < SIZE_MOD)
    (hS : ∀ b, cS1 b = cS b + (if b = b0 then 1 else 0))
    (hW : ∀ b, cW1 b = cW b) :
    HeapInv (h.write b0 { h.blocks b0 with
      shared_count := ((h.blocks b0).shared_count + 1) % SIZE_MOD }) cS1 cW1 := by
  have hb0 : b0 < h.next := hi.lt_next_of_strong h1
  have hc0 := hi.counts b0 hb0
  constructor
  · intro b hb
    rw [hS, hW]
    have hc := hi.counts b hb
    by_cases hbb : b = b0
    · subst hbb
      simp [hc.1, hc.2, mod_succ h2]
    · simp [hbb, hc]
  · intro b hb
    rw [hS, hW]
    have hf := hi.fresh b hb
    have hbb : b ≠ b0 := by
      intro hbb
      rw [hbb] at hf
      omega
    simp [hbb, hf]
  · intro b hb
    rw [hS, hW]
    have hk := hi.hooks b hb
    by_cases hbb : b = b0
    · subst hbb
      have hne : cS b ≠ 0 := by omega
      simp [hne] at hk ⊢
      exact hk
    · simpa [hbb] using hk
  · intro b hb
    simpa using hi.nohooks b hb
  · intro e he
    exact hi.snap e he

theorem HeapInv.incWeak {h : Heap} {cS cW cS1 cW1 : Nat → Nat} (hi : HeapInv h cS cW)
    (b0 : Nat) (h1 : 1 ≤ cS b0 ∨ 1 ≤ cW b0) (h2 : cW b0 + 1 < SIZE_MOD)
    (hS : ∀ b, cS1 b = cS b)
    (hW : ∀ b, cW1 b = cW b + (if b = b0 then 1 else 0)) :
    HeapInv (h.write b0 { h.blocks b0 with
      weak_count := ((h.blocks b0).weak_count + 1) % SIZE_MOD }) cS1 cW1 := by
  have hb0 : b0 < h.next := by
    rcases h1 with h1 | h1
    · exact hi.lt_next_of_strong h1
    · exact hi.lt_next_of_weak h1
  constructor
  · intro b hb
    rw [hS, hW]
    have hc := hi.counts b hb
    by_cases hbb : b = b0
    · subst hbb
      simp [hc.1, hc.2, mod_succ h2]
    · simp [hbb, hc]
  · intro b hb
    rw [hS, hW]
    have hf := hi.fresh b hb
    have hbb : b ≠ b0 := by
      intro hbb
      rw [hbb] at hf
      omega
    simp [hbb, hf]
  · intro b hb
    rw [hS, hW]
    have hk := hi.hooks b hb
    by_cases hbb : b = b0
    · subst hbb
      refine ⟨by simpa using hk.1, ?_⟩
      have hne : ¬ (cS b = 0 ∧ cW b = 0) := by omega
      rw [write_delObjectCount, hk.2, if_neg hne, if_neg]
      simp
    · simpa [hbb] using hk
  · intro b hb
    simpa using hi.nohooks b hb
  · intro e he
    exact hi.snap e he

theorem HeapInv.heap_copy_ctor {h : Heap} {cS cW cS1 cW1 : Nat → Nat} (hi : HeapInv h cS cW)
    (p : SharedPtr)
    (h1 : ∀ b, p.contorol_block_ = some b → 1 ≤ cS b ∧ cS b + 1 < SIZE_MOD)
    (hS : ∀ b, cS1 b = cS b + (if p.contorol_block_ = some b then 1 else 0))
    (hW : ∀ b, cW1 b = cW b) :
    HeapInv (SharedPtr.copy_ctor h p).1 cS1 cW1 := by
  unfold SharedPtr.copy_ctor
  cases hp : p.contorol_block_ with
  | none =>
    simp only [hp] at hS
    exact hi.heap_congr (by simpa using hS) hW
  | some b0 =>
    simp only [hp] at hS
    have := h1 b0 hp
    refine hi.incShared b0 this.1 this.2 ?_ hW
    intro b
    rw [hS]
    by_cases hbb : b = b0
    · simp [hbb]
    · have : b0 ≠ b := fun e => hbb e.symm
      simp [hbb, this]

theorem HeapInv.heap_weak_copy_ctor {h : Heap} {cS cW cS1 cW1 : Nat → Nat}
    (hi : HeapInv h cS cW) (p : WeakPtr)
    (h1 : ∀ b, p.contorol_block_ = some b → 1 ≤ cW b ∧ cW b + 1 < SIZE_MOD)
    (hS : ∀ b, cS1 b = cS b)
    (hW : ∀ b, cW1 b = cW b + (if p.contorol_block_ = some b then 1 else 0)) :
    HeapInv (WeakPtr.copy_ctor h p).1 cS1 cW1 := by
  unfold WeakPtr.copy_ctor
  cases hp : p.contorol_block_ with
  | none =>
    simp only [hp] at hW
    exact hi.heap_congr hS (by simpa using hW)
  | some b0 =>
    simp only [hp] at hW
    have := h1 b0 hp
    refine hi.incWeak b0 (Or.inr this.1) this.2 hS ?_
    intro b
    rw [hW]
    by_cases hbb : b = b0
    · simp [hbb]
    · have : b0 ≠ b := fun e => hbb e.symm
      simp [hbb, this]

theorem HeapInv.heap_from_shared {h : Heap} {cS cW cS1 cW1 : Nat → Nat}
    (hi : HeapInv h cS cW) (p : SharedPtr)
    (h1 : ∀ b, p.contorol_block_ = some b → 1 ≤ cS b ∧ cW b + 1 < SIZE_MOD)
    (hS : ∀ b, cS1 b = cS b)
    (hW : ∀ b, cW1 b = cW b + (if p.contorol_block_ = some b then 1 else 0)) :
    HeapInv (WeakPtr.from_shared h p).1 cS1 cW1 := by
  unfold WeakPtr.from_shared
  cases hp : p.contorol_block_ with
  | none =>
    simp only [hp] at hW
    exact hi.heap_congr hS (by simpa using hW)
  | some b0 =>
    simp only [hp] at hW
    have := h1 b0 hp
    refine hi.incWeak b0 (Or.inl this.1) this.2 hS ?_
    intro b
    rw [hW]
    by_cases hbb : b = b0
    · simp [hbb]
    · have : b0 ≠ b := fun e => hbb e.symm
      simp [hbb, this]

theorem HeapInv.heap_dtor {h : Heap} {cS cW cS1 cW1 : Nat → Nat} (hi : HeapInv h cS cW)
    (p : SharedPtr) (hlt : ∀ b, cS b < SIZE_MOD)
    (hS : ∀ b, cS1 b + (if p.contorol_block_ = some b then 1 else 0) = cS b)
    (hW : ∀ b, cW1 b = cW b) :
    HeapInv (SharedPtr.dtor h p) cS1 cW1 := by
  unfold SharedPtr.dtor
  cases hp : p.contorol_block_ with
  | none =>
    simp only [hp] at hS
    exact hi.heap_congr (by simpa using hS) hW
  | some b0 =>
    simp only [hp] at hS
    have hS0 := hS b0
    simp only [if_true] at hS0
    have hge : 1 ≤ cS b0 := by omega
    have hb0 : b0 < h.next := hi.lt_next_of_strong hge
    have hc0 := hi.counts b0 hb0
    have hk0 := hi.hooks b0 hb0
    have hne0 : cS b0 ≠ 0 := by omega
    have hSne : ∀ b, b ≠ b0 → cS1 b = cS b := by
      intro b hb
      have := hS b
      have hb2 : ¬ (some b0 = some b) := by
        intro e
        exact hb (Option.some.inj e).symm
      simpa [hb2] using this
    have hdec : ((h.blocks b0).shared_count + SIZE_MOD - 1) % SIZE_MOD = cS1 b0 := by
      rw [hc0.1, mod_pred hge (hlt b0)]
      omega
    simp only [write_blocks, if_true, del_ptr_blocks, hdec]
    have hcounts : ∀ b, b < h.next →
        ((h.write b0 { h.blocks b0 with shared_count := cS1 b0 }).blocks b).shared_count
          = cS1 b ∧
        ((h.write b0 { h.blocks b0 with shared_count := cS1 b0 }).blocks b).weak_count
          = cW1 b := by
      intro b hb
      rw [hW]
      by_cases hbb : b = b0
      · subst hbb
        simp [hc0.2]
      · have := hi.counts b hb
        simp [hbb, this, hSne b hbb]
    have hfresh : ∀ b, h.next ≤ b → cS1 b = 0 ∧ cW1 b = 0 := by
      intro b hb
      have hbb : b ≠ b0 := by omega
      rw [hW, hSne b hbb]
      exact hi.fresh b hb
    split_ifs with c1 c2
    · -- last Strong Handle, no Weak Handle: both hooks run
      constructor
      · intro b hb
        exact hcounts b hb
      · intro b hb
        exact hfresh b hb
      · intro b hb
        by_cases hbb : b = b0
        · subst hbb
          have hw : cW1 b = 0 := by rw [hW, ← hc0.2]; exact c2
          simp [c1, hw, hk0.1, hk0.2, hne0]
        · have hk := hi.hooks b hb
          have hbb2 : b0 ≠ b := fun e => hbb e.symm
          simp [hbb2, hW, hSne b hbb, hk.1, hk.2]
      · intro b hb
        have hbb2 : b0 ≠ b := by
          simp at hb
          omega
        simpa [hbb2] using hi.nohooks b hb
      · intro e he
        rw [mem_del_object_trace, mem_del_ptr_trace] at he
        rcases he with he | he | he
        · subst he
          simp [c1, c2]
        · subst he
          simp [c1]
        · exact hi.snap e he
    · -- last Strong Handle, Weak Handles remain: only `del_ptr` runs
      constructor
      · intro b hb
        exact hcounts b hb
      · intro b hb
        exact hfresh b hb
      · intro b hb
        by_cases hbb : b = b0
        · subst hbb
          have hw : cW1 b ≠ 0 := by rw [hW, ← hc0.2]; exact c2
          simp [c1, hw, hk0.1, hk0.2, hne0]
        · have hk := hi.hooks b hb
          have hbb2 : b0 ≠ b := fun e => hbb e.symm
          simp [hbb2, hW, hSne b hbb, hk.1, hk.2]
      · intro b hb
        have hbb2 : b0 ≠ b := by
          simp at hb
          omega
        simpa [hbb2] using hi.nohooks b hb
      · intro e he
        rw [mem_del_ptr_trace] at he
        rcases he with he | he
        · subst he
          simp [c1]
        · exact hi.snap e he
    · -- other Strong Handles remain: no hook runs
      constructor
      · intro b hb
        exact hcounts b hb
      · intro b hb
        exact hfresh b hb
      · intro b hb
        by_cases hbb : b = b0
        · subst hbb
          simp [c1, hk0.1, hk0.2, hne0]
        · have hk := hi.hooks b hb
          simp [hW, hSne b hbb, hk.1, hk.2]
      · intro b hb
        simpa using hi.nohooks b hb
      · intro e he
        exact hi.snap e he

theorem HeapInv.heap_weak_dtor {h : Heap} {cS cW cS1 cW1 : Nat → Nat} (hi : HeapInv h cS cW)
    (p : WeakPtr) (hlt : ∀ b, cW b < SIZE_MOD)
    (hS : ∀ b, cS1 b = cS b)
    (hW : ∀ b, cW1 b + (if p.contorol_block_ = some b then 1 else 0) = cW b) :
    HeapInv (WeakPtr.dtor h p) cS1 cW1 := by
  unfold WeakPtr.dtor
  cases hp : p.contorol_block_ with
  | none =>
    simp only [hp] at hW
    exact hi.heap_congr hS (by simpa using hW)
  | some b0 =>
    simp only [hp] at hW
    have hW0 := hW b0
    simp only [if_true] at hW0
    have hge : 1 ≤ cW b0 := by omega
    have hb0 : b0 < h.next := hi.lt_next_of_weak hge
    have hc0 := hi.counts b0 hb0
    have hk0 := hi.hooks b0 hb0
    have hne0 : ¬ (cS b0 = 0 ∧ cW b0 = 0) := by omega
    have hWne : ∀ b, b ≠ b0 → cW1 b = cW b := by
      intro b hb
      have := hW b
      have hb2 : ¬ (some b0 = some b) := by
        intro e
        exact hb (Option.some.inj e).symm
      simpa [hb2] using this
    have hdec : ((h.blocks b0).weak_count + SIZE_MOD - 1) % SIZE_MOD = cW1 b0 := by
      rw [hc0.2, mod_pred hge (hlt b0)]
      omega
    simp only [write_blocks, if_true, hdec]
    have hcounts : ∀ b, b < h.next →
        ((h.write b0 { h.blocks b0 with weak_count := cW1 b0 }).blocks b).shared_count
          = cS1 b ∧
        ((h.write b0 { h.blocks b0 with weak_count := cW1 b0 }).blocks b).weak_count
          = cW1 b := by
      intro b hb
      rw [hS]
      by_cases hbb : b = b0
      · subst hbb
        simp [hc0.1]
      · have := hi.counts b hb
        simp [hbb, this, hWne b hbb]
    have hfresh : ∀ b, h.next ≤ b → cS1 b = 0 ∧ cW1 b = 0 := by
      intro b hb
      have hbb : b ≠ b0 := by omega
      rw [hS, hWne b hbb]
      exact hi.fresh b hb
    split_ifs with c1
    · -- last Weak Handle of a block without Strong Handles: `del_object` runs
      constructor
      · intro b hb
        exact hcounts b hb
      · intro b hb
        exact hfresh b hb
      · intro b hb
        by_cases hbb : b = b0
        · subst hbb
          have hs : cS1 b = 0 := by rw [hS, ← hc0.1]; exact c1.1
          have hs2 : cS b = 0 := by rw [← hS]; exact hs
          have hw2 : cW b ≠ 0 := by omega
          simp [hs, c1.2, hk0.1, hk0.2, hs2, hw2]
        · have hk := hi.hooks b hb
          have hbb2 : b0 ≠ b := fun e => hbb e.symm
          simp [hbb2, hS, hWne b hbb, hk.1, hk.2]
      · intro b hb
        have hbb2 : b0 ≠ b := by
          simp at hb
          omega
        simpa [hbb2] using hi.nohooks b hb
      · intro e he
        rw [mem_del_object_trace] at he
        rcases he with he | he
        · subst he
          simp [c1.1, c1.2]
        · exact hi.snap e he
    · -- otherwise no hook runs
      constructor
      · intro b hb
        exact hcounts b hb
      · intro b hb
        exact hfresh b hb
      · intro b hb
        by_cases hbb : b = b0
        · subst hbb
          have hc1 : ¬ (cS1 b = 0 ∧ cW1 b = 0) := by
            rw [hS, ← hc0.1]
            exact c1
          rw [hS] at hc1
          simp only [write_delPtrCount, write_delObjectCount, hS, hk0.1, hk0.2,
            if_neg hne0, if_neg hc1, and_self]
        · have hk := hi.hooks b hb
          simp [hS, hWne b hbb, hk.1, hk.2]
      · intro b hb
        simpa using hi.nohooks b hb
      · intro e he
        exact hi.snap e he

/-! ## Handle slots: counting lemmas -/

theorem getD_eq_some {α : Type} {l : List (Option α)} {i : Nat} {a : α}
    (h : l.getD i none = some a) : ∃ hlt : i < l.length, l[i] = some a := by
  rw [List.getD_eq_getElem?_getD] at h
  by_cases hlt : i < l.length
  · refine ⟨hlt, ?_⟩
    rw [List.getElem?_eq_getElem hlt] at h
    simpa using h
  · rw [List.getElem?_eq_none (by omega)] at h
    simp at h

theorem countP_set_of_getD {α : Type} (p : Option α → Bool) {l : List (Option α)} {i : Nat}
    {a : α} (h : l.getD i none = some a) (v : Option α) :
    (l.set i v).countP p + (if p (some a) then 1 else 0)
      = l.countP p + (if p v then 1 else 0) := by
  obtain ⟨hlt, hget⟩ := getD_eq_some h
  have h1 := List.countP_set p l i v hlt
  have h2 := List.boole_getElem_le_countP p l i hlt
  rw [hget] at h1 h2
  omega

theorem getD_set_self {α : Type} {l : List (Option α)} {i : Nat} {a : α}
    (h : l.getD i none = some a) (v : Option α) : (l.set i v).getD i none = v := by
  obtain ⟨hlt, _⟩ := getD_eq_some h
  simp [List.getD_eq_getElem?_getD, List.getElem?_set, hlt]

theorem getD_set_ne {α : Type} (l : List (Option α)) {i j : Nat} (hij : i ≠ j)
    (v : Option α) : (l.set i v).getD j none = l.getD j none := by
  simp [List.getD_eq_getElem?_getD, List.getElem?_set, hij]

theorem getD_append_lt {α : Type} (l : List (Option α)) {j : Nat} (hj : j < l.length)
    (v : Option α) : (l ++ [v]).getD j none = l.getD j none := by
  simp [List.getD_eq_getElem?_getD, List.getElem?_append_left hj]

theorem getD_append_length {α : Type} (l : List (Option α)) (v : Option α) :
    (l ++ [v]).getD l.length none = v := by
  simp [List.getD_eq_getElem?_getD]

@[simp] theorem withHeap_heap (s : State) (h : Heap) : (s.withHeap h).heap = h := rfl

@[simp] theorem withHeap_strong (s : State) (h : Heap) : (s.withHeap h).strong = s.strong := rfl

@[simp] theorem withHeap_weak (s : State) (h : Heap) : (s.withHeap h).weak = s.weak := rfl

@[simp] theorem withHeap_numStrong (s : State) (h : Heap) (b : Nat) :
    (s.withHeap h).numStrong b = s.numStrong b := rfl

@[simp] theorem withHeap_numWeak (s : State) (h : Heap) (b : Nat) :
    (s.withHeap h).numWeak b = s.numWeak b := rfl

@[simp] theorem withHeap_live (s : State) (h : Heap) : (s.withHeap h).live = s.live := rfl

@[simp] theorem withHeap_getS (s : State) (h : Heap) (i : Nat) :
    (s.withHeap h).getS i = s.getS i := rfl

@[simp] theorem withHeap_getW (s : State) (h : Heap) (i : Nat) :
    (s.withHeap h).getW i = s.getW i := rfl

@[simp] theorem pushS_heap (s : State) (v : SharedPtr) : (s.pushS v).heap = s.heap := rfl

@[simp] theorem pushW_heap (s : State) (v : WeakPtr) : (s.pushW v).heap = s.heap := rfl

@[simp] theorem setS_heap (s : State) (i : Nat) (v : Option SharedPtr) :
    (s.setS i v).heap = s.heap := rfl

@[simp] theorem setW_heap (s : State) (i : Nat) (v : Option WeakPtr) :
    (s.setW i v).heap = s.heap := rfl

@[simp] theorem pushS_numWeak (s : State) (v : SharedPtr) (b : Nat) :
    (s.pushS v).numWeak b = s.numWeak b := rfl

@[simp] theorem pushW_numStrong (s : State) (v : WeakPtr) (b : Nat) :
    (s.pushW v).numStrong b = s.numStrong b := rfl

@[simp] theorem setS_numWeak (s : State) (i : Nat) (v : Option SharedPtr) (b : Nat) :
    (s.setS i v).numWeak b = s.numWeak b := rfl

@[simp] theorem setW_numStrong (s : State) (i : Nat) (v : Option WeakPtr) (b : Nat) :
    (s.setW i v).numStrong b = s.numStrong b := rfl

@[simp] theorem pushS_getW (s : State) (v : SharedPtr) (i : Nat) :
    (s.pushS v).getW i = s.getW i := rfl

@[simp] theorem pushW_getS (s : State) (v : WeakPtr) (i : Nat) :
    (s.pushW v).getS i = s.getS i := rfl

@[simp] theorem setS_getW (s : State) (i : Nat) (v : Option SharedPtr) (j : Nat) :
    (s.setS i v).getW j = s.getW j := rfl

@[simp] theorem setW_getS (s : State) (i : Nat) (v : Option WeakPtr) (j : Nat) :
    (s.setW i v).getS j = s.getS j := rfl

theorem pushS_numStrong (s : State) (v : SharedPtr) (b : Nat) :
    (s.pushS v).numStrong b
      = s.numStrong b + (if v.contorol_block_ = some b then 1 else 0) := by
  simp [State.pushS, State.numStrong, List.countP_append, List.countP_cons, ctrlS]

theorem pushW_numWeak (s : State) (v : WeakPtr) (b : Nat) :
    (s.pushW v).numWeak b
      = s.numWeak b + (if v.contorol_block_ = some b then 1 else 0) := by
  simp [State.pushW, State.numWeak, List.countP_append, List.countP_cons, ctrlW]

theorem pushS_live (s : State) (v : SharedPtr) : (s.pushS v).live = s.live + 1 := by
  simp [State.pushS, State.live, List.countP_append, List.countP_cons]
  omega

theorem pushW_live (s : State) (v : WeakPtr) : (s.pushW v).live = s.live + 1 := by
  simp [State.pushW, State.live, List.countP_append, List.countP_cons]
  omega

theorem setS_numStrong {s : State} {i : Nat} {a : SharedPtr} (h : s.getS i = some a)
    (v : Option SharedPtr) (b : Nat) :
    (s.setS i v).numStrong b + (if a.contorol_block_ = some b then 1 else 0)
      = s.numStrong b + (if ctrlS v = some b then 1 else 0) := by
  have := countP_set_of_getD (fun o => decide (ctrlS o = some b)) h v
  simpa [State.setS, State.numStrong, ctrlS] using this

theorem setW_numWeak {s : State} {i : Nat} {a : WeakPtr} (h : s.getW i = some a)
    (v : Option WeakPtr) (b : Nat) :
    (s.setW i v).numWeak b + (if a.contorol_block_ = some b then 1 else 0)
      = s.numWeak b + (if ctrlW v = some b then 1 else 0) := by
  have := countP_set_of_getD (fun o => decide (ctrlW o = some b)) h v
  simpa [State.setW, State.numWeak, ctrlW] using this

theorem setS_live {s : State} {i : Nat} {a : SharedPtr} (h : s.getS i = some a)
    (v : Option SharedPtr) :
    (s.setS i v).live + 1 = s.live + (if v.isSome then 1 else 0) := by
  have := countP_set_of_getD Option.isSome h v
  simp only [State.setS, State.live, Option.isSome_some, if_true] at this ⊢
  omega

theorem setW_live {s : State} {i : Nat} {a : WeakPtr} (h : s.getW i = some a)
    (v : Option WeakPtr) :
    (s.setW i v).live + 1 = s.live + (if v.isSome then 1 else 0) := by
  have := countP_set_of_getD Option.isSome h v
  simp only [State.setW, State.live, Option.isSome_some, if_true] at this ⊢
  omega

theorem setS_getS_self {s : State} {i : Nat} {a : SharedPtr} (h : s.getS i = some a)
    (v : Option SharedPtr) : (s.setS i v).getS i = v :=
  getD_set_self h v

theorem setS_getS_ne (s : State) {i j : Nat} (hij : i ≠ j) (v : Option SharedPtr) :
    (s.setS i v).getS j = s.getS j :=
  getD_set_ne s.strong hij v

theorem setW_getW_self {s : State} {i : Nat} {a : WeakPtr} (h : s.getW i = some a)
    (v : Option WeakPtr) : (s.setW i v).getW i = v :=
  getD_set_self h v

theorem setW_getW_ne (s : State) {i j : Nat} (hij : i ≠ j) (v : Option WeakPtr) :
    (s.setW i v).getW j = s.getW j :=
  getD_set_ne s.weak hij v

theorem getS_lt_length {s : State} {i : Nat} {a : SharedPtr} (h : s.getS i = some a) :
    i < s.strong.length :=
  (getD_eq_some h).1

theorem getW_lt_length {s : State} {i : Nat} {a : WeakPtr} (h : s.getW i = some a) :
    i < s.weak.length :=
  (getD_eq_some h).1

theorem pushS_getS_lt (s : State) (v : SharedPtr) {j : Nat} (hj : j < s.strong.length) :
    (s.pushS v).getS j = s.getS j :=
  getD_append_lt s.strong hj (some v)

theorem pushS_getS_new (s : State) (v : SharedPtr) :
    (s.pushS v).getS s.strong.length = some v :=
  getD_append_length s.strong (some v)

theorem pushW_getW_lt (s : State) (v : WeakPtr) {j : Nat} (hj : j < s.weak.length) :
    (s.pushW v).getW j = s.getW j :=
  getD_append_lt s.weak hj (some v)

theorem pushW_getW_new (s : State) (v : WeakPtr) :
    (s.pushW v).getW s.weak.length = some v :=
  getD_append_length s.weak (some v)

/-- A live handle on `b` is counted by `numStrong`. -/
theorem numStrong_pos {s : State} {i : Nat} {a : SharedPtr} (h : s.getS i = some a)
    {b : Nat} (hb : a.contorol_block_ = some b) : 1 ≤ s.numStrong b := by
  obtain ⟨hlt, hget⟩ := getD_eq_some h
  have := List.boole_getElem_le_countP (fun o => decide (ctrlS o = some b)) s.strong i hlt
  rw [hget] at this
  simpa [State.numStrong, ctrlS, hb] using this

theorem numWeak_pos {s : State} {i : Nat} {a : WeakPtr} (h : s.getW i = some a)
    {b : Nat} (hb : a.contorol_block_ = some b) : 1 ≤ s.numWeak b := by
  obtain ⟨hlt, hget⟩ := getD_eq_some h
  have := List.boole_getElem_le_countP (fun o => decide (ctrlW o = some b)) s.weak i hlt
  rw [hget] at this
  simpa [State.numWeak, ctrlW, hb] using this

theorem countP_le_countP_isSome {α : Type} (f : Option α → Option Nat)
    (hf : f none = none) (b : Nat) (l : List (Option α)) :
    l.countP (fun o => decide (f o = some b)) ≤ l.countP Option.isSome := by
  induction l with
  | nil => simp
  | cons x l ih =>
    cases x with
    | none => simpa [List.countP_cons, hf] using ih
    | some a =>
      simp only [List.countP_cons, Option.isSome_some, if_true]
      split_ifs <;> omega

theorem numStrong_le_live (s : State) (b : Nat) : s.numStrong b ≤ s.live := by
  have := countP_le_countP_isSome ctrlS rfl b s.strong
  simp only [State.numStrong, State.live]
  omega

theorem numWeak_le_live (s : State) (b : Nat) : s.numWeak b ≤ s.live := by
  have := countP_le_countP_isSome ctrlW rfl b s.weak
  simp only [State.numWeak, State.live]
  omega

theorem numStrong_add_numWeak_le_live (s : State) (b : Nat) :
    s.numStrong b + s.numWeak b ≤ s.live := by
  have h1 := countP_le_countP_isSome ctrlS rfl b s.strong
  have h2 := countP_le_countP_isSome ctrlW rfl b s.weak
  simp only [State.numStrong, State.numWeak, State.live]
  omega

/-! ## The heap invariant under the composite member functions -/

theorem HeapInv.heap_copy_assign {h : Heap} {cS cW cS1 cW1 : Nat → Nat} (hi : HeapInv h cS cW)
    (a b : SharedPtr)
    (hb : ∀ x, b.contorol_block_ = some x → 1 ≤ cS x)
    (hlt : ∀ x, cS x + 1 < SIZE_MOD)
    (hS : ∀ x, cS1 x + (if a.contorol_block_ = some x then 1 else 0)
      = cS x + (if (SharedPtr.copy_assign h a b).2.contorol_block_ = some x then 1 else 0))
    (hW : ∀ x, cW1 x = cW x) :
    HeapInv (SharedPtr.copy_assign h a b).1 cS1 cW1 := by
  unfold SharedPtr.copy_assign at hS ⊢
  by_cases he : SharedPtr.eq a b = true
  · simp only [he, if_true] at hS ⊢
    exact hi.heap_congr (fun x => by have := hS x; omega) hW
  · simp only [he] at hS ⊢
    have h1 : HeapInv (SharedPtr.copy_ctor h b).1
        (fun x => cS x + (if b.contorol_block_ = some x then 1 else 0)) cW :=
      hi.heap_copy_ctor b (fun x hx => ⟨hb x hx, hlt x⟩) (fun _ => rfl) (fun _ => rfl)
    refine h1.heap_dtor _ ?_ ?_ hW
    · intro x
      have := hlt x
      show cS x + (if b.contorol_block_ = some x then 1 else 0) < SIZE_MOD
      split_ifs <;> omega
    · intro x
      have := hS x
      simp only [SharedPtr.swap] at this ⊢
      have e : (SharedPtr.copy_ctor h b).2.contorol_block_ = b.contorol_block_ := by
        unfold SharedPtr.copy_ctor
        cases hp : b.contorol_block_ <;> rfl
      rw [e] at this
      exact this

theorem HeapInv.heap_weak_copy_assign {h : Heap} {cS cW cS1 cW1 : Nat → Nat}
    (hi : HeapInv h cS cW) (a b : WeakPtr)
    (hb : ∀ x, b.contorol_block_ = some x → 1 ≤ cW x)
    (hlt : ∀ x, cW x + 1 < SIZE_MOD)
    (hS : ∀ x, cS1 x = cS x)
    (hW : ∀ x, cW1 x + (if a.contorol_block_ = some x then 1 else 0)
      = cW x + (if (WeakPtr.copy_assign h a b).2.contorol_block_ = some x then 1 else 0)) :
    HeapInv (WeakPtr.copy_assign h a b).1 cS1 cW1 := by
  unfold WeakPtr.copy_assign at hW ⊢
  by_cases he : WeakPtr.eq a b = true
  · simp only [he, if_true] at hW ⊢
    exact hi.heap_congr hS (fun x => by have := hW x; omega)
  · simp only [he] at hW ⊢
    have h1 : HeapInv (WeakPtr.copy_ctor h b).1 cS
        (fun x => cW x + (if b.contorol_block_ = some x then 1 else 0)) :=
      hi.heap_weak_copy_ctor b (fun x hx => ⟨hb x hx, hlt x⟩) (fun _ => rfl) (fun _ => rfl)
    refine h1.heap_weak_dtor _ ?_ hS ?_
    · intro x
      have := hlt x
      show cW x + (if b.contorol_block_ = some x then 1 else 0) < SIZE_MOD
      split_ifs <;> omega
    · intro x
      have := hW x
      simp only [WeakPtr.swap] at this ⊢
      have e : (WeakPtr.copy_ctor h b).2.contorol_block_ = b.contorol_block_ := by
        unfold WeakPtr.copy_ctor
        cases hp : b.contorol_block_ <;> rfl
      rw [e] at this
      exact this

/-- Counting after two successive slot writes (`j` first, then `i`). -/
theorem setS_setS_numStrong {s : State} {i j : Nat} {a b : SharedPtr}
    (hi : s.getS i = some a) (hj : s.getS j = some b) (u v : SharedPtr)
    (hij : i = j → u = a ∧ v = b) (x : Nat) :
    ((s.setS j (some v)).setS i (some u)).numStrong x
        + (if a.contorol_block_ = some x then 1 else 0)
        + (if b.contorol_block_ = some x then 1 else 0)
      = s.numStrong x + (if u.contorol_block_ = some x then 1 else 0)
        + (if v.contorol_block_ = some x then 1 else 0) := by
  have h1 := setS_numStrong hj (some v) x
  by_cases e : i = j
  · subst e
    have hab : a = b := by
      rw [hi] at hj
      exact Option.some.inj hj
    obtain ⟨hu, hv⟩ := hij rfl
    subst hab
    rw [hv] at h1
    rw [hu, hv]
    have h2 := setS_numStrong (setS_getS_self hj (some a)) (some a) x
    simp only [ctrlS, Option.bind] at h1 h2
    omega
  · have hi2 : (s.setS j (some v)).getS i = some a := by
      rw [setS_getS_ne s (fun e2 => e e2.symm)]
      exact hi
    have h2 := setS_numStrong hi2 (some u) x
    simp only [ctrlS, Option.bind] at h1 h2
    omega

theorem setW_setW_numWeak {s : State} {i j : Nat} {a b : WeakPtr}
    (hi : s.getW i = some a) (hj : s.getW j = some b) (u v : WeakPtr)
    (hij : i = j → u = a ∧ v = b) (x : Nat) :
    ((s.setW j (some v)).setW i (some u)).numWeak x
        + (if a.contorol_block_ = some x then 1 else 0)
        + (if b.contorol_block_ = some x then 1 else 0)
      = s.numWeak x + (if u.contorol_block_ = some x then 1 else 0)
        + (if v.contorol_block_ = some x then 1 else 0) := by
  have h1 := setW_numWeak hj (some v) x
  by_cases e : i = j
  · subst e
    have hab : a = b := by
      rw [hi] at hj
      exact Option.some.inj hj
    obtain ⟨hu, hv⟩ := hij rfl
    subst hab
    rw [hv] at h1
    rw [hu, hv]
    have h2 := setW_numWeak (setW_getW_self hj (some a)) (some a) x
    simp only [ctrlW, Option.bind] at h1 h2
    omega
  · have hi2 : (s.setW j (some v)).getW i = some a := by
      rw [setW_getW_ne s (fun e2 => e e2.symm)]
      exact hi
    have h2 := setW_numWeak hi2 (some u) x
    simp only [ctrlW, Option.bind] at h1 h2
    omega

theorem setS_setS_live {s : State} {i j : Nat} {a b : SharedPtr}
    (hi : s.getS i = some a) (hj : s.getS j = some b) (u v : SharedPtr) :
    ((s.setS j (some v)).setS i (some u)).live = s.live := by
  have h1 := setS_live hj (some v)
  have hi2 : ∃ c, (s.setS j (some v)).getS i = some c := by
    by_cases e : i = j
    · subst e
      exact ⟨v, setS_getS_self hj (some v)⟩
    · refine ⟨a, ?_⟩
      rw [setS_getS_ne s (fun e2 => e e2.symm)]
      exact hi
  obtain ⟨c, hc⟩ := hi2
  have h2 := setS_live hc (some u)
  simp only [Option.isSome_some, if_true] at h1 h2
  omega

theorem setW_setW_live {s : State} {i j : Nat} {a b : WeakPtr}
    (hi : s.getW i = some a) (hj : s.getW j = some b) (u v : WeakPtr) :
    ((s.setW j (some v)).setW i (some u)).live = s.live := by
  have h1 := setW_live hj (some v)
  have hi2 : ∃ c, (s.setW j (some v)).getW i = some c := by
    by_cases e : i = j
    · subst e
      exact ⟨v, setW_getW_self hj (some v)⟩
    · refine ⟨a, ?_⟩
      rw [setW_getW_ne s (fun e2 => e e2.symm)]
      exact hi
  obtain ⟨c, hc⟩ := hi2
  have h2 := setW_live hc (some u)
  simp only [Option.isSome_some, if_true] at h1 h2
  omega

/-! ## Preservation of the state invariant -/

theorem some_eq_some_iff_swap (a b : Nat) : (some a = some b) ↔ b = a := by
  constructor
  · intro h
    exact (Option.some.inj h).symm
  · intro h
    rw [h]

theorem Inv.st_push_empty_strong {s : State} (hs : Inv s) (hf : s.live + 1 < SIZE_MOD) :
    Inv (s.pushS SharedPtr.default_ctor) := by
  refine ⟨hs.1.heap_congr ?_ ?_, ?_⟩
  · intro b
    rw [pushS_numStrong]
    simp [SharedPtr.default_ctor]
  · intro b
    rfl
  · rw [pushS_live]
    exact hf

theorem Inv.st_push_empty_weak {s : State} (hs : Inv s) (hf : s.live + 1 < SIZE_MOD) :
    Inv (s.pushW WeakPtr.default_ctor) := by
  refine ⟨hs.1.heap_congr ?_ ?_, ?_⟩
  · intro b
    rfl
  · intro b
    rw [pushW_numWeak]
    simp [WeakPtr.default_ctor]
  · rw [pushW_live]
    exact hf

theorem Inv.st_alloc_strong {s : State} (hs : Inv s) (hf : s.live + 1 < SIZE_MOD)
    (v : Variant) (o : Option Addr) :
    Inv ((s.withHeap (s.heap.alloc v).1).pushS
      { contorol_block_ := some (s.heap.alloc v).2, object_ptr_ := o }) := by
  refine ⟨?_, ?_⟩
  · refine hs.1.heap_alloc v ?_ ?_
    · intro b
      rw [pushS_numStrong]
      by_cases hb : b = s.heap.next
      · subst hb
        simp
      · have hb2 : s.heap.next ≠ b := fun e => hb e.symm
        simp [hb, hb2]
    · intro b
      rfl
  · rw [pushS_live]
    exact hf

theorem Inv.st_copy {s : State} (hs : Inv s) (hf : s.live + 1 < SIZE_MOD) {j : Nat}
    {b : SharedPtr} (hj : s.getS j = some b) :
    Inv ((s.withHeap (SharedPtr.copy_ctor s.heap b).1).pushS
      (SharedPtr.copy_ctor s.heap b).2) := by
  have e : (SharedPtr.copy_ctor s.heap b).2.contorol_block_ = b.contorol_block_ := by
    unfold SharedPtr.copy_ctor
    cases hp : b.contorol_block_ <;> rfl
  refine ⟨?_, ?_⟩
  · refine hs.1.heap_copy_ctor b ?_ ?_ ?_
    · intro x hx
      have := numStrong_le_live s x
      exact ⟨numStrong_pos hj hx, by omega⟩
    · intro x
      rw [pushS_numStrong, e]
      rfl
    · intro x
      rfl
  · rw [pushS_live]
    exact hf

theorem Inv.st_move {s : State} (hs : Inv s) (hf : s.live + 1 < SIZE_MOD) {j : Nat}
    {b : SharedPtr} (hj : s.getS j = some b) :
    Inv ((s.setS j (some (SharedPtr.move_ctor b).2)).pushS (SharedPtr.move_ctor b).1) := by
  refine ⟨hs.1.heap_congr ?_ ?_, ?_⟩
  · intro x
    rw [pushS_numStrong]
    have := setS_numStrong hj (some (SharedPtr.move_ctor b).2) x
    simp only [SharedPtr.move_ctor, ctrlS, Option.bind] at this ⊢
    simp only [reduceCtorEq, if_false] at this
    omega
  · intro x
    rfl
  · rw [pushS_live]
    have := setS_live hj (some (SharedPtr.move_ctor b).2)
    simp only [Option.isSome_some, if_true] at this
    omega

theorem Inv.st_copy_assign {s : State} (hs : Inv s) (hf : s.live + 1 < SIZE_MOD) {i j : Nat}
    {a b : SharedPtr} (hi : s.getS i = some a) (hj : s.getS j = some b) :
    Inv ((s.withHeap (SharedPtr.copy_assign s.heap a b).1).setS i
      (some (SharedPtr.copy_assign s.heap a b).2)) := by
  refine ⟨?_, ?_⟩
  · refine hs.1.heap_copy_assign a b ?_ ?_ ?_ ?_
    · intro x hx
      exact numStrong_pos hj hx
    · intro x
      have := numStrong_le_live s x
      omega
    · intro x
      have hi2 : (s.withHeap (SharedPtr.copy_assign s.heap a b).1).getS i = some a := hi
      have := setS_numStrong hi2 (some (SharedPtr.copy_assign s.heap a b).2) x
      simpa [ctrlS] using this
    · intro x
      rfl
  · have hi2 : (s.withHeap (SharedPtr.copy_assign s.heap a b).1).getS i = some a := hi
    have := setS_live hi2 (some (SharedPtr.copy_assign s.heap a b).2)
    simp only [Option.isSome_some, if_true, withHeap_live] at this
    omega

theorem Inv.st_move_assign {s : State} (hs : Inv s) {i j : Nat}
    {a b : SharedPtr} (hi : s.getS i = some a) (hj : s.getS j = some b) :
    Inv (((s.withHeap (SharedPtr.move_assign s.heap a b).1).setS j
      (some (SharedPtr.move_assign s.heap a b).2.2)).setS i
      (some (SharedPtr.move_assign s.heap a b).2.1)) := by
  have hi2 : (s.withHeap (SharedPtr.move_assign s.heap a b).1).getS i = some a := hi
  have hj2 : (s.withHeap (SharedPtr.move_assign s.heap a b).1).getS j = some b := hj
  refine ⟨?_, ?_⟩
  · by_cases he : SharedPtr.eq a b = true
    · have hr : SharedPtr.move_assign s.heap a b = (s.heap, a, b) := by
        simp [SharedPtr.move_assign, he]
      rw [hr]
      refine hs.1.heap_congr ?_ (fun _ => rfl)
      intro x
      have := setS_setS_numStrong hi2 hj2 a b (fun _ => ⟨rfl, rfl⟩) x
      rw [hr] at this
      simp only [withHeap_numStrong] at this
      show ((s.setS j (some b)).setS i (some a)).numStrong x = s.numStrong x
      have e : ((s.withHeap s.heap).setS j (some b)).setS i (some a)
          = (s.setS j (some b)).setS i (some a) := rfl
      rw [e] at this
      omega
    · have hne : i ≠ j := by
        intro e
        subst e
        rw [hi] at hj
        have := Option.some.inj hj
        subst this
        exact he (by simp [SharedPtr.eq])
      have hr : SharedPtr.move_assign s.heap a b
          = (SharedPtr.dtor s.heap a, b, { contorol_block_ := none, object_ptr_ := none }) := by
        simp [SharedPtr.move_assign, he, SharedPtr.move_ctor, SharedPtr.swap]
      rw [hr]
      refine hs.1.heap_dtor a ?_ ?_ (fun _ => rfl)
      · intro x
        have := numStrong_le_live s x
        have := hs.2
        omega
      · intro x
        have := setS_setS_numStrong hi2 hj2 b
          { contorol_block_ := none, object_ptr_ := none } (fun e => absurd e hne) x
        rw [hr] at this
        simp only [reduceCtorEq, if_false] at this
        simp only [setS_numWeak, withHeap_numStrong] at this ⊢
        have e : ∀ h1 u v, (((s.withHeap h1).setS j u).setS i v).numStrong x
            = ((s.setS j u).setS i v).numStrong x := fun _ _ _ => rfl
        rw [e] at this
        rw [e]
        omega
  · have := setS_setS_live hi2 hj2 (SharedPtr.move_assign s.heap a b).2.1
      (SharedPtr.move_assign s.heap a b).2.2
    rw [this]
    exact hs.2

theorem Inv.st_reset {s : State} (hs : Inv s) {i : Nat} {a : SharedPtr}
    (hi : s.getS i = some a) :
    Inv ((s.withHeap (SharedPtr.reset s.heap a).1).setS i
      (some (SharedPtr.reset s.heap a).2)) := by
  have hi2 : (s.withHeap (SharedPtr.reset s.heap a).1).getS i = some a := hi
  refine ⟨?_, ?_⟩
  · refine hs.1.heap_dtor a ?_ ?_ (fun _ => rfl)
    · intro x
      have := numStrong_le_live s x
      have := hs.2
      omega
    · intro x
      have := setS_numStrong hi2 (some (SharedPtr.reset s.heap a).2) x
      simp only [SharedPtr.reset, SharedPtr.swap, SharedPtr.default_ctor, ctrlS, Option.bind,
        reduceCtorEq, if_false, withHeap_numStrong] at this ⊢
      have e : ∀ h1 v, ((s.withHeap h1).setS i v).numStrong x = (s.setS i v).numStrong x :=
        fun _ _ => rfl
      rw [e] at this ⊢
      omega
  · have := setS_live hi2 (some (SharedPtr.reset s.heap a).2)
    simp only [Option.isSome_some, if_true, withHeap_live] at this
    have := hs.2
    omega

theorem Inv.st_swap {s : State} (hs : Inv s) {i j : Nat}
    {a b : SharedPtr} (hi : s.getS i = some a) (hj : s.getS j = some b) :
    Inv ((s.setS j (some (SharedPtr.swap a b).2)).setS i (some (SharedPtr.swap a b).1)) := by
  refine ⟨hs.1.heap_congr ?_ (fun _ => rfl), ?_⟩
  · intro x
    have := setS_setS_numStrong hi hj (SharedPtr.swap a b).1 (SharedPtr.swap a b).2 (by
      intro e
      subst e
      rw [hi] at hj
      have := Option.some.inj hj
      subst this
      exact ⟨rfl, rfl⟩) x
    simp only [SharedPtr.swap] at this ⊢
    omega
  · rw [setS_setS_live hi hj]
    exact hs.2

theorem Inv.st_dtor {s : State} (hs : Inv s) {i : Nat} {a : SharedPtr}
    (hi : s.getS i = some a) :
    Inv ((s.withHeap (SharedPtr.dtor s.heap a)).setS i none) := by
  have hi2 : (s.withHeap (SharedPtr.dtor s.heap a)).getS i = some a := hi
  refine ⟨?_, ?_⟩
  · refine hs.1.heap_dtor a ?_ ?_ (fun _ => rfl)
    · intro x
      have := numStrong_le_live s x
      have := hs.2
      omega
    · intro x
      have := setS_numStrong hi2 none x
      simp only [ctrlS, Option.bind, reduceCtorEq, if_false, withHeap_numStrong] at this
      have e : ∀ h1 v, ((s.withHeap h1).setS i v).numStrong x = (s.setS i v).numStrong x :=
        fun _ _ => rfl
      rw [e] at this ⊢
      omega
  · have := setS_live hi2 none
    simp only [Option.isSome_none, withHeap_live, Bool.false_eq_true, if_false] at this
    have := hs.2
    omega

theorem Inv.st_weak_from_shared {s : State} (hs : Inv s) (hf : s.live + 1 < SIZE_MOD) {j : Nat}
    {b : SharedPtr} (hj : s.getS j = some b) :
    Inv ((s.withHeap (WeakPtr.from_shared s.heap b).1).pushW
      (WeakPtr.from_shared s.heap b).2) := by
  have e : (WeakPtr.from_shared s.heap b).2.contorol_block_ = b.contorol_block_ := by
    unfold WeakPtr.from_shared
    cases hp : b.contorol_block_ <;> rfl
  refine ⟨?_, ?_⟩
  · refine hs.1.heap_from_shared b ?_ ?_ ?_
    · intro x hx
      have := numWeak_le_live s x
      exact ⟨numStrong_pos hj hx, by omega⟩
    · intro x
      rfl
    · intro x
      rw [pushW_numWeak, e]
      rfl
  · rw [pushW_live]
    exact hf

theorem Inv.st_weak_copy {s : State} (hs : Inv s) (hf : s.live + 1 < SIZE_MOD) {j : Nat}
    {b : WeakPtr} (hj : s.getW j = some b) :
    Inv ((s.withHeap (WeakPtr.copy_ctor s.heap b).1).pushW
      (WeakPtr.copy_ctor s.heap b).2) := by
  have e : (WeakPtr.copy_ctor s.heap b).2.contorol_block_ = b.contorol_block_ := by
    unfold WeakPtr.copy_ctor
    cases hp : b.contorol_block_ <;> rfl
  refine ⟨?_, ?_⟩
  · refine hs.1.heap_weak_copy_ctor b ?_ ?_ ?_
    · intro x hx
      have := numWeak_le_live s x
      exact ⟨numWeak_pos hj hx, by omega⟩
    · intro x
      rfl
    · intro x
      rw [pushW_numWeak, e]
      rfl
  · rw [pushW_live]
    exact hf

theorem Inv.st_weak_move {s : State} (hs : Inv s) (hf : s.live + 1 < SIZE_MOD) {j : Nat}
    {b : WeakPtr} (hj : s.getW j = some b) :
    Inv ((s.setW j (some (WeakPtr.move_ctor b).2)).pushW (WeakPtr.move_ctor b).1) := by
  refine ⟨hs.1.heap_congr ?_ ?_, ?_⟩
  · intro x
    rfl
  · intro x
    rw [pushW_numWeak]
    have := setW_numWeak hj (some (WeakPtr.move_ctor b).2) x
    simp only [WeakPtr.move_ctor, ctrlW, Option.bind] at this ⊢
    simp only [reduceCtorEq, if_false] at this
    omega
  · rw [pushW_live]
    have := setW_live hj (some (WeakPtr.move_ctor b).2)
    simp only [Option.isSome_some, if_true] at this
    omega

theorem Inv.st_weak_copy_assign {s : State} (hs : Inv s) (hf : s.live + 1 < SIZE_MOD)
    {i j : Nat} {a b : WeakPtr} (hi : s.getW i = some a) (hj : s.getW j = some b) :
    Inv ((s.withHeap (WeakPtr.copy_assign s.heap a b).1).setW i
      (some (WeakPtr.copy_assign s.heap a b).2)) := by
  have hi2 : (s.withHeap (WeakPtr.copy_assign s.heap a b).1).getW i = some a := hi
  refine ⟨?_, ?_⟩
  · refine hs.1.heap_weak_copy_assign a b ?_ ?_ ?_ ?_
    · intro x hx
      exact numWeak_pos hj hx
    · intro x
      have := numWeak_le_live s x
      omega
    · intro x
      rfl
    · intro x
      have := setW_numWeak hi2 (some (WeakPtr.copy_assign s.heap a b).2) x
      simpa [ctrlW] using this
  · have := setW_live hi2 (some (WeakPtr.copy_assign s.heap a b).2)
    simp only [Option.isSome_some, if_true, withHeap_live] at this
    omega

theorem Inv.st_weak_move_assign {s : State} (hs : Inv s) {i j : Nat}
    {a b : WeakPtr} (hi : s.getW i = some a) (hj : s.getW j = some b) :
    Inv (((s.withHeap (WeakPtr.move_assign s.heap a b).1).setW j
      (some (WeakPtr.move_assign s.heap a b).2.2)).setW i
      (some (WeakPtr.move_assign s.heap a b).2.1)) := by
  have hi2 : (s.withHeap (WeakPtr.move_assign s.heap a b).1).getW i = some a := hi
  have hj2 : (s.withHeap (WeakPtr.move_assign s.heap a b).1).getW j = some b := hj
  refine ⟨?_, ?_⟩
  · by_cases he : WeakPtr.eq a b = true
    · have hr : WeakPtr.move_assign s.heap a b = (s.heap, a, b) := by
        simp [WeakPtr.move_assign, he]
      rw [hr]
      refine hs.1.heap_congr (fun _ => rfl) ?_
      intro x
      have := setW_setW_numWeak hi2 hj2 a b (fun _ => ⟨rfl, rfl⟩) x
      rw [hr] at this
      simp only [withHeap_numWeak] at this
      show ((s.setW j (some b)).setW i (some a)).numWeak x = s.numWeak x
      have e : ((s.withHeap s.heap).setW j (some b)).setW i (some a)
          = (s.setW j (some b)).setW i (some a) := rfl
      rw [e] at this
      omega
    · have hne : i ≠ j := by
        intro e
        subst e
        rw [hi] at hj
        have := Option.some.inj hj
        subst this
        exact he (by simp [WeakPtr.eq])
      have hr : WeakPtr.move_assign s.heap a b
          = (WeakPtr.dtor s.heap a, b, { contorol_block_ := none, object_ptr_ := none }) := by
        simp [WeakPtr.move_assign, he, WeakPtr.move_ctor, WeakPtr.swap]
      rw [hr]
      refine hs.1.heap_weak_dtor a ?_ (fun _ => rfl) ?_
      · intro x
        have := numWeak_le_live s x
        have := hs.2
        omega
      · intro x
        have := setW_setW_numWeak hi2 hj2 b
          { contorol_block_ := none, object_ptr_ := none } (fun e => absurd e hne) x
        rw [hr] at this
        simp only [reduceCtorEq, if_false] at this
        simp only [withHeap_numWeak] at this ⊢
        have e : ∀ h1 u v, (((s.withHeap h1).setW j u).setW i v).numWeak x
            = ((s.setW j u).setW i v).numWeak x := fun _ _ _ => rfl
        rw [e] at this
        rw [e]
        omega
  · have := setW_setW_live hi2 hj2 (WeakPtr.move_assign s.heap a b).2.1
      (WeakPtr.move_assign s.heap a b).2.2
    rw [this]
    exact hs.2

theorem Inv.st_weak_swap {s : State} (hs : Inv s) {i j : Nat}
    {a b : WeakPtr} (hi : s.getW i = some a) (hj : s.getW j = some b) :
    Inv ((s.setW j (some (WeakPtr.swap a b).2)).setW i (some (WeakPtr.swap a b).1)) := by
  refine ⟨hs.1.heap_congr (fun _ => rfl) ?_, ?_⟩
  · intro x
    have := setW_setW_numWeak hi hj (WeakPtr.swap a b).1 (WeakPtr.swap a b).2 (by
      intro e
      subst e
      rw [hi] at hj
      have := Option.some.inj hj
      subst this
      exact ⟨rfl, rfl⟩) x
    simp only [WeakPtr.swap] at this ⊢
    omega
  · rw [setW_setW_live hi hj]
    exact hs.2

theorem Inv.st_weak_dtor {s : State} (hs : Inv s) {i : Nat} {a : WeakPtr}
    (hi : s.getW i = some a) :
    Inv ((s.withHeap (WeakPtr.dtor s.heap a)).setW i none) := by
  have hi2 : (s.withHeap (WeakPtr.dtor s.heap a)).getW i = some a := hi
  refine ⟨?_, ?_⟩
  · refine hs.1.heap_weak_dtor a ?_ (fun _ => rfl) ?_
    · intro x
      have := numWeak_le_live s x
      have := hs.2
      omega
    · intro x
      have := setW_numWeak hi2 none x
      simp only [ctrlW, Option.bind, reduceCtorEq, if_false, withHeap_numWeak] at this
      have e : ∀ h1 v, ((s.withHeap h1).setW i v).numWeak x = (s.setW i v).numWeak x :=
        fun _ _ => rfl
      rw [e] at this ⊢
      omega
  · have := setW_live hi2 none
    simp only [Option.isSome_none, withHeap_live, Bool.false_eq_true, if_false] at this
    have := hs.2
    omega

theorem Inv.st_init : Inv State.init := by
  refine ⟨HeapInv.heap_empty.heap_congr ?_ ?_, ?_⟩
  · intro b
    simp [State.init, State.numStrong]
  · intro b
    simp [State.init, State.numWeak]
  · simp [State.init, State.live, SIZE_MOD]

/-- Every client operation preserves the state invariant. -/
theorem Inv.st_step {s t : State} {op : Op} (hs : Inv s) (hf : op.fits s)
    (hst : step s op = some t) : Inv t := by
  cases op with
  | S_default =>
    simp only [SmartPointers.step, Option.some.injEq] at hst
    subst hst
    exact hs.st_push_empty_strong (hf rfl)
  | S_raw ptr alloc del =>
    simp only [SmartPointers.step, Option.some.injEq] at hst
    subst hst
    exact hs.st_alloc_strong (hf rfl) _ _
  | S_make =>
    simp only [SmartPointers.step, Option.some.injEq] at hst
    subst hst
    exact hs.st_alloc_strong (hf rfl) _ _
  | S_allocate alloc =>
    simp only [SmartPointers.step, Option.some.injEq] at hst
    subst hst
    exact hs.st_alloc_strong (hf rfl) _ _
  | S_copy j =>
    simp only [SmartPointers.step] at hst
    cases hj : s.getS j with
    | none => simp [hj] at hst
    | some b =>
      simp only [hj, Option.some.injEq] at hst
      subst hst
      exact hs.st_copy (hf rfl) hj
  | S_move j =>
    simp only [SmartPointers.step] at hst
    cases hj : s.getS j with
    | none => simp [hj] at hst
    | some b =>
      simp only [hj, Option.some.injEq] at hst
      subst hst
      exact hs.st_move (hf rfl) hj
  | S_copy_assign i j =>
    simp only [SmartPointers.step] at hst
    cases hi : s.getS i with
    | none => simp [hi] at hst
    | some a =>
      cases hj : s.getS j with
      | none => simp [hi, hj] at hst
      | some b =>
        simp only [hi, hj, Option.some.injEq] at hst
        subst hst
        exact hs.st_copy_assign (hf rfl) hi hj
  | S_move_assign i j =>
    simp only [SmartPointers.step] at hst
    cases hi : s.getS i with
    | none => simp [hi] at hst
    | some a =>
      cases hj : s.getS j with
      | none => simp [hi, hj] at hst
      | some b =>
        simp only [hi, hj, Option.some.injEq] at hst
        subst hst
        exact hs.st_move_assign hi hj
  | S_reset i =>
    simp only [SmartPointers.step] at hst
    cases hi : s.getS i with
    | none => simp [hi] at hst
    | some a =>
      simp only [hi, Option.some.injEq] at hst
      subst hst
      exact hs.st_reset hi
  | S_swap i j =>
    simp only [SmartPointers.step] at hst
    cases hi : s.getS i with
    | none => simp [hi] at hst
    | some a =>
      cases hj : s.getS j with
      | none => simp [hi, hj] at hst
      | some b =>
        simp only [hi, hj, Option.some.injEq] at hst
        subst hst
        exact hs.st_swap hi hj
  | S_dtor i =>
    simp only [SmartPointers.step] at hst
    cases hi : s.getS i with
    | none => simp [hi] at hst
    | some a =>
      simp only [hi, Option.some.injEq] at hst
      subst hst
      exact hs.st_dtor hi
  | W_default =>
    simp only [SmartPointers.step, Option.some.injEq] at hst
    subst hst
    exact hs.st_push_empty_weak (hf rfl)
  | W_from_shared j =>
    simp only [SmartPointers.step] at hst
    cases hj : s.getS j with
    | none => simp [hj] at hst
    | some b =>
      simp only [hj, Option.some.injEq] at hst
      subst hst
      exact hs.st_weak_from_shared (hf rfl) hj
  | W_copy j =>
    simp only [SmartPointers.step] at hst
    cases hj : s.getW j with
    | none => simp [hj] at hst
    | some b =>
      simp only [hj, Option.some.injEq] at hst
      subst hst
      exact hs.st_weak_copy (hf rfl) hj
  | W_move j =>
    simp only [SmartPointers.step] at hst
    cases hj : s.getW j with
    | none => simp [hj] at hst
    | some b =>
      simp only [hj, Option.some.injEq] at hst
      subst hst
      exact hs.st_weak_move (hf rfl) hj
  | W_copy_assign i j =>
    simp only [SmartPointers.step] at hst
    cases hi : s.getW i with
    | none => simp [hi] at hst
    | some a =>
      cases hj : s.getW j with
      | none => simp [hi, hj] at hst
      | some b =>
        simp only [hi, hj, Option.some.injEq] at hst
        subst hst
        exact hs.st_weak_copy_assign (hf rfl) hi hj
  | W_move_assign i j =>
    simp only [SmartPointers.step] at hst
    cases hi : s.getW i with
    | none => simp [hi] at hst
    | some a =>
      cases hj : s.getW j with
      | none => simp [hi, hj] at hst
      | some b =>
        simp only [hi, hj, Option.some.injEq] at hst
        subst hst
        exact hs.st_weak_move_assign hi hj
  | W_swap i j =>
    simp only [SmartPointers.step] at hst
    cases hi : s.getW i with
    | none => simp [hi] at hst
    | some a =>
      cases hj : s.getW j with
      | none => simp [hi, hj] at hst
      | some b =>
        simp only [hi, hj, Option.some.injEq] at hst
        subst hst
        exact hs.st_weak_swap hi hj
  | W_dtor i =>
    simp only [SmartPointers.step] at hst
    cases hi : s.getW i with
    | none => simp [hi] at hst
    | some a =>
      simp only [hi, Option.some.injEq] at hst
      subst hst
      exact hs.st_weak_dtor hi

/-- The invariant holds in every reachable state. -/
theorem Reachable.invariant {s : State} (hr : Reachable s) : Inv s := by
  induction hr with
  | init => exact Inv.st_init
  | step s t op _ hf hst ih => exact ih.st_step hf hst

/-! ## Reachability of concrete programs -/

theorem Reachable.of_run {s t : State} (hr : Reachable s) (ops : List Op)
    (hf : fitsAll s ops = true) (hrun : run s ops = some t) : Reachable t := by
  induction ops generalizing s with
  | nil =>
    simp only [run, Option.some.injEq] at hrun
    rw [← hrun]
    exact hr
  | cons op ops ih =>
    simp only [run] at hrun
    simp only [fitsAll, Bool.and_eq_true, Bool.or_eq_true, Bool.not_eq_true',
      decide_eq_true_eq] at hf
    cases hst : SmartPointers.step s op with
    | none => simp [hst] at hrun
    | some u =>
      simp only [hst] at hrun hf
      refine ih (Reachable.step s u op hr ?_ hst) hf.2 hrun
      intro hc
      rcases hf.1 with h1 | h1
      · rw [hc] at h1
        exact absurd h1 (by decide)
      · exact h1

theorem Reachable.after_ops (ops : List Op) (hf : fitsAll State.init ops = true) :
    Reachable (after ops) := by
  cases hrun : run State.init ops with
  | none =>
    simp only [SmartPointers.after, hrun, Option.getD_none]
    exact Reachable.init
  | some t =>
    simp only [SmartPointers.after, hrun, Option.getD_some]
    exact Reachable.init.of_run ops hf hrun

/-! ## Facts about single operations -/

theorem SharedPtr.dtor_next_eq (h : Heap) (a : SharedPtr) : (SharedPtr.dtor h a).next = h.next := by
  unfold SharedPtr.dtor
  cases a.contorol_block_ with
  | none => rfl
  | some b =>
    simp only
    split_ifs <;> rfl

theorem WeakPtr.weak_dtor_next_eq (h : Heap) (a : WeakPtr) : (WeakPtr.dtor h a).next = h.next := by
  unfold WeakPtr.dtor
  cases a.contorol_block_ with
  | none => rfl
  | some b =>
    simp only
    split_ifs <;> rfl

theorem step_S_dtor {s : State} {i : Nat} {a : SharedPtr} (hi : s.getS i = some a) :
    step s (Op.S_dtor i) = some ((s.withHeap (SharedPtr.dtor s.heap a)).setS i none) := by
  simp [step, hi]

theorem step_W_dtor {s : State} {i : Nat} {a : WeakPtr} (hi : s.getW i = some a) :
    step s (Op.W_dtor i) = some ((s.withHeap (WeakPtr.dtor s.heap a)).setW i none) := by
  simp [step, hi]

theorem Reachable.S_dtor {s : State} (hr : Reachable s) {i : Nat} {a : SharedPtr}
    (hi : s.getS i = some a) :
    Reachable ((s.withHeap (SharedPtr.dtor s.heap a)).setS i none) :=
  Reachable.step s _ (Op.S_dtor i) hr (fun hc => absurd hc (by simp [Op.creates])) (step_S_dtor hi)

theorem Reachable.W_dtor {s : State} (hr : Reachable s) {i : Nat} {a : WeakPtr}
    (hi : s.getW i = some a) :
    Reachable ((s.withHeap (WeakPtr.dtor s.heap a)).setW i none) :=
  Reachable.step s _ (Op.W_dtor i) hr (fun hc => absurd hc (by simp [Op.creates])) (step_W_dtor hi)

theorem S_dtor_numStrong {s : State} {i : Nat} {a : SharedPtr} (hi : s.getS i = some a)
    (x : Nat) :
    ((s.withHeap (SharedPtr.dtor s.heap a)).setS i none).numStrong x
      + (if a.contorol_block_ = some x then 1 else 0) = s.numStrong x := by
  have hi2 : (s.withHeap (SharedPtr.dtor s.heap a)).getS i = some a := hi
  have := setS_numStrong hi2 none x
  simpa [ctrlS] using this

theorem W_dtor_numWeak {s : State} {i : Nat} {a : WeakPtr} (hi : s.getW i = some a)
    (x : Nat) :
    ((s.withHeap (WeakPtr.dtor s.heap a)).setW i none).numWeak x
      + (if a.contorol_block_ = some x then 1 else 0) = s.numWeak x := by
  have hi2 : (s.withHeap (WeakPtr.dtor s.heap a)).getW i = some a := hi
  have := setW_numWeak hi2 none x
  simpa [ctrlW] using this

theorem demo_fits : fitsAll State.init demoOps = true := by decide

theorem demo_reachable : Reachable (after demoOps) := Reachable.after_ops demoOps demo_fits

/-! ## C1: the counters are the numbers of live handles -/

/-- C1: in every state reachable from no handles through construction (adoption,
`MakeShared` / `AllocateShared`, copy, move), assignment, `reset`, `swap` and
destruction of Strong and Weak Handles, every live control block (allocated, and
`del_object` not yet called on it) has `shared_count` equal to the number of live
Strong Handles pointing at it and `weak_count` equal to the number of live Weak
Handles pointing at it; and `use_count()` read from any live Strong Handle equals
the number of live Strong Handles on its block. -/
theorem C1_counts_are_live_handles (s : State) (hr : Reachable s) (b : Nat)
    (halloc : b < s.heap.next) (_hlive : s.heap.delObjectCount b = 0) :
    (s.heap.blocks b).shared_count = s.numStrong b ∧
    (s.heap.blocks b).weak_count = s.numWeak b ∧
    (∀ i a c, s.getS i = some a → a.contorol_block_ = some c →
      SharedPtr.use_count s.heap a = s.numStrong c) := by
  have hinv := hr.invariant
  refine ⟨(hinv.1.counts b halloc).1, (hinv.1.counts b halloc).2, ?_⟩
  intro i a c hi hc
  have hlt : c < s.heap.next := hinv.1.lt_next_of_strong (numStrong_pos hi hc)
  simp only [SharedPtr.use_count, hc]
  exact (hinv.1.counts c hlt).1

/-- Witness for C1 on the demo program: block `0` carries two Strong Handles and
one Weak Handle. -/
theorem C1_counts_are_live_handles_witness :
    Reachable (after demoOps) ∧ 0 < (after demoOps).heap.next ∧
    (after demoOps).heap.delObjectCount 0 = 0 ∧
    ((after demoOps).heap.blocks 0).shared_count = (after demoOps).numStrong 0 ∧
    ((after demoOps).heap.blocks 0).weak_count = (after demoOps).numWeak 0 ∧
    (after demoOps).numStrong 0 = 2 ∧ (after demoOps).numWeak 0 = 1 :=
  have h := C1_counts_are_live_handles (after demoOps) demo_reachable 0
    (by decide) (by decide)
  ⟨demo_reachable, by decide, by decide, h.1, h.2.1, by decide, by decide⟩

theorem weakOutlives_reachable : Reachable (after weakOutlivesOps) :=
  Reachable.after_ops weakOutlivesOps (by decide)

theorem allGone_reachable : Reachable (after allGoneOps) :=
  Reachable.after_ops allGoneOps (by decide)

/-! ## C3: the object goes with the last Strong Handle, the block with the last handle -/

/-- C3: for a control block `b` in a reachable state:
(A) destroying a Strong Handle on `b` while at least one Weak Handle on `b` is
alive never calls `del_object`, and calls `del_ptr` on `b` (for the first time)
exactly if it was the last Strong Handle on `b`;
(B) whenever no Strong Handle but some Weak Handle on `b` is alive, `del_ptr` has
been called once and `del_object` has not been called;
(C) destroying a Weak Handle on `b` when no Strong Handle is left calls
`del_object` exactly if it was the last Weak Handle on `b`, and `del_object` had
not been called before. -/
theorem C3_object_released_block_kept (s : State) (hr : Reachable s) (b : Nat) :
    (∀ i a, s.getS i = some a → a.contorol_block_ = some b → 1 ≤ s.numWeak b →
      ∃ t, step s (Op.S_dtor i) = some t ∧ s.heap.delPtrCount b = 0 ∧
        t.heap.delPtrCount b = (if s.numStrong b = 1 then 1 else 0) ∧
        t.heap.delObjectCount b = 0 ∧
        t.numStrong b + 1 = s.numStrong b ∧ t.numWeak b = s.numWeak b) ∧
    (b < s.heap.next → s.numStrong b = 0 → 1 ≤ s.numWeak b →
      s.heap.delPtrCount b = 1 ∧ s.heap.delObjectCount b = 0) ∧
    (∀ j w, s.getW j = some w → w.contorol_block_ = some b → s.numStrong b = 0 →
      ∃ t, step s (Op.W_dtor j) = some t ∧ s.heap.delObjectCount b = 0 ∧
        t.heap.delObjectCount b = (if s.numWeak b = 1 then 1 else 0) ∧
        t.numWeak b + 1 = s.numWeak b) := by
  have hinv := hr.invariant
  refine ⟨?_, ?_, ?_⟩
  · intro i a hi ha hw
    refine ⟨_, step_S_dtor hi, ?_⟩
    have hpos := numStrong_pos hi ha
    have hb : b < s.heap.next := hinv.1.lt_next_of_strong hpos
    have hinv2 := (hr.S_dtor hi).invariant
    have hn := S_dtor_numStrong hi b
    simp only [ha, if_true] at hn
    have hk := hinv.1.hooks b hb
    have hk2 := hinv2.1.hooks b (by
      show b < (SharedPtr.dtor s.heap a).next
      rw [SharedPtr.dtor_next_eq]
      exact hb)
    have hw2 : ((s.withHeap (SharedPtr.dtor s.heap a)).setS i none).numWeak b
        = s.numWeak b := rfl
    rw [hw2] at hk2
    have hne : s.numStrong b ≠ 0 := by omega
    rw [if_neg hne] at hk
    refine ⟨hk.1, ?_, ?_, hn, hw2⟩
    · rw [hk2.1]
      by_cases h1 : s.numStrong b = 1
      · have hz : ((s.withHeap (SharedPtr.dtor s.heap a)).setS i none).numStrong b = 0 := by
          omega
        simp [hz, h1]
      · have hz : ((s.withHeap (SharedPtr.dtor s.heap a)).setS i none).numStrong b ≠ 0 := by
          omega
        simp [hz, h1]
    · rw [hk2.2]
      have hne2 : ¬ (((s.withHeap (SharedPtr.dtor s.heap a)).setS i none).numStrong b = 0
          ∧ s.numWeak b = 0) := by omega
      rw [if_neg hne2]
  · intro hb h0 hw
    have hk := hinv.1.hooks b hb
    have hne2 : ¬ (s.numStrong b = 0 ∧ s.numWeak b = 0) := by omega
    rw [if_pos h0, if_neg hne2] at hk
    exact hk
  · intro j w hj hw h0
    refine ⟨_, step_W_dtor hj, ?_⟩
    have hpos := numWeak_pos hj hw
    have hb : b < s.heap.next := hinv.1.lt_next_of_weak hpos
    have hinv2 := (hr.W_dtor hj).invariant
    have hn := W_dtor_numWeak hj b
    simp only [hw, if_true] at hn
    have hk := hinv.1.hooks b hb
    have hk2 := hinv2.1.hooks b (by
      show b < (WeakPtr.dtor s.heap w).next
      rw [WeakPtr.weak_dtor_next_eq]
      exact hb)
    have hs2 : ((s.withHeap (WeakPtr.dtor s.heap w)).setW j none).numStrong b
        = s.numStrong b := rfl
    rw [hs2, h0] at hk2
    have hne2 : ¬ (s.numStrong b = 0 ∧ s.numWeak b = 0) := by omega
    rw [if_neg hne2] at hk
    refine ⟨hk.2, ?_, hn⟩
    rw [hk2.2]
    by_cases h1 : s.numWeak b = 1
    · have hz : ((s.withHeap (WeakPtr.dtor s.heap w)).setW j none).numWeak b = 0 := by omega
      simp [hz, h1]
    · have hz : ((s.withHeap (WeakPtr.dtor s.heap w)).setW j none).numWeak b ≠ 0 := by omega
      simp [hz, h1]

/-- Witness for C3: after `weakOutlivesOps` one Strong Handle (slot 1) and two Weak
Handles are left on block `0`; destroying that Strong Handle releases the object
only, and the state after it still has both Weak Handles. -/
theorem C3_object_released_block_kept_witness :
    Reachable (after weakOutlivesOps) ∧
    (after weakOutlivesOps).getS 1 = some { contorol_block_ := some 0,
                                            object_ptr_ := some (Addr.object 0) } ∧
    (after weakOutlivesOps).numStrong 0 = 1 ∧ 1 ≤ (after weakOutlivesOps).numWeak 0 ∧
    (∃ t, step (after weakOutlivesOps) (Op.S_dtor 1) = some t ∧
      (after weakOutlivesOps).heap.delPtrCount 0 = 0 ∧
      t.heap.delPtrCount 0 = (if (after weakOutlivesOps).numStrong 0 = 1 then 1 else 0) ∧
      t.heap.delObjectCount 0 = 0 ∧
      t.numStrong 0 + 1 = (after weakOutlivesOps).numStrong 0 ∧
      t.numWeak 0 = (after weakOutlivesOps).numWeak 0) :=
  ⟨weakOutlives_reachable, by decide, by decide, by decide,
   (C3_object_released_block_kept (after weakOutlivesOps) weakOutlives_reachable 0).1
     1 { contorol_block_ := some 0, object_ptr_ := some (Addr.object 0) }
     (by decide) rfl (by decide)⟩

/-! ## Release of the block when the hooks run no handle operation -/

/-- As long as no hook destroys a handle (the hooks of `step` only record the
call): in every reachable state, for every control block `b`, `del_object` has
been called on `b` at most once; every recorded `del_object` call was made with
`shared_count == 0` and `weak_count == 0`; and once no Strong and no Weak Handle
on an allocated block is left, `del_object` has been called on it exactly once.
For a managed object that owns Weak Handles on its own block see `dtor_with`. -/
theorem block_released_once_inert_hooks (s : State) (hr : Reachable s) (b : Nat) :
    s.heap.delObjectCount b ≤ 1 ∧
    (∀ e, e ∈ s.heap.trace → e.hook = Hook.del_object →
      e.shared_count = 0 ∧ e.weak_count = 0) ∧
    (b < s.heap.next → s.numStrong b = 0 → s.numWeak b = 0 →
      s.heap.delObjectCount b = 1) := by
  have hinv := hr.invariant
  refine ⟨?_, ?_, ?_⟩
  · by_cases hb : b < s.heap.next
    · rw [(hinv.1.hooks b hb).2]
      split_ifs <;> omega
    · rw [(hinv.1.nohooks b (by omega)).2]
      omega
  · intro e he hk
    exact ⟨(hinv.1.snap e he).1, (hinv.1.snap e he).2 hk⟩
  · intro hb h0 hw
    rw [(hinv.1.hooks b hb).2, if_pos ⟨h0, hw⟩]

/-- An instance: after `allGoneOps` every handle on block `0` is gone and the block
has been released once. -/
theorem block_released_once_inert_hooks_example :
    Reachable (after allGoneOps) ∧ (after allGoneOps).heap.delObjectCount 0 = 1 :=
  ⟨allGone_reachable,
   (block_released_once_inert_hooks (after allGoneOps) allGone_reachable 0).2.2
     (by decide) (by decide) (by decide)⟩

/-! ## C6: `expired()` -/

/-- C6: for a non-empty Weak Handle `w` on block `b` in a reachable state,
`w.expired()` is true exactly if no Strong Handle on `b` is alive; in particular it
is false while a Strong Handle `a` on `b` is alive, and right after `a` is destroyed
it is true exactly if `a` was the last one. -/
theorem C6_expired_iff_no_strong (s : State) (hr : Reachable s) (j : Nat) (w : WeakPtr)
    (b : Nat) (hw : s.getW j = some w) (hb : w.contorol_block_ = some b) :
    WeakPtr.expired s.heap w = some (decide (s.numStrong b = 0)) ∧
    (∀ i a, s.getS i = some a → a.contorol_block_ = some b →
      WeakPtr.expired s.heap w = some false ∧
      ∃ t, step s (Op.S_dtor i) = some t ∧ t.getW j = some w ∧
        WeakPtr.expired t.heap w = some (decide (s.numStrong b = 1))) := by
  have hinv := hr.invariant
  have hlt : b < s.heap.next := hinv.1.lt_next_of_weak (numWeak_pos hw hb)
  have hc := (hinv.1.counts b hlt).1
  have h1 : WeakPtr.expired s.heap w = some (decide (s.numStrong b = 0)) := by
    simp only [WeakPtr.expired, hb, hc]
  refine ⟨h1, ?_⟩
  intro i a hi ha
  have hpos := numStrong_pos hi ha
  refine ⟨?_, _, step_S_dtor hi, hw, ?_⟩
  · rw [h1]
    have : s.numStrong b ≠ 0 := by omega
    simp [this]
  · have hinv2 := (hr.S_dtor hi).invariant
    have hn := S_dtor_numStrong hi b
    simp only [ha, if_true] at hn
    have hc2 := (hinv2.1.counts b (by
      show b < (SharedPtr.dtor s.heap a).next
      rw [SharedPtr.dtor_next_eq]
      exact hlt)).1
    have hc3 : ((SharedPtr.dtor s.heap a).blocks b).shared_count
        = ((s.withHeap (SharedPtr.dtor s.heap a)).setS i none).numStrong b := hc2
    simp only [WeakPtr.expired, hb, setS_heap, withHeap_heap, hc3]
    congr 1
    by_cases h : s.numStrong b = 1
    · have hz : ((s.withHeap (SharedPtr.dtor s.heap a)).setS i none).numStrong b = 0 := by
        omega
      simp [h, hz]
    · have hz : ((s.withHeap (SharedPtr.dtor s.heap a)).setS i none).numStrong b ≠ 0 := by
        omega
      simp [h, hz]

/-- Witness for C6: after `weakOutlivesOps` the Weak Handle in slot 0 is not
expired, one Strong Handle being left on block `0`. -/
theorem C6_expired_iff_no_strong_witness :
    Reachable (after weakOutlivesOps) ∧
    (after weakOutlivesOps).getW 0 = some { contorol_block_ := some 0,
                                            object_ptr_ := some (Addr.object 0) } ∧
    WeakPtr.expired (after weakOutlivesOps).heap
      { contorol_block_ := some 0, object_ptr_ := some (Addr.object 0) }
      = some (decide ((after weakOutlivesOps).numStrong 0 = 0)) :=
  ⟨weakOutlives_reachable, by decide,
   (C6_expired_iff_no_strong (after weakOutlivesOps) weakOutlives_reachable 0
     { contorol_block_ := some 0, object_ptr_ := some (Addr.object 0) } 0
     (by decide) rfl).1⟩

/-! ## C2: the object is released once, by the last Strong Handle -/

theorem getD_append_replicate {α : Type} (l : List (Option α)) (m : Nat) (x : Option α)
    {i : Nat} (h1 : l.length ≤ i) (h2 : i < l.length + m) :
    (l ++ List.replicate m x).getD i none = x := by
  rw [List.getD_eq_getElem?_getD, List.getElem?_append_right h1, List.getElem?_replicate]
  have : i - l.length < m := by omega
  simp [this]

theorem factory_step (s : State) {mk : Op} (hmk : mk.isFactory = true) :
    ∃ v o, step s mk = some ((s.withHeap (s.heap.alloc v).1).pushS
      { contorol_block_ := some s.heap.next, object_ptr_ := o }) := by
  cases mk with
  | S_raw ptr alloc del => exact ⟨_, _, rfl⟩
  | S_make => exact ⟨_, _, rfl⟩
  | S_allocate alloc => exact ⟨_, _, rfl⟩
  | _ => simp [Op.isFactory] at hmk

theorem factory_creates {mk : Op} (hmk : mk.isFactory = true) : mk.creates = true := by
  cases mk <;> first | rfl | simp [Op.isFactory] at hmk

theorem copy_ctor_snd (h : Heap) {a : SharedPtr} {b : Nat} (ha : a.contorol_block_ = some b) :
    (SharedPtr.copy_ctor h a).2 = a := by
  cases a with
  | mk c o =>
    simp only at ha
    subst ha
    rfl

theorem copy_ctor_next (h : Heap) (a : SharedPtr) :
    (SharedPtr.copy_ctor h a).1.next = h.next := by
  unfold SharedPtr.copy_ctor
  cases a.contorol_block_ <;> rfl

theorem step_S_copy {s : State} {j : Nat} {b : SharedPtr} (hj : s.getS j = some b) :
    step s (Op.S_copy j) = some ((s.withHeap (SharedPtr.copy_ctor s.heap b).1).pushS
      (SharedPtr.copy_ctor s.heap b).2) := by
  simp [step, hj]

/-- Copying the handle in slot `k` `n` times appends `n` equal handles. -/
theorem run_copies (n : Nat) : ∀ (t : State) (k : Nat) (a : SharedPtr) (b : Nat),
    Reachable t → t.getS k = some a → a.contorol_block_ = some b →
    t.live + n < SIZE_MOD →
    ∃ u, run t (List.replicate n (Op.S_copy k)) = some u ∧ Reachable u ∧
      u.strong = t.strong ++ List.replicate n (some a) ∧ u.weak = t.weak ∧
      u.heap.next = t.heap.next := by
  induction n with
  | zero =>
    intro t k a b hr _ _ _
    exact ⟨t, rfl, hr, by simp, rfl, rfl⟩
  | succ n ih =>
    intro t k a b hr hk ha hfit
    have hst := step_S_copy hk
    rw [copy_ctor_snd t.heap ha] at hst
    have hr1 : Reachable ((t.withHeap (SharedPtr.copy_ctor t.heap a).1).pushS a) :=
      Reachable.step t _ (Op.S_copy k) hr (fun _ => by omega) hst
    have hk1 : ((t.withHeap (SharedPtr.copy_ctor t.heap a).1).pushS a).getS k = some a := by
      have := pushS_getS_lt (t.withHeap (SharedPtr.copy_ctor t.heap a).1) a
        (show k < (t.withHeap (SharedPtr.copy_ctor t.heap a).1).strong.length from
          getS_lt_length hk)
      rw [this]
      exact hk
    have hl1 : ((t.withHeap (SharedPtr.copy_ctor t.heap a).1).pushS a).live + n
        < SIZE_MOD := by
      rw [pushS_live, withHeap_live]
      omega
    obtain ⟨u, hu, hru, hus, huw, hun⟩ := ih _ k a b hr1 hk1 ha hl1
    refine ⟨u, ?_, hru, ?_, huw, ?_⟩
    · simp only [List.replicate_succ, run, hst]
      exact hu
    · rw [hus]
      simp [State.pushS, List.replicate_succ]
    · rw [hun]
      exact copy_ctor_next t.heap a

/-- Destroying distinct live Strong Handles on block `b`, in any order. -/
theorem run_dtors (pre : List Nat) : ∀ (t : State) (b : Nat),
    Reachable t → pre.Nodup →
    (∀ i, i ∈ pre → ∃ a, t.getS i = some a ∧ a.contorol_block_ = some b) →
    ∃ u, run t (pre.map Op.S_dtor) = some u ∧ Reachable u ∧
      u.numStrong b + pre.length = t.numStrong b ∧ u.heap.next = t.heap.next ∧
      (∀ j, j ∉ pre → u.getS j = t.getS j) := by
  induction pre with
  | nil =>
    intro t b hr _ _
    exact ⟨t, rfl, hr, rfl, rfl, fun _ _ => rfl⟩
  | cons i pre ih =>
    intro t b hr hnd hall
    obtain ⟨a, hi, ha⟩ := hall i (List.mem_cons_self i pre)
    have hnd2 := List.nodup_cons.mp hnd
    have hr1 := hr.S_dtor hi
    have hall1 : ∀ j, j ∈ pre → ∃ c,
        ((t.withHeap (SharedPtr.dtor t.heap a)).setS i none).getS j = some c ∧
          c.contorol_block_ = some b := by
      intro j hj
      obtain ⟨c, hc, hcb⟩ := hall j (List.mem_cons_of_mem i hj)
      refine ⟨c, ?_, hcb⟩
      have hne : i ≠ j := by
        intro e
        rw [e] at hnd2
        exact hnd2.1 hj
      rw [setS_getS_ne _ hne]
      exact hc
    obtain ⟨u, hu, hru, hun, hnx, hrest⟩ := ih _ b hr1 hnd2.2 hall1
    have hn := S_dtor_numStrong hi b
    simp only [ha, if_true] at hn
    refine ⟨u, ?_, hru, ?_, ?_, ?_⟩
    · simp only [List.map_cons, run, step_S_dtor hi]
      exact hu
    · simp only [List.length_cons]
      omega
    · rw [hnx]
      exact SharedPtr.dtor_next_eq t.heap a
    · intro j hj
      have hji : i ≠ j := by
        intro e
        exact hj (by rw [e]; exact List.mem_cons_self j pre)
      have hjp : j ∉ pre := fun h => hj (List.mem_cons_of_mem i h)
      rw [hrest j hjp, setS_getS_ne _ hji]
      rfl

/-- C2: for every `n` and every order of destruction: after a Strong Handle is
created over a fresh block (by `MakeShared`, `AllocateShared` or adoption of a raw
pointer) and copied `n` times, destroying the `n + 1` handles in the given order
is defined, and after any initial part `pre` of that order the block's
`shared_count` is the number of handles still to be destroyed, every remaining
handle reads that number as `use_count()`, and `del_ptr` has been called on the
block once if all have been destroyed and not at all otherwise: the one call is
made by the destruction of the last handle, when `shared_count` goes from 1 to 0. -/
theorem C2_object_released_once_at_last (s0 : State) (hr : Reachable s0) (mk : Op)
    (hmk : mk.isFactory = true) (n : Nat) (hfit : s0.live + (n + 1) < SIZE_MOD)
    (order : List Nat) (hperm : order.Perm (List.range' s0.strong.length (n + 1))) :
    ∃ s1, run s0 (createAndCopy mk s0.strong.length n) = some s1 ∧
      ∀ pre rest, order = pre ++ rest →
        ∃ t, run s1 (pre.map Op.S_dtor) = some t ∧
          (t.heap.blocks s0.heap.next).shared_count = rest.length ∧
          t.heap.delPtrCount s0.heap.next = (if rest = [] then 1 else 0) ∧
          (∀ i, i ∈ rest → ∃ a, t.getS i = some a ∧
            SharedPtr.use_count t.heap a = rest.length) := by
  obtain ⟨v, o, hst⟩ := factory_step s0 hmk
  have hr1 : Reachable ((s0.withHeap (s0.heap.alloc v).1).pushS
      { contorol_block_ := some s0.heap.next, object_ptr_ := o }) :=
    Reachable.step s0 _ mk hr (fun _ => by omega) hst
  have hk1 := pushS_getS_new (s0.withHeap (s0.heap.alloc v).1)
    { contorol_block_ := some s0.heap.next, object_ptr_ := o }
  have hl1 : ((s0.withHeap (s0.heap.alloc v).1).pushS
      { contorol_block_ := some s0.heap.next, object_ptr_ := o }).live + n < SIZE_MOD := by
    rw [pushS_live, withHeap_live]
    omega
  obtain ⟨s1, hs1, hrs1, hstrong, _, hnext⟩ :=
    run_copies n _ s0.strong.length _ s0.heap.next hr1 hk1 rfl hl1
  refine ⟨s1, ?_, ?_⟩
  · simp only [createAndCopy, run, hst]
    exact hs1
  · intro pre rest horder
    have hstrong2 : s1.strong = s0.strong ++ List.replicate (n + 1)
        (some { contorol_block_ := some s0.heap.next, object_ptr_ := o }) := by
      rw [hstrong]
      simp only [State.pushS, withHeap_strong, List.append_assoc, List.singleton_append]
      rw [← List.replicate_succ]
    have hslot : ∀ i, i ∈ order → s1.getS i
        = some { contorol_block_ := some s0.heap.next, object_ptr_ := o } := by
      intro i hi
      have hm := (hperm.mem_iff).mp hi
      rw [List.mem_range'_1] at hm
      simp only [State.getS, hstrong2]
      exact getD_append_replicate _ _ _ hm.1 hm.2
    have hnd : order.Nodup := (hperm.nodup_iff).mpr (List.nodup_range' _ _)
    have hlen : pre.length + rest.length = n + 1 := by
      have := hperm.length_eq
      rw [horder, List.length_append, List.length_range'] at this
      exact this
    rw [horder] at hnd
    have hndpre : pre.Nodup := (List.nodup_append.mp hnd).1
    have hdisj := (List.nodup_append.mp hnd).2.2
    obtain ⟨t, ht, hrt, hnum, htnext, hkeep⟩ := run_dtors pre s1 s0.heap.next hrs1 hndpre
      (fun i hi => ⟨_, hslot i (by rw [horder]; exact List.mem_append_left rest hi), rfl⟩)
    have hinv0 := hr.invariant
    have hinv1 := hrs1.invariant
    have hinvt := hrt.invariant
    have hs1next : s1.heap.next = s0.heap.next + 1 := by
      rw [hnext]
      rfl
    have hnum1 : s1.numStrong s0.heap.next = n + 1 := by
      have h0 := (hinv0.1.fresh s0.heap.next (le_refl _)).1
      simp only [State.numStrong] at h0 ⊢
      rw [hstrong2, List.countP_append, h0, List.countP_replicate]
      simp [ctrlS]
    have hblt : s0.heap.next < t.heap.next := by
      rw [htnext, hs1next]
      omega
    have hcnt := (hinvt.1.counts s0.heap.next hblt).1
    have hhook := (hinvt.1.hooks s0.heap.next hblt).1
    have hval : t.numStrong s0.heap.next = rest.length := by omega
    refine ⟨t, ht, ?_, ?_, ?_⟩
    · rw [hcnt, hval]
    · rw [hhook, hval]
      cases rest with
      | nil => simp
      | cons x xs => simp
    · intro i hi
      have hnot : i ∉ pre := fun hp => hdisj hp hi
      refine ⟨{ contorol_block_ := some s0.heap.next, object_ptr_ := o }, ?_, ?_⟩
      · rw [hkeep i hnot]
        exact hslot i (by rw [horder]; exact List.mem_append_right pre hi)
      · simp only [SharedPtr.use_count]
        rw [hcnt, hval]

/-- Witness for C2, the scenario of the specification: `MakeShared`, three copies,
destruction in the order original, first copy, third copy, second copy. -/
theorem C2_object_released_once_at_last_witness :
    Reachable State.init ∧ Op.S_make.isFactory = true ∧ State.init.live + (3 + 1) < SIZE_MOD ∧
    ∃ s1, run State.init (createAndCopy Op.S_make 0 3) = some s1 ∧
      ∀ pre rest, [0, 1, 3, 2] = pre ++ rest →
        ∃ t, run s1 (pre.map Op.S_dtor) = some t ∧
          (t.heap.blocks 0).shared_count = rest.length ∧
          t.heap.delPtrCount 0 = (if rest = [] then 1 else 0) ∧
          (∀ i, i ∈ rest → ∃ a, t.getS i = some a ∧
            SharedPtr.use_count t.heap a = rest.length) :=
  ⟨Reachable.init, rfl, by decide,
   C2_object_released_once_at_last State.init Reachable.init Op.S_make rfl 3 (by decide)
     [0, 1, 3, 2] (by decide)⟩

/-! ## C5: `lock()` -/

/-- Whatever the heap and the Weak Handle: `lock()` returns a non-empty handle on
the fresh block with `use_count() == 1` and leaves every existing block as it is. -/
theorem lock_adopts_block_address (h : Heap) (w : WeakPtr) :
    (WeakPtr.lock h w).2.contorol_block_ = some h.next ∧
    (WeakPtr.lock h w).2.object_ptr_ = w.contorol_block_.map Addr.block ∧
    SharedPtr.use_count (WeakPtr.lock h w).1 (WeakPtr.lock h w).2 = 1 ∧
    (∀ b, b ≠ h.next → (WeakPtr.lock h w).1.blocks b = h.blocks b) ∧
    (WeakPtr.lock h w).1.trace = h.trace := by
  refine ⟨rfl, rfl, ?_, ?_, rfl⟩
  · simp [WeakPtr.lock, SharedPtr.raw_ctor, SharedPtr.use_count]
  · intro b hb
    simp [WeakPtr.lock, SharedPtr.raw_ctor, hb]

/-- C5 (the code at a failing input): with one Strong Handle and one Weak Handle
`w` on block `0`, `w` is not expired and `shared_count` is 1, yet `w.lock()` returns
a handle on a fresh block `1` whose object pointer is the address of block `0` and
whose `use_count()` is 1 (not 2), and block `0` keeps `shared_count == 1`; and when
`w` is expired, `w.lock()` still returns a non-empty handle of the same shape with
`use_count() == 1` instead of an empty one. -/
theorem C5_lock_divergence :
    (after lockOps).getW 0 = some (WeakPtr.onObject 0) ∧
    WeakPtr.expired (after lockOps).heap (WeakPtr.onObject 0) = some false ∧
    ((after lockOps).heap.blocks 0).shared_count = 1 ∧
    (WeakPtr.lock (after lockOps).heap (WeakPtr.onObject 0)).2
      = { contorol_block_ := some 1, object_ptr_ := some (Addr.block 0) } ∧
    SharedPtr.use_count (WeakPtr.lock (after lockOps).heap (WeakPtr.onObject 0)).1
      (WeakPtr.lock (after lockOps).heap (WeakPtr.onObject 0)).2 = 1 ∧
    ((WeakPtr.lock (after lockOps).heap (WeakPtr.onObject 0)).1.blocks 0).shared_count = 1 ∧
    (after lockExpiredOps).getW 0 = some (WeakPtr.onObject 0) ∧
    WeakPtr.expired (after lockExpiredOps).heap (WeakPtr.onObject 0) = some true ∧
    (WeakPtr.lock (after lockExpiredOps).heap (WeakPtr.onObject 0)).2
      = { contorol_block_ := some 1, object_ptr_ := some (Addr.block 0) } ∧
    SharedPtr.use_count (WeakPtr.lock (after lockExpiredOps).heap (WeakPtr.onObject 0)).1
      (WeakPtr.lock (after lockExpiredOps).heap (WeakPtr.onObject 0)).2 = 1 := by
  decide

/-! ## C7: copy construction -/

theorem twoCopies_reachable : Reachable (after twoCopiesOps) :=
  Reachable.after_ops twoCopiesOps (by decide)

/-- C7: copy-constructing `a` from the live Strong Handle `b` (slot `j`) in a
reachable state puts into the new slot a handle with `b`s control block and object
pointer, leaves `b` as it is and calls no hook; if `b` is non-empty its block gets
`shared_count` increased by exactly 1 and `weak_count` unchanged, no other block
changes, and both handles read `use_count()` one greater than before; if `b` is
empty, `a` is empty and the heap is unchanged. -/
theorem C7_copy_construct (s : State) (hr : Reachable s) (j : Nat) (b : SharedPtr)
    (hj : s.getS j = some b) (hfit : s.live + 1 < SIZE_MOD) :
    ∃ t a, step s (Op.S_copy j) = some t ∧ t.getS s.strong.length = some a ∧
      a.contorol_block_ = b.contorol_block_ ∧ SharedPtr.get a = SharedPtr.get b ∧
      t.getS j = some b ∧ t.heap.trace = s.heap.trace ∧
      (∀ x, b.contorol_block_ = some x →
        (t.heap.blocks x).shared_count = (s.heap.blocks x).shared_count + 1 ∧
        (t.heap.blocks x).weak_count = (s.heap.blocks x).weak_count ∧
        (∀ y, y ≠ x → t.heap.blocks y = s.heap.blocks y) ∧
        SharedPtr.use_count t.heap a = SharedPtr.use_count s.heap b + 1 ∧
        SharedPtr.use_count t.heap b = SharedPtr.use_count s.heap b + 1) ∧
      (b.contorol_block_ = none →
        a.contorol_block_ = none ∧ SharedPtr.use_count t.heap a = 0 ∧
        t.heap.blocks = s.heap.blocks ∧ t.heap.next = s.heap.next) := by
  have hinv := hr.invariant
  refine ⟨_, (SharedPtr.copy_ctor s.heap b).2, step_S_copy hj, ?_, ?_, ?_, ?_, ?_, ?_, ?_⟩
  · exact pushS_getS_new (s.withHeap (SharedPtr.copy_ctor s.heap b).1) _
  · unfold SharedPtr.copy_ctor
    cases b.contorol_block_ <;> rfl
  · unfold SharedPtr.copy_ctor SharedPtr.get
    cases b.contorol_block_ <;> rfl
  · have := pushS_getS_lt (s.withHeap (SharedPtr.copy_ctor s.heap b).1)
      (SharedPtr.copy_ctor s.heap b).2
      (show j < (s.withHeap (SharedPtr.copy_ctor s.heap b).1).strong.length from
        getS_lt_length hj)
    rw [this]
    exact hj
  · unfold SharedPtr.copy_ctor
    cases b.contorol_block_ <;> rfl
  · intro x hx
    have hpos := numStrong_pos hj hx
    have hlt : x < s.heap.next := hinv.1.lt_next_of_strong hpos
    have hc := (hinv.1.counts x hlt).1
    have hle := numStrong_le_live s x
    have hmod : ((s.heap.blocks x).shared_count + 1) % SIZE_MOD
        = (s.heap.blocks x).shared_count + 1 := mod_succ (by omega)
    simp only [pushS_heap, withHeap_heap, SharedPtr.copy_ctor, hx, SharedPtr.use_count,
      write_blocks, if_true, hmod]
    refine ⟨trivial, trivial, ?_, trivial, trivial⟩
    intro y hy
    simp [hy]
  · intro hb
    simp only [pushS_heap, withHeap_heap, SharedPtr.copy_ctor, hb, SharedPtr.use_count]
    exact ⟨trivial, trivial, trivial, trivial⟩

/-- Witness for C7: copying the handle in slot 0 of `twoCopiesOps` (its block has
`shared_count == 2`) gives `use_count() == 3` on the copy. -/
theorem C7_copy_construct_witness :
    Reachable (after twoCopiesOps) ∧
    (after twoCopiesOps).getS 0 = some (SharedPtr.onObject 0) ∧
    (after twoCopiesOps).live + 1 < SIZE_MOD ∧
    SharedPtr.use_count (after twoCopiesOps).heap (SharedPtr.onObject 0) = 2 ∧
    ∃ t a, step (after twoCopiesOps) (Op.S_copy 0) = some t ∧
      t.getS (after twoCopiesOps).strong.length = some a ∧
      SharedPtr.use_count t.heap a
        = SharedPtr.use_count (after twoCopiesOps).heap (SharedPtr.onObject 0) + 1 :=
  ⟨twoCopies_reachable, by decide, by decide, by decide,
   (C7_copy_construct (after twoCopiesOps) twoCopies_reachable 0 (SharedPtr.onObject 0)
      (by decide) (by decide)).elim fun t ht => ht.elim fun a ha =>
        ⟨t, a, ha.1, ha.2.1, (ha.2.2.2.2.2.2.1 0 rfl).2.2.2.1⟩⟩

/-! ## C8: move construction -/

theorem step_S_move {s : State} {j : Nat} {b : SharedPtr} (hj : s.getS j = some b) :
    step s (Op.S_move j) = some ((s.setS j (some SharedPtr.null)).pushS b) := by
  simp [step, hj, SharedPtr.move_ctor, SharedPtr.null]

theorem step_W_move {s : State} {j : Nat} {b : WeakPtr} (hj : s.getW j = some b) :
    step s (Op.W_move j) = some ((s.setW j (some WeakPtr.null)).pushW b) := by
  simp [step, hj, WeakPtr.move_ctor, WeakPtr.null]

theorem setS_length (s : State) (i : Nat) (v : Option SharedPtr) :
    (s.setS i v).strong.length = s.strong.length := by
  simp [State.setS]

theorem setW_length (s : State) (i : Nat) (v : Option WeakPtr) :
    (s.setW i v).weak.length = s.weak.length := by
  simp [State.setW]

/-- C8: move-constructing a new handle from the live Strong Handle `b` in slot `j`
gives the new handle exactly `b`s former control-block pointer and object pointer,
leaves slot `j` empty (both fields null, `use_count() == 0`) and leaves the heap
as it is: no counter of any block changes and no hook is called.  The same holds
for Weak Handles. -/
theorem C8_move_construct (s : State) :
    (∀ j b, s.getS j = some b →
      ∃ t, step s (Op.S_move j) = some t ∧ t.getS s.strong.length = some b ∧
        t.getS j = some SharedPtr.null ∧ SharedPtr.use_count t.heap SharedPtr.null = 0 ∧
        t.heap = s.heap) ∧
    (∀ j w, s.getW j = some w →
      ∃ t, step s (Op.W_move j) = some t ∧ t.getW s.weak.length = some w ∧
        t.getW j = some WeakPtr.null ∧ t.heap = s.heap) := by
  refine ⟨?_, ?_⟩
  · intro j b hj
    refine ⟨_, step_S_move hj, ?_, ?_, rfl, rfl⟩
    · have := pushS_getS_new (s.setS j (some SharedPtr.null)) b
      rw [setS_length] at this
      exact this
    · have := pushS_getS_lt (s.setS j (some SharedPtr.null)) b
        (show j < (s.setS j (some SharedPtr.null)).strong.length by
          rw [setS_length]
          exact getS_lt_length hj)
      rw [this]
      exact setS_getS_self hj _
  · intro j w hj
    refine ⟨_, step_W_move hj, ?_, ?_, rfl⟩
    · have := pushW_getW_new (s.setW j (some WeakPtr.null)) w
      rw [setW_length] at this
      exact this
    · have := pushW_getW_lt (s.setW j (some WeakPtr.null)) w
        (show j < (s.setW j (some WeakPtr.null)).weak.length by
          rw [setW_length]
          exact getW_lt_length hj)
      rw [this]
      exact setW_getW_self hj _

/-- Witness for C8: moving from slot 0 of `twoCopiesOps`. -/
theorem C8_move_construct_witness :
    (after twoCopiesOps).getS 0 = some (SharedPtr.onObject 0) ∧
    ∃ t, step (after twoCopiesOps) (Op.S_move 0) = some t ∧
      t.getS (after twoCopiesOps).strong.length = some (SharedPtr.onObject 0) ∧
      t.getS 0 = some SharedPtr.null ∧ SharedPtr.use_count t.heap SharedPtr.null = 0 ∧
      t.heap = (after twoCopiesOps).heap :=
  ⟨by decide,
   (C8_move_construct (after twoCopiesOps)).1 0 (SharedPtr.onObject 0) (by decide)⟩

/-! ## C9: move assignment -/

theorem SharedPtr.move_assign_same (h : Heap) (a b : SharedPtr)
    (he : a.object_ptr_ = b.object_ptr_) : SharedPtr.move_assign h a b = (h, a, b) := by
  simp [SharedPtr.move_assign, SharedPtr.eq, he]

theorem SharedPtr.move_assign_diff (h : Heap) (a b : SharedPtr)
    (he : a.object_ptr_ ≠ b.object_ptr_) :
    SharedPtr.move_assign h a b = (SharedPtr.dtor h a, b, SharedPtr.null) := by
  simp [SharedPtr.move_assign, SharedPtr.eq, he, SharedPtr.move_ctor, SharedPtr.swap,
    SharedPtr.null]

theorem WeakPtr.weak_move_assign_same (h : Heap) (a b : WeakPtr)
    (he : a.object_ptr_ = b.object_ptr_) : WeakPtr.move_assign h a b = (h, a, b) := by
  simp [WeakPtr.move_assign, WeakPtr.eq, he]

theorem WeakPtr.weak_move_assign_diff (h : Heap) (a b : WeakPtr)
    (he : a.object_ptr_ ≠ b.object_ptr_) :
    WeakPtr.move_assign h a b = (WeakPtr.dtor h a, b, WeakPtr.null) := by
  simp [WeakPtr.move_assign, WeakPtr.eq, he, WeakPtr.move_ctor, WeakPtr.swap, WeakPtr.null]

theorem step_S_move_assign {s : State} {i j : Nat} {a b : SharedPtr}
    (hi : s.getS i = some a) (hj : s.getS j = some b) :
    step s (Op.S_move_assign i j)
      = some (((s.withHeap (SharedPtr.move_assign s.heap a b).1).setS j
          (some (SharedPtr.move_assign s.heap a b).2.2)).setS i
          (some (SharedPtr.move_assign s.heap a b).2.1)) := by
  simp [step, hi, hj]

theorem step_W_move_assign {s : State} {i j : Nat} {a b : WeakPtr}
    (hi : s.getW i = some a) (hj : s.getW j = some b) :
    step s (Op.W_move_assign i j)
      = some (((s.withHeap (WeakPtr.move_assign s.heap a b).1).setW j
          (some (WeakPtr.move_assign s.heap a b).2.2)).setW i
          (some (WeakPtr.move_assign s.heap a b).2.1)) := by
  simp [step, hi, hj]

/-- C9 as the claim states it fails: after `a = std::move(b)` with `b` a copy of `a`
(slots 0 and 1 of `twoCopiesOps`), the source `b` is not empty: it still holds block
`0` and its object, and reads `use_count() == 2`.  The same happens for a Weak
Handle and its copy (slots 0 and 1 of `twoWeakOps`). -/
theorem C9_move_assign_counterexample :
    (after twoCopiesOps).getS 0 = some (SharedPtr.onObject 0) ∧
    (after twoCopiesOps).getS 1 = some (SharedPtr.onObject 0) ∧
    (after (twoCopiesOps ++ [Op.S_move_assign 0 1])).getS 1 = some (SharedPtr.onObject 0) ∧
    (after (twoCopiesOps ++ [Op.S_move_assign 0 1])).getS 1 ≠ some SharedPtr.null ∧
    SharedPtr.use_count (after (twoCopiesOps ++ [Op.S_move_assign 0 1])).heap
      (SharedPtr.onObject 0) = 2 ∧
    (after twoWeakOps).getW 0 = some (WeakPtr.onObject 0) ∧
    (after twoWeakOps).getW 1 = some (WeakPtr.onObject 0) ∧
    (after (twoWeakOps ++ [Op.W_move_assign 0 1])).getW 1 = some (WeakPtr.onObject 0) ∧
    (after (twoWeakOps ++ [Op.W_move_assign 0 1])).getW 1 ≠ some WeakPtr.null := by
  decide

/-- C9, amended: for distinct live Strong Handles `a` (slot `i`) and `b` (slot `j`)
in a reachable state, `a = std::move(b)` with `a.get() != b.get()` leaves `b` empty
(both fields null, `use_count() == 0`), gives `a` the former fields of `b`, and
does not increase any counter of the block `b` referred to; with
`a.get() == b.get()` and `a`, `b` on the same control block (`b` is a copy of `a`)
the assignment does nothing: both handles keep their fields and the heap is
unchanged.  The same holds for Weak Handles. -/
theorem C9_move_assign_amended (s : State) (hr : Reachable s) (i j : Nat) (hij : i ≠ j) :
    (∀ a b, s.getS i = some a → s.getS j = some b →
      ∃ t, step s (Op.S_move_assign i j) = some t ∧
        (a.object_ptr_ ≠ b.object_ptr_ →
          t.getS j = some SharedPtr.null ∧
          SharedPtr.use_count t.heap SharedPtr.null = 0 ∧
          t.getS i = some b ∧
          ∀ x, b.contorol_block_ = some x →
            (t.heap.blocks x).shared_count ≤ (s.heap.blocks x).shared_count ∧
            (t.heap.blocks x).weak_count = (s.heap.blocks x).weak_count) ∧
        (a.object_ptr_ = b.object_ptr_ → a.contorol_block_ = b.contorol_block_ →
          t.getS j = some b ∧ t.getS i = some a ∧ t.heap = s.heap)) ∧
    (∀ a b, s.getW i = some a → s.getW j = some b →
      ∃ t, step s (Op.W_move_assign i j) = some t ∧
        (a.object_ptr_ ≠ b.object_ptr_ →
          t.getW j = some WeakPtr.null ∧
          t.getW i = some b ∧
          ∀ x, b.contorol_block_ = some x →
            (t.heap.blocks x).shared_count = (s.heap.blocks x).shared_count ∧
            (t.heap.blocks x).weak_count ≤ (s.heap.blocks x).weak_count) ∧
        (a.object_ptr_ = b.object_ptr_ → a.contorol_block_ = b.contorol_block_ →
          t.getW j = some b ∧ t.getW i = some a ∧ t.heap = s.heap)) := by
  have hinv := hr.invariant
  have hji : j ≠ i := fun e => hij e.symm
  refine ⟨?_, ?_⟩
  · intro a b hi hj
    have hst := step_S_move_assign hi hj
    have hrt := Reachable.step s _ (Op.S_move_assign i j) hr
      (fun hc => absurd hc (by simp [Op.creates])) hst
    refine ⟨_, hst, ?_, ?_⟩
    · intro hne
      have hinvt := hrt.invariant
      rw [SharedPtr.move_assign_diff s.heap a b hne] at hinvt ⊢
      have hi2 : ((s.withHeap (SharedPtr.dtor s.heap a)).setS j
          (some SharedPtr.null)).getS i = some a := by
        rw [setS_getS_ne _ hji]
        exact hi
      have hj2 : (s.withHeap (SharedPtr.dtor s.heap a)).getS j = some b := hj
      refine ⟨?_, rfl, setS_getS_self hi2 _, ?_⟩
      · rw [setS_getS_ne _ hij]
        exact setS_getS_self hj2 _
      · intro x hx
        have hpos := numStrong_pos hj hx
        have hlt : x < s.heap.next := hinv.1.lt_next_of_strong hpos
        have hc := hinv.1.counts x hlt
        have hct := hinvt.1.counts x (by
          show x < (SharedPtr.dtor s.heap a).next
          rw [SharedPtr.dtor_next_eq]
          exact hlt)
        have hn := setS_setS_numStrong
          (show (s.withHeap (SharedPtr.dtor s.heap a)).getS i = some a from hi) hj2 b
          SharedPtr.null (fun e => absurd e hij) x
        simp only [SharedPtr.null, reduceCtorEq, if_false, withHeap_numStrong] at hn
        refine ⟨?_, ?_⟩
        · show ((SharedPtr.dtor s.heap a).blocks x).shared_count ≤ _
          have h1 : ((SharedPtr.dtor s.heap a).blocks x).shared_count
              = (((s.withHeap (SharedPtr.dtor s.heap a)).setS j
                  (some SharedPtr.null)).setS i (some b)).numStrong x := hct.1
          rw [h1, hc.1]
          simp only [SharedPtr.null]
          omega
        · show ((SharedPtr.dtor s.heap a).blocks x).weak_count = _
          have h1 : ((SharedPtr.dtor s.heap a).blocks x).weak_count = s.numWeak x := hct.2
          rw [h1, hc.2]
    · intro he _
      rw [SharedPtr.move_assign_same s.heap a b he]
      have hi2 : ((s.withHeap s.heap).setS j (some b)).getS i = some a := by
        rw [setS_getS_ne _ hji]
        exact hi
      have hj2 : (s.withHeap s.heap).getS j = some b := hj
      refine ⟨?_, setS_getS_self hi2 _, rfl⟩
      rw [setS_getS_ne _ hij]
      exact setS_getS_self hj2 _
  · intro a b hi hj
    have hst := step_W_move_assign hi hj
    have hrt := Reachable.step s _ (Op.W_move_assign i j) hr
      (fun hc => absurd hc (by simp [Op.creates])) hst
    refine ⟨_, hst, ?_, ?_⟩
    · intro hne
      have hinvt := hrt.invariant
      rw [WeakPtr.weak_move_assign_diff s.heap a b hne] at hinvt ⊢
      have hi2 : ((s.withHeap (WeakPtr.dtor s.heap a)).setW j
          (some WeakPtr.null)).getW i = some a := by
        rw [setW_getW_ne _ hji]
        exact hi
      have hj2 : (s.withHeap (WeakPtr.dtor s.heap a)).getW j = some b := hj
      refine ⟨?_, setW_getW_self hi2 _, ?_⟩
      · rw [setW_getW_ne _ hij]
        exact setW_getW_self hj2 _
      · intro x hx
        have hpos := numWeak_pos hj hx
        have hlt : x < s.heap.next := hinv.1.lt_next_of_weak hpos
        have hc := hinv.1.counts x hlt
        have hct := hinvt.1.counts x (by
          show x < (WeakPtr.dtor s.heap a).next
          rw [WeakPtr.weak_dtor_next_eq]
          exact hlt)
        have hn := setW_setW_numWeak
          (show (s.withHeap (WeakPtr.dtor s.heap a)).getW i = some a from hi) hj2 b
          WeakPtr.null (fun e => absurd e hij) x
        simp only [WeakPtr.null, reduceCtorEq, if_false, withHeap_numWeak] at hn
        refine ⟨?_, ?_⟩
        · show ((WeakPtr.dtor s.heap a).blocks x).shared_count = _
          have h1 : ((WeakPtr.dtor s.heap a).blocks x).shared_count = s.numStrong x := hct.1
          rw [h1, hc.1]
        · show ((WeakPtr.dtor s.heap a).blocks x).weak_count ≤ _
          have h1 : ((WeakPtr.dtor s.heap a).blocks x).weak_count
              = (((s.withHeap (WeakPtr.dtor s.heap a)).setW j
                  (some WeakPtr.null)).setW i (some b)).numWeak x := hct.2
          rw [h1, hc.2]
          simp only [WeakPtr.null]
          omega
    · intro he _
      rw [WeakPtr.weak_move_assign_same s.heap a b he]
      have hi2 : ((s.withHeap s.heap).setW j (some b)).getW i = some a := by
        rw [setW_getW_ne _ hji]
        exact hi
      have hj2 : (s.withHeap s.heap).getW j = some b := hj
      refine ⟨?_, setW_getW_self hi2 _, rfl⟩
      rw [setW_getW_ne _ hij]
      exact setW_getW_self hj2 _

theorem twoBlocks_reachable : Reachable (after twoBlocksOps) :=
  Reachable.after_ops twoBlocksOps (by decide)

/-- Witness for C9 amended: two handles over different blocks; the move
assignment `strong[0] = std::move(strong[1])` empties slot 1. -/
theorem C9_move_assign_amended_witness :
    Reachable (after twoBlocksOps) ∧
    (after twoBlocksOps).getS 0 = some (SharedPtr.onObject 0) ∧
    (after twoBlocksOps).getS 1 = some (SharedPtr.onObject 1) ∧
    ∃ t, step (after twoBlocksOps) (Op.S_move_assign 0 1) = some t ∧
      t.getS 1 = some SharedPtr.null ∧ t.getS 0 = some (SharedPtr.onObject 1) :=
  ⟨twoBlocks_reachable, by decide, by decide,
   ((C9_move_assign_amended (after twoBlocksOps) twoBlocks_reachable 0 1 (by decide)).1
      (SharedPtr.onObject 0) (SharedPtr.onObject 1) (by decide) (by decide)).elim
     fun t ht => ⟨t, ht.1, (ht.2.1 (by decide)).1, (ht.2.1 (by decide)).2.2.1⟩⟩

/-! ## C10: `reset()` -/

/-- What `~SharedPtr` does to the heap when the handle is non-empty and the
counter does not wrap. -/
theorem SharedPtr.dtor_effect (h : Heap) (a : SharedPtr) (x : Nat)
    (ha : a.contorol_block_ = some x) (h1 : 1 ≤ (h.blocks x).shared_count)
    (h2 : (h.blocks x).shared_count < SIZE_MOD) :
    ((SharedPtr.dtor h a).blocks x).shared_count + 1 = (h.blocks x).shared_count ∧
    ((SharedPtr.dtor h a).blocks x).weak_count = (h.blocks x).weak_count ∧
    (∀ y, y ≠ x → (SharedPtr.dtor h a).blocks y = h.blocks y) ∧
    (∀ y, (SharedPtr.dtor h a).delPtrCount y = h.delPtrCount y +
      (if y = x ∧ ((SharedPtr.dtor h a).blocks x).shared_count = 0 then 1 else 0)) ∧
    (∀ y, (SharedPtr.dtor h a).delObjectCount y = h.delObjectCount y +
      (if y = x ∧ ((SharedPtr.dtor h a).blocks x).shared_count = 0 ∧
          ((SharedPtr.dtor h a).blocks x).weak_count = 0 then 1 else 0)) := by
  have hdec := mod_pred h1 h2
  unfold SharedPtr.dtor
  simp only [ha, write_blocks, if_true, del_ptr_blocks, hdec]
  split_ifs with c1 c2
  · refine ⟨by simp; omega, by simp, ?_, ?_, ?_⟩
    · intro y hy
      simp [hy]
    · intro y
      by_cases hy : y = x
      · subst hy
        simp [c1]
      · have hy2 : x ≠ y := fun e => hy e.symm
        simp [hy, hy2]
    · intro y
      by_cases hy : y = x
      · have hy2 : x = y := hy.symm
        subst hy2
        simp [c1, c2]
      · have hy2 : x ≠ y := fun e => hy e.symm
        simp [hy, hy2]
  · refine ⟨by simp; omega, by simp, ?_, ?_, ?_⟩
    · intro y hy
      simp [hy]
    · intro y
      by_cases hy : y = x
      · subst hy
        simp [c1]
      · have hy2 : x ≠ y := fun e => hy e.symm
        simp [hy, hy2]
    · intro y
      simp [c1, c2]
  · refine ⟨by simp; omega, by simp, ?_, ?_, ?_⟩
    · intro y hy
      simp [hy]
    · intro y
      simp [c1]
    · intro y
      simp [c1]

theorem step_S_reset {s : State} {i : Nat} {a : SharedPtr} (hi : s.getS i = some a) :
    step s (Op.S_reset i)
      = some ((s.withHeap (SharedPtr.dtor s.heap a)).setS i (some SharedPtr.null)) := by
  simp [step, hi, SharedPtr.reset, SharedPtr.swap, SharedPtr.default_ctor, SharedPtr.null]

/-- C10: for a live Strong Handle `a` (slot `i`) in a reachable state, `a.reset()`
leaves `a` empty (both fields null, `use_count() == 0`) and leaves the heap exactly
as destroying `a` would: if `a` was empty nothing changes; if `a` was on block `x`,
`shared_count` of `x` goes down by 1, `weak_count` and all other blocks are
unchanged, `del_ptr` is called on `x` exactly if `shared_count` reached 0, and
`del_object` is called on `x` exactly if additionally `weak_count == 0`; no hook is
called on any other block. -/
theorem C10_reset_as_destruction (s : State) (hr : Reachable s) (i : Nat) (a : SharedPtr)
    (hi : s.getS i = some a) :
    ∃ t d, step s (Op.S_reset i) = some t ∧ step s (Op.S_dtor i) = some d ∧
      t.getS i = some SharedPtr.null ∧ SharedPtr.use_count t.heap SharedPtr.null = 0 ∧
      t.heap = d.heap ∧
      (a.contorol_block_ = none → t.heap = s.heap) ∧
      (∀ x, a.contorol_block_ = some x →
        (t.heap.blocks x).shared_count + 1 = (s.heap.blocks x).shared_count ∧
        (t.heap.blocks x).weak_count = (s.heap.blocks x).weak_count ∧
        (∀ y, y ≠ x → t.heap.blocks y = s.heap.blocks y) ∧
        (∀ y, t.heap.delPtrCount y = s.heap.delPtrCount y +
          (if y = x ∧ (t.heap.blocks x).shared_count = 0 then 1 else 0)) ∧
        (∀ y, t.heap.delObjectCount y = s.heap.delObjectCount y +
          (if y = x ∧ (t.heap.blocks x).shared_count = 0 ∧
              (t.heap.blocks x).weak_count = 0 then 1 else 0))) := by
  have hinv := hr.invariant
  have hi2 : (s.withHeap (SharedPtr.dtor s.heap a)).getS i = some a := hi
  refine ⟨_, _, step_S_reset hi, step_S_dtor hi, setS_getS_self hi2 _, rfl, rfl, ?_, ?_⟩
  · intro hn
    show SharedPtr.dtor s.heap a = s.heap
    simp [SharedPtr.dtor, hn]
  · intro x hx
    have hpos := numStrong_pos hi hx
    have hlt : x < s.heap.next := hinv.1.lt_next_of_strong hpos
    have hc := (hinv.1.counts x hlt).1
    have hle := numStrong_le_live s x
    have hlive := hinv.2
    exact SharedPtr.dtor_effect s.heap a x hx (by omega) (by omega)

/-- Witness for C10: resetting the last Strong Handle of `weakOutlivesOps` (slot 1,
block `0`, two Weak Handles alive) brings `shared_count` from 1 to 0 and calls
`del_ptr` but not `del_object`. -/
theorem C10_reset_as_destruction_witness :
    Reachable (after weakOutlivesOps) ∧
    (after weakOutlivesOps).getS 1 = some (SharedPtr.onObject 0) ∧
    ((after weakOutlivesOps).heap.blocks 0).shared_count = 1 ∧
    ∃ t, step (after weakOutlivesOps) (Op.S_reset 1) = some t ∧
      t.getS 1 = some SharedPtr.null ∧
      (t.heap.blocks 0).shared_count + 1 = ((after weakOutlivesOps).heap.blocks 0).shared_count ∧
      t.heap.delPtrCount 0 = (after weakOutlivesOps).heap.delPtrCount 0 +
        (if 0 = 0 ∧ (t.heap.blocks 0).shared_count = 0 then 1 else 0) :=
  ⟨weakOutlives_reachable, by decide, by decide,
   (C10_reset_as_destruction (after weakOutlivesOps) weakOutlives_reachable 1
      (SharedPtr.onObject 0) (by decide)).elim fun t ht => ht.elim fun _ hd =>
        ⟨t, hd.1, hd.2.2.1, (hd.2.2.2.2.2.2 0 rfl).1, (hd.2.2.2.2.2.2 0 rfl).2.2.2.1 0⟩⟩

/-! ## C11 and C12: the in-place factories -/

/-- C11: for every argument list `args` whose direct construction `T(args...)`
yields the value `v`, `MakeShared<T>(args...)` and `AllocateShared<T>(alloc, args...)`
each return a Strong Handle `h` over a fresh `ControlBlockMakeShared` (the block at
the allocation cursor, not allocated before) such that `*h` is `v`, `h.get()` is the
address of the object embedded in that block, `h.use_count() == 1` and the block's
`weak_count == 0`; heap and handle are those of the counting model `MakeShared` /
`AllocateShared`. -/
theorem C11_in_place_factories {T Args : Type} (construct : Args → Option T) (m : Mem T)
    (alloc : Nat) (args : Args) (v : T) (hv : construct args = some v) :
    (∃ h, (MakeShared_with_args construct m args).2 = some h ∧
      SharedPtr.deref (MakeShared_with_args construct m args).1 h = some v ∧
      SharedPtr.get h = some (Addr.object m.heap.next) ∧
      h.contorol_block_ = some m.heap.next ∧
      SharedPtr.use_count (MakeShared_with_args construct m args).1.heap h = 1 ∧
      ((MakeShared_with_args construct m args).1.heap.blocks m.heap.next).weak_count = 0 ∧
      ((MakeShared_with_args construct m args).1.heap.blocks m.heap.next).variant
        = Variant.ControlBlockMakeShared 0 ∧
      (MakeShared_with_args construct m args).1.heap.next = m.heap.next + 1 ∧
      (MakeShared_with_args construct m args).1.heap = (MakeShared m.heap).1 ∧
      h = (MakeShared m.heap).2) ∧
    (∃ h, (AllocateShared_with_args construct m alloc args).2 = some h ∧
      SharedPtr.deref (AllocateShared_with_args construct m alloc args).1 h = some v ∧
      SharedPtr.get h = some (Addr.object m.heap.next) ∧
      h.contorol_block_ = some m.heap.next ∧
      SharedPtr.use_count (AllocateShared_with_args construct m alloc args).1.heap h = 1 ∧
      ((AllocateShared_with_args construct m alloc args).1.heap.blocks
        m.heap.next).weak_count = 0 ∧
      ((AllocateShared_with_args construct m alloc args).1.heap.blocks m.heap.next).variant
        = Variant.ControlBlockMakeShared alloc ∧
      (AllocateShared_with_args construct m alloc args).1.heap.next = m.heap.next + 1 ∧
      (AllocateShared_with_args construct m alloc args).1.heap
        = (AllocateShared m.heap alloc).1 ∧
      h = (AllocateShared m.heap alloc).2) := by
  refine ⟨⟨SharedPtr.private_ctor (some m.heap.next) (some (Addr.object m.heap.next)),
    ?_, ?_, rfl, rfl, ?_, ?_, ?_, ?_, ?_, rfl⟩,
    ⟨SharedPtr.private_ctor (some m.heap.next) (some (Addr.object m.heap.next)),
    ?_, ?_, rfl, rfl, ?_, ?_, ?_, ?_, ?_, rfl⟩⟩ <;>
  simp [MakeShared_with_args, AllocateShared_with_args, ControlBlockMakeShared.ctor, hv,
    Mem.allocate, SharedPtr.deref, SharedPtr.get, SharedPtr.private_ctor,
    SharedPtr.use_count, MakeShared, AllocateShared, Heap.alloc, Heap.write]

/-- Witness for C11: three arguments, the value type adds them up. -/
theorem C11_in_place_factories_witness :
    (fun (a : Nat × Nat × Nat) => some (a.1 + a.2.1 + a.2.2)) (1, 2, 39) = some 42 ∧
    ∃ h, (MakeShared_with_args (fun (a : Nat × Nat × Nat) => some (a.1 + a.2.1 + a.2.2))
        (Mem.empty Nat) (1, 2, 39)).2 = some h ∧
      SharedPtr.deref (MakeShared_with_args
        (fun (a : Nat × Nat × Nat) => some (a.1 + a.2.1 + a.2.2))
        (Mem.empty Nat) (1, 2, 39)).1 h = some 42 ∧
      SharedPtr.use_count (MakeShared_with_args
        (fun (a : Nat × Nat × Nat) => some (a.1 + a.2.1 + a.2.2))
        (Mem.empty Nat) (1, 2, 39)).1.heap h = 1 :=
  ⟨rfl,
   (C11_in_place_factories (fun (a : Nat × Nat × Nat) => some (a.1 + a.2.1 + a.2.2))
      (Mem.empty Nat) 0 (1, 2, 39) 42 rfl).1.elim
     fun h hh => ⟨h, hh.1, hh.2.1, hh.2.2.2.2.1⟩⟩

/-- When the constructor of the managed object throws, `MakeShared` gives the
storage back and `AllocateShared` does not; neither returns a handle. -/
theorem factories_on_throw {T Args : Type} (construct : Args → Option T) (m : Mem T)
    (alloc : Nat) (args : Args) (hv : construct args = none)
    (h1 : m.heap.next ∉ m.unwound) (h2 : m.heap.delObjectCount m.heap.next = 0) :
    (MakeShared_with_args construct m args).2 = none ∧
    (MakeShared_with_args construct m args).1.outstanding m.heap.next = false ∧
    (AllocateShared_with_args construct m alloc args).2 = none ∧
    (AllocateShared_with_args construct m alloc args).1.outstanding m.heap.next = true := by
  simp [MakeShared_with_args, AllocateShared_with_args, ControlBlockMakeShared.ctor, hv,
    Mem.allocate, Mem.deallocate, Mem.outstanding, h1]
  exact h2

/-- C12 (the code at a failing input): the constructor of the managed object
throws.  `MakeShared` returns no handle and leaves no storage outstanding;
`AllocateShared` returns no handle either, but the storage of block `0`, obtained
from the allocator, is still outstanding when the failure reaches the caller. -/
theorem C12_constructor_failure :
    (MakeShared_with_args (fun (_ : Nat) => (none : Option Nat)) (Mem.empty Nat) 42).2
      = none ∧
    (MakeShared_with_args (fun (_ : Nat) => (none : Option Nat)) (Mem.empty Nat)
      42).1.outstanding 0 = false ∧
    (AllocateShared_with_args (fun (_ : Nat) => (none : Option Nat)) (Mem.empty Nat) 5 42).2
      = none ∧
    (AllocateShared_with_args (fun (_ : Nat) => (none : Option Nat)) (Mem.empty Nat) 5
      42).1.outstanding 0 = true := by
  decide

/-! ## Heaps only grow -/

theorem Heap.Grows.rfl_grows (h : Heap) : Heap.Grows h h :=
  ⟨le_refl _, ⟨[], rfl⟩, fun _ _ => rfl⟩

theorem Heap.Grows.trans_grows {h h1 h2 : Heap} (a : Heap.Grows h h1)
    (b : Heap.Grows h1 h2) : Heap.Grows h h2 := by
  obtain ⟨e1, he1⟩ := a.trace_ext
  obtain ⟨e2, he2⟩ := b.trace_ext
  refine ⟨le_trans a.next_le b.next_le, ⟨e2 ++ e1, ?_⟩, ?_⟩
  · rw [he2, he1, List.append_assoc]
  · intro x hx
    rw [b.variant_eq x (lt_of_lt_of_le hx a.next_le), a.variant_eq x hx]

theorem grows_write (h : Heap) (b : Nat) (blk : BaseControlBlock)
    (hv : blk.variant = (h.blocks b).variant) : Heap.Grows h (h.write b blk) := by
  refine ⟨le_refl _, ⟨[], rfl⟩, ?_⟩
  intro x _
  by_cases hx : x = b
  · subst hx
    simp [hv]
  · simp [hx]

theorem grows_alloc (h : Heap) (v : Variant) : Heap.Grows h (h.alloc v).1 := by
  refine ⟨by simp, ⟨[], rfl⟩, ?_⟩
  intro x hx
  have : x ≠ h.next := by omega
  simp [this]

theorem grows_del_ptr (h : Heap) (b : Nat) : Heap.Grows h (del_ptr h b) :=
  ⟨le_refl _, ⟨[_], rfl⟩, fun _ _ => rfl⟩

theorem grows_del_object (h : Heap) (b : Nat) : Heap.Grows h (del_object h b) :=
  ⟨le_refl _, ⟨[_], rfl⟩, fun _ _ => rfl⟩

theorem grows_copy_ctor (h : Heap) (p : SharedPtr) :
    Heap.Grows h (SharedPtr.copy_ctor h p).1 := by
  unfold SharedPtr.copy_ctor
  cases p.contorol_block_ with
  | none => exact Heap.Grows.rfl_grows h
  | some b => exact grows_write h b _ rfl

theorem grows_weak_copy_ctor (h : Heap) (p : WeakPtr) :
    Heap.Grows h (WeakPtr.copy_ctor h p).1 := by
  unfold WeakPtr.copy_ctor
  cases p.contorol_block_ with
  | none => exact Heap.Grows.rfl_grows h
  | some b => exact grows_write h b _ rfl

theorem grows_from_shared (h : Heap) (p : SharedPtr) :
    Heap.Grows h (WeakPtr.from_shared h p).1 := by
  unfold WeakPtr.from_shared
  cases p.contorol_block_ with
  | none => exact Heap.Grows.rfl_grows h
  | some b => exact grows_write h b _ rfl

theorem grows_dtor (h : Heap) (p : SharedPtr) : Heap.Grows h (SharedPtr.dtor h p) := by
  unfold SharedPtr.dtor
  cases p.contorol_block_ with
  | none => exact Heap.Grows.rfl_grows h
  | some b =>
    have g1 := grows_write h b
      { h.blocks b with
        shared_count := ((h.blocks b).shared_count + SIZE_MOD - 1) % SIZE_MOD } rfl
    simp only
    split_ifs
    · exact (g1.trans_grows (grows_del_ptr _ b)).trans_grows (grows_del_object _ b)
    · exact g1.trans_grows (grows_del_ptr _ b)
    · exact g1

theorem grows_weak_dtor (h : Heap) (p : WeakPtr) : Heap.Grows h (WeakPtr.dtor h p) := by
  unfold WeakPtr.dtor
  cases p.contorol_block_ with
  | none => exact Heap.Grows.rfl_grows h
  | some b =>
    have g1 := grows_write h b
      { h.blocks b with
        weak_count := ((h.blocks b).weak_count + SIZE_MOD - 1) % SIZE_MOD } rfl
    simp only
    split_ifs
    · exact g1.trans_grows (grows_del_object _ b)
    · exact g1

theorem grows_copy_assign (h : Heap) (a b : SharedPtr) :
    Heap.Grows h (SharedPtr.copy_assign h a b).1 := by
  unfold SharedPtr.copy_assign
  split_ifs
  · exact Heap.Grows.rfl_grows h
  · exact (grows_copy_ctor h b).trans_grows (grows_dtor _ _)

theorem grows_move_assign (h : Heap) (a b : SharedPtr) :
    Heap.Grows h (SharedPtr.move_assign h a b).1 := by
  unfold SharedPtr.move_assign
  split_ifs
  · exact Heap.Grows.rfl_grows h
  · exact grows_dtor _ _

theorem grows_weak_copy_assign (h : Heap) (a b : WeakPtr) :
    Heap.Grows h (WeakPtr.copy_assign h a b).1 := by
  unfold WeakPtr.copy_assign
  split_ifs
  · exact Heap.Grows.rfl_grows h
  · exact (grows_weak_copy_ctor h b).trans_grows (grows_weak_dtor _ _)

theorem grows_weak_move_assign (h : Heap) (a b : WeakPtr) :
    Heap.Grows h (WeakPtr.move_assign h a b).1 := by
  unfold WeakPtr.move_assign
  split_ifs
  · exact Heap.Grows.rfl_grows h
  · exact grows_weak_dtor _ _

/-- Every client operation leaves a later stage of the heap. -/
theorem step_grows {s t : State} {op : Op} (hst : step s op = some t) :
    Heap.Grows s.heap t.heap := by
  cases op with
  | S_default =>
    simp only [step, Option.some.injEq] at hst
    subst hst
    exact Heap.Grows.rfl_grows _
  | S_raw ptr alloc del =>
    simp only [step, Option.some.injEq] at hst
    subst hst
    exact grows_alloc _ _
  | S_make =>
    simp only [step, Option.some.injEq] at hst
    subst hst
    exact grows_alloc _ _
  | S_allocate alloc =>
    simp only [step, Option.some.injEq] at hst
    subst hst
    exact grows_alloc _ _
  | S_copy j =>
    simp only [step] at hst
    cases hj : s.getS j with
    | none => simp [hj] at hst
    | some b =>
      simp only [hj, Option.some.injEq] at hst
      subst hst
      exact grows_copy_ctor _ _
  | S_move j =>
    simp only [step] at hst
    cases hj : s.getS j with
    | none => simp [hj] at hst
    | some b =>
      simp only [hj, Option.some.injEq] at hst
      subst hst
      exact Heap.Grows.rfl_grows _
  | S_copy_assign i j =>
    simp only [step] at hst
    cases hi : s.getS i with
    | none => simp [hi] at hst
    | some a =>
      cases hj : s.getS j with
      | none => simp [hi, hj] at hst
      | some b =>
        simp only [hi, hj, Option.some.injEq] at hst
        subst hst
        exact grows_copy_assign _ _ _
  | S_move_assign i j =>
    simp only [step] at hst
    cases hi : s.getS i with
    | none => simp [hi] at hst
    | some a =>
      cases hj : s.getS j with
      | none => simp [hi, hj] at hst
      | some b =>
        simp only [hi, hj, Option.some.injEq] at hst
        subst hst
        exact grows_move_assign _ _ _
  | S_reset i =>
    simp only [step] at hst
    cases hi : s.getS i with
    | none => simp [hi] at hst
    | some a =>
      simp only [hi, Option.some.injEq] at hst
      subst hst
      exact grows_dtor _ _
  | S_swap i j =>
    simp only [step] at hst
    cases hi : s.getS i with
    | none => simp [hi] at hst
    | some a =>
      cases hj : s.getS j with
      | none => simp [hi, hj] at hst
      | some b =>
        simp only [hi, hj, Option.some.injEq] at hst
        subst hst
        exact Heap.Grows.rfl_grows _
  | S_dtor i =>
    simp only [step] at hst
    cases hi : s.getS i with
    | none => simp [hi] at hst
    | some a =>
      simp only [hi, Option.some.injEq] at hst
      subst hst
      exact grows_dtor _ _
  | W_default =>
    simp only [step, Option.some.injEq] at hst
    subst hst
    exact Heap.Grows.rfl_grows _
  | W_from_shared j =>
    simp only [step] at hst
    cases hj : s.getS j with
    | none => simp [hj] at hst
    | some b =>
      simp only [hj, Option.some.injEq] at hst
      subst hst
      exact grows_from_shared _ _
  | W_copy j =>
    simp only [step] at hst
    cases hj : s.getW j with
    | none => simp [hj] at hst
    | some b =>
      simp only [hj, Option.some.injEq] at hst
      subst hst
      exact grows_weak_copy_ctor _ _
  | W_move j =>
    simp only [step] at hst
    cases hj : s.getW j with
    | none => simp [hj] at hst
    | some b =>
      simp only [hj, Option.some.injEq] at hst
      subst hst
      exact Heap.Grows.rfl_grows _
  | W_copy_assign i j =>
    simp only [step] at hst
    cases hi : s.getW i with
    | none => simp [hi] at hst
    | some a =>
      cases hj : s.getW j with
      | none => simp [hi, hj] at hst
      | some b =>
        simp only [hi, hj, Option.some.injEq] at hst
        subst hst
        exact grows_weak_copy_assign _ _ _
  | W_move_assign i j =>
    simp only [step] at hst
    cases hi : s.getW i with
    | none => simp [hi] at hst
    | some a =>
      cases hj : s.getW j with
      | none => simp [hi, hj] at hst
      | some b =>
        simp only [hi, hj, Option.some.injEq] at hst
        subst hst
        exact grows_weak_move_assign _ _ _
  | W_swap i j =>
    simp only [step] at hst
    cases hi : s.getW i with
    | none => simp [hi] at hst
    | some a =>
      cases hj : s.getW j with
      | none => simp [hi, hj] at hst
      | some b =>
        simp only [hi, hj, Option.some.injEq] at hst
        subst hst
        exact Heap.Grows.rfl_grows _
  | W_dtor i =>
    simp only [step] at hst
    cases hi : s.getW i with
    | none => simp [hi] at hst
    | some a =>
      simp only [hi, Option.some.injEq] at hst
      subst hst
      exact grows_weak_dtor _ _

theorem Steps.grows {s t : State} (hs : Steps s t) : Heap.Grows s.heap t.heap := by
  induction hs with
  | refl => exact Heap.Grows.rfl_grows _
  | tail t u op _ _ hst ih => exact ih.trans_grows (step_grows hst)

theorem Steps.reachable {s t : State} (hs : Steps s t) (hr : Reachable s) : Reachable t := by
  induction hs with
  | refl => exact hr
  | tail t u op _ hf hst ih => exact Reachable.step t u op ih hf hst

theorem Steps.steps_of_run {s t : State} (ops : List Op) (hf : fitsAll s ops = true)
    (hrun : run s ops = some t) : Steps s t := by
  induction ops generalizing s with
  | nil =>
    simp only [run, Option.some.injEq] at hrun
    rw [← hrun]
    exact Steps.refl s
  | cons op ops ih =>
    simp only [run] at hrun
    simp only [fitsAll, Bool.and_eq_true, Bool.or_eq_true, Bool.not_eq_true',
      decide_eq_true_eq] at hf
    cases hst : SmartPointers.step s op with
    | none => simp [hst] at hrun
    | some u =>
      simp only [hst] at hrun hf
      have h1 : Steps s u := Steps.tail s s u op (Steps.refl s) (by
        intro hc
        rcases hf.1 with h1 | h1
        · rw [hc] at h1
          exact absurd h1 (by decide)
        · exact h1) hst
      have h2 : Steps u t := ih hf.2 hrun
      clear ih hrun hf hst
      induction h2 with
      | refl => exact h1
      | tail v w op2 _ hf2 hst2 ih2 => exact Steps.tail s v w op2 ih2 hf2 hst2

theorem delPtrCount_mono {h h1 : Heap} (g : Heap.Grows h h1) (b : Nat) :
    h.delPtrCount b ≤ h1.delPtrCount b := by
  obtain ⟨evs, he⟩ := g.trace_ext
  simp only [Heap.delPtrCount, he, List.countP_append]
  omega

theorem delObjectCount_mono {h h1 : Heap} (g : Heap.Grows h h1) (b : Nat) :
    h.delObjectCount b ≤ h1.delObjectCount b := by
  obtain ⟨evs, he⟩ := g.trace_ext
  simp only [Heap.delObjectCount, he, List.countP_append]
  omega

/-! ## C13: adoption with a deleter -/

theorem step_S_raw (s : State) (ptr : Option Addr) (alloc del : Nat) :
    step s (Op.S_raw ptr alloc del)
      = some ((s.withHeap (s.heap.alloc (Variant.ControlBlockRegular ptr alloc del)).1).pushS
          { contorol_block_ := some s.heap.next, object_ptr_ := ptr }) := rfl

/-- C13: for every raw pointer `P`, deleter `d` and allocator `alloc` (`0` for the
two-argument constructor), the Strong Handle `h` constructed from them in a
reachable state has `use_count() == 1` and `get() == P`, and in every state reached
afterwards the calls made by `del_ptr()` on its block are: none while a Strong
Handle on the block is alive, and exactly the one call `d(P)` once the last of them
has been destroyed. -/
theorem C13_deleter_called_once (s0 : State) (hr : Reachable s0) (P : Option Addr)
    (alloc d : Nat) (hfit : s0.live + 1 < SIZE_MOD) :
    ∃ s1 h, step s0 (Op.S_raw P alloc d) = some s1 ∧
      s1.getS s0.strong.length = some h ∧
      h.contorol_block_ = some s0.heap.next ∧
      SharedPtr.use_count s1.heap h = 1 ∧ SharedPtr.get h = P ∧
      ∀ t, Steps s1 t →
        t.heap.releases s0.heap.next
          = (if t.numStrong s0.heap.next = 0 then [Release.deleter d P] else []) := by
  have hst := step_S_raw s0 P alloc d
  have hr1 := Reachable.step s0 _ (Op.S_raw P alloc d) hr (fun _ => hfit) hst
  refine ⟨_, { contorol_block_ := some s0.heap.next, object_ptr_ := P }, hst,
    pushS_getS_new (s0.withHeap _) _, rfl, ?_, rfl, ?_⟩
  · simp [SharedPtr.use_count]
  · intro t hsteps
    have g := hsteps.grows
    have hrt := hsteps.reachable hr1
    have hlt1 : s0.heap.next < ((s0.withHeap
        (s0.heap.alloc (Variant.ControlBlockRegular P alloc d)).1).pushS
        { contorol_block_ := some s0.heap.next, object_ptr_ := P }).heap.next := by
      simp
    have hv := g.variant_eq s0.heap.next hlt1
    have hlt : s0.heap.next < t.heap.next := lt_of_lt_of_le hlt1 g.next_le
    have hk := (hrt.invariant.1.hooks s0.heap.next hlt).1
    have hv2 : (t.heap.blocks s0.heap.next).variant
        = Variant.ControlBlockRegular P alloc d := by
      rw [hv]
      simp
    simp only [Heap.releases, hk, hv2, Variant.del_ptr]
    split_ifs <;> rfl

theorem adopt_fits : fitsAll State.init adoptOps = true := by decide

/-- Witness for C13: adoption of the raw pointer `7` with deleter `3` and allocator
`5` in the empty state, followed by a copy: no call yet. -/
theorem C13_deleter_called_once_witness :
    Reachable State.init ∧ State.init.live + 1 < SIZE_MOD ∧
    (after adoptOps).heap.releases 0 = [] ∧
    ∃ s1 h, step State.init (Op.S_raw (some (Addr.raw 7)) 5 3) = some s1 ∧
      s1.getS State.init.strong.length = some h ∧
      h.contorol_block_ = some State.init.heap.next ∧
      SharedPtr.use_count s1.heap h = 1 ∧ SharedPtr.get h = some (Addr.raw 7) ∧
      ∀ t, Steps s1 t →
        t.heap.releases State.init.heap.next
          = (if t.numStrong State.init.heap.next = 0
              then [Release.deleter 3 (some (Addr.raw 7))] else []) :=
  ⟨Reachable.init, by decide, by decide,
   C13_deleter_called_once State.init Reachable.init (some (Addr.raw 7)) 5 3 (by decide)⟩

/-! ## C14: the shape of handles -/

theorem shaped_pushS {s : State} (hs : s.shaped) {v : SharedPtr} (hv : v.shaped) :
    (s.pushS v).shaped := by
  refine ⟨?_, hs.2⟩
  intro a ha
  simp only [State.pushS, List.mem_append, List.mem_singleton, Option.some.injEq] at ha
  rcases ha with ha | ha
  · exact hs.1 a ha
  · rw [ha]
    exact hv

theorem shaped_pushW {s : State} (hs : s.shaped) {v : WeakPtr} (hv : v.shaped) :
    (s.pushW v).shaped := by
  refine ⟨hs.1, ?_⟩
  intro a ha
  simp only [State.pushW, List.mem_append, List.mem_singleton, Option.some.injEq] at ha
  rcases ha with ha | ha
  · exact hs.2 a ha
  · rw [ha]
    exact hv

theorem shaped_setS {s : State} (hs : s.shaped) (i : Nat) {v : Option SharedPtr}
    (hv : ∀ a, v = some a → a.shaped) : (s.setS i v).shaped := by
  refine ⟨?_, hs.2⟩
  intro a ha
  rcases List.mem_or_eq_of_mem_set ha with h | h
  · exact hs.1 a h
  · exact hv a h.symm

theorem shaped_setW {s : State} (hs : s.shaped) (i : Nat) {v : Option WeakPtr}
    (hv : ∀ a, v = some a → a.shaped) : (s.setW i v).shaped := by
  refine ⟨hs.1, ?_⟩
  intro a ha
  rcases List.mem_or_eq_of_mem_set ha with h | h
  · exact hs.2 a h
  · exact hv a h.symm

theorem shaped_withHeap {s : State} (hs : s.shaped) (h : Heap) : (s.withHeap h).shaped := hs

theorem shaped_some {a : SharedPtr} (ha : a.shaped) :
    ∀ c, some a = some c → c.shaped := by
  intro c hc
  rw [← Option.some.inj hc]
  exact ha

theorem weak_shaped_some {a : WeakPtr} (ha : a.shaped) :
    ∀ c, some a = some c → c.shaped := by
  intro c hc
  rw [← Option.some.inj hc]
  exact ha

theorem mem_of_getD {α : Type} {l : List (Option α)} {i : Nat} {a : α}
    (h : l.getD i none = some a) : some a ∈ l := by
  obtain ⟨hlt, hget⟩ := getD_eq_some h
  rw [← hget]
  exact List.getElem_mem hlt

theorem shaped_getS {s : State} (hs : s.shaped) {i : Nat} {a : SharedPtr}
    (hi : s.getS i = some a) : a.shaped :=
  hs.1 a (mem_of_getD hi)

theorem shaped_getW {s : State} (hs : s.shaped) {i : Nat} {a : WeakPtr}
    (hi : s.getW i = some a) : a.shaped :=
  hs.2 a (mem_of_getD hi)

theorem shaped_null : SharedPtr.null.shaped := fun _ => rfl

theorem weak_shaped_null : WeakPtr.null.shaped := fun _ => rfl

theorem shaped_copy_ctor (h : Heap) {b : SharedPtr} (hb : b.shaped) :
    (SharedPtr.copy_ctor h b).2.shaped := by
  unfold SharedPtr.copy_ctor
  cases hc : b.contorol_block_ with
  | none =>
    intro _
    exact hb hc
  | some x =>
    intro hn
    simp at hn

theorem shaped_copy_assign (h : Heap) {a b : SharedPtr} (ha : a.shaped) (hb : b.shaped) :
    (SharedPtr.copy_assign h a b).2.shaped := by
  unfold SharedPtr.copy_assign
  split_ifs
  · exact ha
  · exact shaped_copy_ctor h hb

theorem shaped_move_assign (h : Heap) {a b : SharedPtr} (ha : a.shaped) (hb : b.shaped) :
    (SharedPtr.move_assign h a b).2.1.shaped ∧ (SharedPtr.move_assign h a b).2.2.shaped := by
  unfold SharedPtr.move_assign
  split_ifs
  · exact ⟨ha, hb⟩
  · exact ⟨hb, fun _ => rfl⟩

theorem weak_shaped_copy_ctor (h : Heap) {b : WeakPtr} (hb : b.shaped) :
    (WeakPtr.copy_ctor h b).2.shaped := by
  unfold WeakPtr.copy_ctor
  cases hc : b.contorol_block_ with
  | none =>
    intro _
    exact hb hc
  | some x =>
    intro hn
    simp at hn

theorem weak_shaped_from_shared (h : Heap) {b : SharedPtr} (hb : b.shaped) :
    (WeakPtr.from_shared h b).2.shaped := by
  unfold WeakPtr.from_shared
  cases hc : b.contorol_block_ with
  | none =>
    intro _
    exact hb hc
  | some x =>
    intro hn
    simp at hn

theorem weak_shaped_copy_assign (h : Heap) {a b : WeakPtr} (ha : a.shaped) (hb : b.shaped) :
    (WeakPtr.copy_assign h a b).2.shaped := by
  unfold WeakPtr.copy_assign
  split_ifs
  · exact ha
  · exact weak_shaped_copy_ctor h hb

theorem weak_shaped_move_assign (h : Heap) {a b : WeakPtr} (ha : a.shaped) (hb : b.shaped) :
    (WeakPtr.move_assign h a b).2.1.shaped ∧ (WeakPtr.move_assign h a b).2.2.shaped := by
  unfold WeakPtr.move_assign
  split_ifs
  · exact ⟨ha, hb⟩
  · exact ⟨hb, fun _ => rfl⟩

/-- Every client operation preserves the shape of all handles. -/
theorem shaped_step {s t : State} {op : Op} (hs : s.shaped) (hst : step s op = some t) :
    t.shaped := by
  cases op with
  | S_default =>
    simp only [step, Option.some.injEq] at hst
    subst hst
    exact shaped_pushS hs (fun _ => rfl)
  | S_raw ptr alloc del =>
    simp only [step, Option.some.injEq] at hst
    subst hst
    exact shaped_pushS (shaped_withHeap hs _) (fun hn => by simp [SharedPtr.raw_ctor] at hn)
  | S_make =>
    simp only [step, Option.some.injEq] at hst
    subst hst
    exact shaped_pushS (shaped_withHeap hs _)
      (fun hn => by simp [MakeShared, SharedPtr.private_ctor] at hn)
  | S_allocate alloc =>
    simp only [step, Option.some.injEq] at hst
    subst hst
    exact shaped_pushS (shaped_withHeap hs _)
      (fun hn => by simp [AllocateShared, SharedPtr.private_ctor] at hn)
  | S_copy j =>
    simp only [step] at hst
    cases hj : s.getS j with
    | none => simp [hj] at hst
    | some b =>
      simp only [hj, Option.some.injEq] at hst
      subst hst
      exact shaped_pushS (shaped_withHeap hs _) (shaped_copy_ctor _ (shaped_getS hs hj))
  | S_move j =>
    simp only [step] at hst
    cases hj : s.getS j with
    | none => simp [hj] at hst
    | some b =>
      simp only [hj, Option.some.injEq] at hst
      subst hst
      exact shaped_pushS (shaped_setS hs j (shaped_some (fun _ => rfl))) (shaped_getS hs hj)
  | S_copy_assign i j =>
    simp only [step] at hst
    cases hi : s.getS i with
    | none => simp [hi] at hst
    | some a =>
      cases hj : s.getS j with
      | none => simp [hi, hj] at hst
      | some b =>
        simp only [hi, hj, Option.some.injEq] at hst
        subst hst
        exact shaped_setS (shaped_withHeap hs _) i
          (shaped_some (shaped_copy_assign _ (shaped_getS hs hi) (shaped_getS hs hj)))
  | S_move_assign i j =>
    simp only [step] at hst
    cases hi : s.getS i with
    | none => simp [hi] at hst
    | some a =>
      cases hj : s.getS j with
      | none => simp [hi, hj] at hst
      | some b =>
        simp only [hi, hj, Option.some.injEq] at hst
        subst hst
        have h2 := shaped_move_assign s.heap (shaped_getS hs hi) (shaped_getS hs hj)
        exact shaped_setS (shaped_setS (shaped_withHeap hs _) j (shaped_some h2.2)) i
          (shaped_some h2.1)
  | S_reset i =>
    simp only [step] at hst
    cases hi : s.getS i with
    | none => simp [hi] at hst
    | some a =>
      simp only [hi, Option.some.injEq] at hst
      subst hst
      exact shaped_setS (shaped_withHeap hs _) i (shaped_some (fun _ => rfl))
  | S_swap i j =>
    simp only [step] at hst
    cases hi : s.getS i with
    | none => simp [hi] at hst
    | some a =>
      cases hj : s.getS j with
      | none => simp [hi, hj] at hst
      | some b =>
        simp only [hi, hj, Option.some.injEq] at hst
        subst hst
        exact shaped_setS (shaped_setS hs j (shaped_some (shaped_getS hs hi))) i
          (shaped_some (shaped_getS hs hj))
  | S_dtor i =>
    simp only [step] at hst
    cases hi : s.getS i with
    | none => simp [hi] at hst
    | some a =>
      simp only [hi, Option.some.injEq] at hst
      subst hst
      exact shaped_setS (shaped_withHeap hs _) i (fun a ha => by simp at ha)
  | W_default =>
    simp only [step, Option.some.injEq] at hst
    subst hst
    exact shaped_pushW hs (fun _ => rfl)
  | W_from_shared j =>
    simp only [step] at hst
    cases hj : s.getS j with
    | none => simp [hj] at hst
    | some b =>
      simp only [hj, Option.some.injEq] at hst
      subst hst
      exact shaped_pushW (shaped_withHeap hs _)
        (weak_shaped_from_shared _ (shaped_getS hs hj))
  | W_copy j =>
    simp only [step] at hst
    cases hj : s.getW j with
    | none => simp [hj] at hst
    | some b =>
      simp only [hj, Option.some.injEq] at hst
      subst hst
      exact shaped_pushW (shaped_withHeap hs _) (weak_shaped_copy_ctor _ (shaped_getW hs hj))
  | W_move j =>
    simp only [step] at hst
    cases hj : s.getW j with
    | none => simp [hj] at hst
    | some b =>
      simp only [hj, Option.some.injEq] at hst
      subst hst
      exact shaped_pushW (shaped_setW hs j (weak_shaped_some (fun _ => rfl)))
        (shaped_getW hs hj)
  | W_copy_assign i j =>
    simp only [step] at hst
    cases hi : s.getW i with
    | none => simp [hi] at hst
    | some a =>
      cases hj : s.getW j with
      | none => simp [hi, hj] at hst
      | some b =>
        simp only [hi, hj, Option.some.injEq] at hst
        subst hst
        exact shaped_setW (shaped_withHeap hs _) i
          (weak_shaped_some (weak_shaped_copy_assign _ (shaped_getW hs hi) (shaped_getW hs hj)))
  | W_move_assign i j =>
    simp only [step] at hst
    cases hi : s.getW i with
    | none => simp [hi] at hst
    | some a =>
      cases hj : s.getW j with
      | none => simp [hi, hj] at hst
      | some b =>
        simp only [hi, hj, Option.some.injEq] at hst
        subst hst
        have h2 := weak_shaped_move_assign s.heap (shaped_getW hs hi) (shaped_getW hs hj)
        exact shaped_setW (shaped_setW (shaped_withHeap hs _) j (weak_shaped_some h2.2)) i
          (weak_shaped_some h2.1)
  | W_swap i j =>
    simp only [step] at hst
    cases hi : s.getW i with
    | none => simp [hi] at hst
    | some a =>
      cases hj : s.getW j with
      | none => simp [hi, hj] at hst
      | some b =>
        simp only [hi, hj, Option.some.injEq] at hst
        subst hst
        exact shaped_setW (shaped_setW hs j (weak_shaped_some (shaped_getW hs hi))) i
          (weak_shaped_some (shaped_getW hs hj))
  | W_dtor i =>
    simp only [step] at hst
    cases hi : s.getW i with
    | none => simp [hi] at hst
    | some a =>
      simp only [hi, Option.some.injEq] at hst
      subst hst
      exact shaped_setW (shaped_withHeap hs _) i (fun a ha => by simp at ha)

theorem Reachable.shaped {s : State} (hr : Reachable s) : s.shaped := by
  induction hr with
  | init => exact ⟨fun a ha => by simp [State.init] at ha, fun a ha => by simp [State.init] at ha⟩
  | step s t op _ _ hst ih => exact shaped_step ih hst

/-- C14: in every state reachable through the public operations (default and
`nullptr` construction, adoption of a raw pointer, the factories, copy, move,
assignment, `swap`, `reset`, destruction), every live Strong Handle and every live
Weak Handle whose control-block pointer is null has a null object pointer. -/
theorem C14_handle_shape (s : State) (hr : Reachable s) :
    (∀ i a, s.getS i = some a → a.contorol_block_ = none → a.object_ptr_ = none) ∧
    (∀ j w, s.getW j = some w → w.contorol_block_ = none → w.object_ptr_ = none) :=
  ⟨fun _ _ hi => shaped_getS hr.shaped hi, fun _ _ hj => shaped_getW hr.shaped hj⟩

theorem movedFrom_reachable : Reachable (after movedFromOps) :=
  Reachable.after_ops movedFromOps (by decide)

/-- Witness for C14: the moved-from handle in slot 0 of `movedFromOps` has both
fields null. -/
theorem C14_handle_shape_witness :
    Reachable (after movedFromOps) ∧
    (after movedFromOps).getS 0 = some SharedPtr.null ∧
    SharedPtr.null.object_ptr_ = none :=
  ⟨movedFrom_reachable, by decide,
   (C14_handle_shape (after movedFromOps) movedFrom_reachable).1 0 SharedPtr.null
     (by decide) rfl⟩

/-! ## C15: copy assignment against the plain sequence -/

/-- C15 (the code at a failing input): `a` adopted from a null raw pointer (block
`0`), `b` empty.  `a = b` as implemented returns at the equality test
(`a.get() == b.get()`, both null): `a` keeps block `0` and reads `use_count() == 1`
while `b.use_count() == 0`, and no hook is called.  The plain sequence leaves `a`
empty with `use_count() == 0` and releases block `0` (`del_ptr` and `del_object`
called once each). -/
theorem C15_copy_assign_divergence :
    (after nullAdoptedOps).getS 0 = some (SharedPtr.onNull 0) ∧
    (after nullAdoptedOps).getS 1 = some SharedPtr.null ∧
    (SharedPtr.copy_assign (after nullAdoptedOps).heap (SharedPtr.onNull 0)
      SharedPtr.null).2 = SharedPtr.onNull 0 ∧
    SharedPtr.use_count (SharedPtr.copy_assign (after nullAdoptedOps).heap
      (SharedPtr.onNull 0) SharedPtr.null).1 (SharedPtr.onNull 0) = 1 ∧
    SharedPtr.use_count (SharedPtr.copy_assign (after nullAdoptedOps).heap
      (SharedPtr.onNull 0) SharedPtr.null).1 SharedPtr.null = 0 ∧
    (SharedPtr.copy_assign (after nullAdoptedOps).heap (SharedPtr.onNull 0)
      SharedPtr.null).1.delPtrCount 0 = 0 ∧
    (SharedPtr.copy_assign_plain (after nullAdoptedOps).heap (SharedPtr.onNull 0)
      SharedPtr.null).2 = SharedPtr.null ∧
    ((SharedPtr.copy_assign_plain (after nullAdoptedOps).heap (SharedPtr.onNull 0)
      SharedPtr.null).1.blocks 0).shared_count = 0 ∧
    (SharedPtr.copy_assign_plain (after nullAdoptedOps).heap (SharedPtr.onNull 0)
      SharedPtr.null).1.delPtrCount 0 = 1 ∧
    (SharedPtr.copy_assign_plain (after nullAdoptedOps).heap (SharedPtr.onNull 0)
      SharedPtr.null).1.delObjectCount 0 = 1 ∧
    (after (nullAdoptedOps ++ [Op.S_copy_assign 0 1])).getS 0
      = some (SharedPtr.onNull 0) := by
  decide

/-- Where the short-circuit is taken for two handles with the same fields (`b` is
a copy of `a`, or `a` itself) the plain sequence changes nothing either: same
field values, same counters on every block, same record of hook calls. -/
theorem copy_assign_plain_same (s : State) (hr : Reachable s) (i : Nat) (a : SharedPtr)
    (hi : s.getS i = some a) (hfit : s.live + 1 < SIZE_MOD) :
    SharedPtr.copy_assign s.heap a a = (s.heap, a) ∧
    (SharedPtr.copy_assign_plain s.heap a a).2 = a ∧
    (SharedPtr.copy_assign_plain s.heap a a).1.blocks = s.heap.blocks ∧
    (SharedPtr.copy_assign_plain s.heap a a).1.trace = s.heap.trace ∧
    (SharedPtr.copy_assign_plain s.heap a a).1.next = s.heap.next := by
  have hinv := hr.invariant
  refine ⟨by simp [SharedPtr.copy_assign, SharedPtr.eq], ?_⟩
  cases hc : a.contorol_block_ with
  | none =>
    cases a with
    | mk c o =>
      simp only at hc
      subst hc
      simp [SharedPtr.copy_assign_plain, SharedPtr.copy_ctor, SharedPtr.swap, SharedPtr.dtor]
  | some x =>
    have hpos := numStrong_pos hi hc
    have hlt : x < s.heap.next := hinv.1.lt_next_of_strong hpos
    have hcnt := (hinv.1.counts x hlt).1
    have hle := numStrong_le_live s x
    have h1 : ((s.heap.blocks x).shared_count + 1) % SIZE_MOD
        = (s.heap.blocks x).shared_count + 1 := mod_succ (by omega)
    have h2 : ((s.heap.blocks x).shared_count + 1 + SIZE_MOD - 1) % SIZE_MOD
        = (s.heap.blocks x).shared_count := by
      have := mod_pred (c := (s.heap.blocks x).shared_count + 1) (by omega) (by omega)
      rw [this]
      omega
    have hne : (s.heap.blocks x).shared_count ≠ 0 := by omega
    cases a with
    | mk c o =>
      simp only at hc
      subst hc
      simp only [SharedPtr.copy_assign_plain, SharedPtr.copy_ctor, SharedPtr.swap,
        SharedPtr.dtor, write_blocks, if_true, h1, h2, if_neg hne, write_trace, write_next]
      refine ⟨trivial, ?_, trivial, trivial⟩
      funext y
      by_cases hy : y = x
      · subst hy
        simp
      · simp [hy]

/-! ## C16: self-assignment -/

theorem set_getD_self {α : Type} (l : List (Option α)) (i : Nat) (a : α)
    (h : l.getD i none = some a) : l.set i (some a) = l := by
  induction l generalizing i with
  | nil => rfl
  | cons x l ih =>
    cases i with
    | zero =>
      simp only [List.getD_cons_zero] at h
      simp [h]
    | succ i =>
      simp only [List.getD_cons_succ] at h
      simp [ih i h]

theorem setS_self {s : State} {i : Nat} {a : SharedPtr} (hi : s.getS i = some a) :
    (s.withHeap s.heap).setS i (some a) = s := by
  cases s with
  | mk h st wk =>
    simp only [State.withHeap, State.setS]
    rw [set_getD_self st i a hi]

theorem setW_self {s : State} {i : Nat} {a : WeakPtr} (hi : s.getW i = some a) :
    (s.withHeap s.heap).setW i (some a) = s := by
  cases s with
  | mk h st wk =>
    simp only [State.withHeap, State.setW]
    rw [set_getD_self wk i a hi]

/-- C16: copy-assigning or move-assigning a live Strong Handle or Weak Handle to
itself leaves the whole state as it is: both fields of the handle, the counters of
every block and the record of hook calls. -/
theorem C16_self_assignment (s : State) :
    (∀ i a, s.getS i = some a →
      step s (Op.S_copy_assign i i) = some s ∧ step s (Op.S_move_assign i i) = some s) ∧
    (∀ j w, s.getW j = some w →
      step s (Op.W_copy_assign j j) = some s ∧ step s (Op.W_move_assign j j) = some s) := by
  refine ⟨?_, ?_⟩
  · intro i a hi
    refine ⟨?_, ?_⟩
    · simp only [step, hi, SharedPtr.copy_assign, SharedPtr.eq, decide_True, if_true]
      rw [setS_self hi]
    · simp only [step, hi, SharedPtr.move_assign, SharedPtr.eq, decide_True, if_true]
      rw [setS_self hi]
      have e : s.setS i (some a) = s := setS_self hi
      rw [e]
  · intro j w hj
    refine ⟨?_, ?_⟩
    · simp only [step, hj, WeakPtr.copy_assign, WeakPtr.eq, decide_True, if_true]
      rw [setW_self hj]
    · simp only [step, hj, WeakPtr.move_assign, WeakPtr.eq, decide_True, if_true]
      rw [setW_self hj]
      have e : s.setW j (some w) = s := setW_self hj
      rw [e]

/-- Witness for C16: self-assignment of the handle in slot 0 of `twoCopiesOps`. -/
theorem C16_self_assignment_witness :
    (after twoCopiesOps).getS 0 = some (SharedPtr.onObject 0) ∧
    step (after twoCopiesOps) (Op.S_copy_assign 0 0) = some (after twoCopiesOps) ∧
    step (after twoCopiesOps) (Op.S_move_assign 0 0) = some (after twoCopiesOps) :=
  ⟨by decide,
   (C16_self_assignment (after twoCopiesOps)).1 0 (SharedPtr.onObject 0) (by decide)⟩

/-! ## C17: `reset()` against `a = SharedPtr()` -/

/-- C17 (the code at a failing input): `a` adopted from a null raw pointer (block
`0`, `use_count() == 1`).  `a.reset()` leaves `a` empty and releases block `0`
(`shared_count == 0`, `del_ptr` and `del_object` called once each).
`a = SharedPtr()` returns at the equality test (both object pointers null): `a`
keeps block `0`, `use_count()` stays 1 and no hook is called. -/
theorem C17_reset_vs_assign_empty :
    (after nullAdoptedOps).getS 0 = some (SharedPtr.onNull 0) ∧
    SharedPtr.use_count (after nullAdoptedOps).heap (SharedPtr.onNull 0) = 1 ∧
    (SharedPtr.reset (after nullAdoptedOps).heap (SharedPtr.onNull 0)).2 = SharedPtr.null ∧
    ((SharedPtr.reset (after nullAdoptedOps).heap (SharedPtr.onNull 0)).1.blocks
      0).shared_count = 0 ∧
    (SharedPtr.reset (after nullAdoptedOps).heap (SharedPtr.onNull 0)).1.delPtrCount 0 = 1 ∧
    (SharedPtr.reset (after nullAdoptedOps).heap (SharedPtr.onNull 0)).1.delObjectCount 0
      = 1 ∧
    (SharedPtr.assign_empty (after nullAdoptedOps).heap (SharedPtr.onNull 0)).2
      = SharedPtr.onNull 0 ∧
    ((SharedPtr.assign_empty (after nullAdoptedOps).heap (SharedPtr.onNull 0)).1.blocks
      0).shared_count = 1 ∧
    (SharedPtr.assign_empty (after nullAdoptedOps).heap (SharedPtr.onNull 0)).1.delPtrCount
      0 = 0 ∧
    (SharedPtr.assign_empty (after nullAdoptedOps).heap
      (SharedPtr.onNull 0)).1.delObjectCount 0 = 0 := by
  decide

/-- For a handle whose object pointer is not null the two agree: `a = SharedPtr()`
gives the heap and the handle value of `a.reset()`. -/
theorem assign_empty_eq_reset (h : Heap) (a : SharedPtr) (ha : a.object_ptr_ ≠ none) :
    SharedPtr.assign_empty h a = SharedPtr.reset h a := by
  simp [SharedPtr.assign_empty, SharedPtr.move_assign, SharedPtr.eq, SharedPtr.default_ctor,
    ha, SharedPtr.move_ctor, SharedPtr.swap, SharedPtr.reset, SharedPtr.dtor]

/-! ## C18: `del_ptr` before `del_object` -/

theorem any_del_ptr_of_count {l : List Event} {b : Nat}
    (h : 1 ≤ l.countP (fun e => decide (e.hook = Hook.del_ptr ∧ e.block = b))) :
    l.any (fun p => decide (p.hook = Hook.del_ptr ∧ p.block = b)) = true := by
  rw [List.any_eq_true]
  exact List.countP_pos_iff.mp h

theorem ordered_dtor (h : Heap) (a : SharedPtr) (ho : orderedTrace h.trace = true) :
    orderedTrace (SharedPtr.dtor h a).trace = true := by
  unfold SharedPtr.dtor
  cases a.contorol_block_ with
  | none => exact ho
  | some b =>
    simp only
    split_ifs
    · simp [del_object, del_ptr, orderedTrace, ho]
    · simp [del_ptr, orderedTrace, ho]
    · exact ho

theorem ordered_weak_dtor (h : Heap) (a : WeakPtr) (ho : orderedTrace h.trace = true)
    (hc : ∀ b, a.contorol_block_ = some b → (h.blocks b).shared_count = 0 →
      1 ≤ h.delPtrCount b) :
    orderedTrace (WeakPtr.dtor h a).trace = true := by
  unfold WeakPtr.dtor
  cases hb : a.contorol_block_ with
  | none => exact ho
  | some b =>
    simp only
    split_ifs with c
    · have h1 : (h.blocks b).shared_count = 0 := by
        have := c.1
        simpa using this
      have h2 := any_del_ptr_of_count (hc b hb h1)
      simp only [del_object, write_trace, orderedTrace, ho, Bool.and_true, Bool.or_eq_true]
      right
      exact h2
    · exact ho

theorem copy_ctor_trace (h : Heap) (p : SharedPtr) :
    (SharedPtr.copy_ctor h p).1.trace = h.trace := by
  unfold SharedPtr.copy_ctor
  cases p.contorol_block_ <;> rfl

theorem weak_copy_ctor_trace (h : Heap) (p : WeakPtr) :
    (WeakPtr.copy_ctor h p).1.trace = h.trace := by
  unfold WeakPtr.copy_ctor
  cases p.contorol_block_ <;> rfl

theorem from_shared_trace (h : Heap) (p : SharedPtr) :
    (WeakPtr.from_shared h p).1.trace = h.trace := by
  unfold WeakPtr.from_shared
  cases p.contorol_block_ <;> rfl

theorem weak_copy_ctor_shared (h : Heap) (p : WeakPtr) (x : Nat) :
    ((WeakPtr.copy_ctor h p).1.blocks x).shared_count = (h.blocks x).shared_count := by
  unfold WeakPtr.copy_ctor
  cases p.contorol_block_ with
  | none => rfl
  | some b =>
    by_cases hx : x = b
    · subst hx
      simp
    · simp [hx]

theorem ordered_copy_assign (h : Heap) (a b : SharedPtr) (ho : orderedTrace h.trace = true) :
    orderedTrace (SharedPtr.copy_assign h a b).1.trace = true := by
  unfold SharedPtr.copy_assign
  split_ifs
  · exact ho
  · exact ordered_dtor _ _ (by rw [copy_ctor_trace]; exact ho)

theorem ordered_move_assign (h : Heap) (a b : SharedPtr) (ho : orderedTrace h.trace = true) :
    orderedTrace (SharedPtr.move_assign h a b).1.trace = true := by
  unfold SharedPtr.move_assign
  split_ifs
  · exact ho
  · exact ordered_dtor _ _ ho

theorem ordered_weak_copy_assign (h : Heap) (a b : WeakPtr)
    (ho : orderedTrace h.trace = true)
    (hc : ∀ x, a.contorol_block_ = some x → (h.blocks x).shared_count = 0 →
      1 ≤ h.delPtrCount x) :
    orderedTrace (WeakPtr.copy_assign h a b).1.trace = true := by
  unfold WeakPtr.copy_assign
  split_ifs
  · exact ho
  · refine ordered_weak_dtor _ _ (by rw [weak_copy_ctor_trace]; exact ho) ?_
    intro x hx h0
    rw [weak_copy_ctor_shared] at h0
    have := hc x hx h0
    simp only [Heap.delPtrCount, weak_copy_ctor_trace] at this ⊢
    exact this

theorem ordered_weak_move_assign (h : Heap) (a b : WeakPtr)
    (ho : orderedTrace h.trace = true)
    (hc : ∀ x, a.contorol_block_ = some x → (h.blocks x).shared_count = 0 →
      1 ≤ h.delPtrCount x) :
    orderedTrace (WeakPtr.move_assign h a b).1.trace = true := by
  unfold WeakPtr.move_assign
  split_ifs
  · exact ho
  · exact ordered_weak_dtor _ _ ho hc

/-- In a state satisfying the invariant, a block that carries a live Weak Handle
and has `shared_count == 0` has had its `del_ptr` call. -/
theorem weak_handle_object_released {s : State} (hs : Inv s) {j : Nat} {w : WeakPtr}
    (hj : s.getW j = some w) :
    ∀ x, w.contorol_block_ = some x → (s.heap.blocks x).shared_count = 0 →
      1 ≤ s.heap.delPtrCount x := by
  intro x hx h0
  have hlt : x < s.heap.next := hs.1.lt_next_of_weak (numWeak_pos hj hx)
  have hc := (hs.1.counts x hlt).1
  have hk := (hs.1.hooks x hlt).1
  rw [hk, ← hc, if_pos h0]

/-- Every client operation keeps the record of hook calls ordered. -/
theorem ordered_step {s t : State} {op : Op} (hs : Inv s)
    (ho : orderedTrace s.heap.trace = true) (hst : step s op = some t) :
    orderedTrace t.heap.trace = true := by
  cases op with
  | S_default =>
    simp only [step, Option.some.injEq] at hst
    subst hst
    exact ho
  | S_raw ptr alloc del =>
    simp only [step, Option.some.injEq] at hst
    subst hst
    exact ho
  | S_make =>
    simp only [step, Option.some.injEq] at hst
    subst hst
    exact ho
  | S_allocate alloc =>
    simp only [step, Option.some.injEq] at hst
    subst hst
    exact ho
  | S_copy j =>
    simp only [step] at hst
    cases hj : s.getS j with
    | none => simp [hj] at hst
    | some b =>
      simp only [hj, Option.some.injEq] at hst
      subst hst
      show orderedTrace (SharedPtr.copy_ctor s.heap b).1.trace = true
      rw [copy_ctor_trace]
      exact ho
  | S_move j =>
    simp only [step] at hst
    cases hj : s.getS j with
    | none => simp [hj] at hst
    | some b =>
      simp only [hj, Option.some.injEq] at hst
      subst hst
      exact ho
  | S_copy_assign i j =>
    simp only [step] at hst
    cases hi : s.getS i with
    | none => simp [hi] at hst
    | some a =>
      cases hj : s.getS j with
      | none => simp [hi, hj] at hst
      | some b =>
        simp only [hi, hj, Option.some.injEq] at hst
        subst hst
        exact ordered_copy_assign _ _ _ ho
  | S_move_assign i j =>
    simp only [step] at hst
    cases hi : s.getS i with
    | none => simp [hi] at hst
    | some a =>
      cases hj : s.getS j with
      | none => simp [hi, hj] at hst
      | some b =>
        simp only [hi, hj, Option.some.injEq] at hst
        subst hst
        exact ordered_move_assign _ _ _ ho
  | S_reset i =>
    simp only [step] at hst
    cases hi : s.getS i with
    | none => simp [hi] at hst
    | some a =>
      simp only [hi, Option.some.injEq] at hst
      subst hst
      exact ordered_dtor _ _ ho
  | S_swap i j =>
    simp only [step] at hst
    cases hi : s.getS i with
    | none => simp [hi] at hst
    | some a =>
      cases hj : s.getS j with
      | none => simp [hi, hj] at hst
      | some b =>
        simp only [hi, hj, Option.some.injEq] at hst
        subst hst
        exact ho
  | S_dtor i =>
    simp only [step] at hst
    cases hi : s.getS i with
    | none => simp [hi] at hst
    | some a =>
      simp only [hi, Option.some.injEq] at hst
      subst hst
      exact ordered_dtor _ _ ho
  | W_default =>
    simp only [step, Option.some.injEq] at hst
    subst hst
    exact ho
  | W_from_shared j =>
    simp only [step] at hst
    cases hj : s.getS j with
    | none => simp [hj] at hst
    | some b =>
      simp only [hj, Option.some.injEq] at hst
      subst hst
      show orderedTrace (WeakPtr.from_shared s.heap b).1.trace = true
      rw [from_shared_trace]
      exact ho
  | W_copy j =>
    simp only [step] at hst
    cases hj : s.getW j with
    | none => simp [hj] at hst
    | some b =>
      simp only [hj, Option.some.injEq] at hst
      subst hst
      show orderedTrace (WeakPtr.copy_ctor s.heap b).1.trace = true
      rw [weak_copy_ctor_trace]
      exact ho
  | W_move j =>
    simp only [step] at hst
    cases hj : s.getW j with
    | none => simp [hj] at hst
    | some b =>
      simp only [hj, Option.some.injEq] at hst
      subst hst
      exact ho
  | W_copy_assign i j =>
    simp only [step] at hst
    cases hi : s.getW i with
    | none => simp [hi] at hst
    | some a =>
      cases hj : s.getW j with
      | none => simp [hi, hj] at hst
      | some b =>
        simp only [hi, hj, Option.some.injEq] at hst
        subst hst
        exact ordered_weak_copy_assign _ _ _ ho (weak_handle_object_released hs hi)
  | W_move_assign i j =>
    simp only [step] at hst
    cases hi : s.getW i with
    | none => simp [hi] at hst
    | some a =>
      cases hj : s.getW j with
      | none => simp [hi, hj] at hst
      | some b =>
        simp only [hi, hj, Option.some.injEq] at hst
        subst hst
        exact ordered_weak_move_assign _ _ _ ho (weak_handle_object_released hs hi)
  | W_swap i j =>
    simp only [step] at hst
    cases hi : s.getW i with
    | none => simp [hi] at hst
    | some a =>
      cases hj : s.getW j with
      | none => simp [hi, hj] at hst
      | some b =>
        simp only [hi, hj, Option.some.injEq] at hst
        subst hst
        exact ho
  | W_dtor i =>
    simp only [step] at hst
    cases hi : s.getW i with
    | none => simp [hi] at hst
    | some a =>
      simp only [hi, Option.some.injEq] at hst
      subst hst
      exact ordered_weak_dtor _ _ ho (weak_handle_object_released hs hi)

theorem Reachable.ordered {s : State} (hr : Reachable s) :
    orderedTrace s.heap.trace = true := by
  induction hr with
  | init => rfl
  | step s t op hrs _ hst ih => exact ordered_step hrs.invariant ih hst

theorem ordered_split : ∀ (pre : List Event) (e : Event) (post : List Event),
    orderedTrace (pre ++ e :: post) = true → e.hook = Hook.del_object →
    ∃ p, p ∈ post ∧ p.hook = Hook.del_ptr ∧ p.block = e.block := by
  intro pre
  induction pre with
  | nil =>
    intro e post ho he
    simp only [List.nil_append, orderedTrace, Bool.and_eq_true, Bool.or_eq_true,
      decide_eq_true_eq, List.any_eq_true] at ho
    rcases ho.1 with h | h
    · exact absurd he h
    · obtain ⟨p, hp, hq⟩ := h
      exact ⟨p, hp, hq⟩
  | cons x pre ih =>
    intro e post ho he
    simp only [List.cons_append, orderedTrace, Bool.and_eq_true] at ho
    exact ih e post ho.2 he

/-- C18: in every reachable state, taking the record of hook calls apart at any
`del_object` call `e` (`pre` holds the later calls, `post` the earlier ones): a
`del_ptr` call on the same block is among the earlier calls, and none is among the
later ones.  The record covers both callers of `del_object`, `~SharedPtr` and
`~WeakPtr`. -/
theorem C18_release_order (s : State) (hr : Reachable s) (pre post : List Event)
    (e : Event) (htr : s.heap.trace = pre ++ e :: post) (he : e.hook = Hook.del_object) :
    (∃ p, p ∈ post ∧ p.hook = Hook.del_ptr ∧ p.block = e.block) ∧
    (∀ p, p ∈ pre → ¬ (p.hook = Hook.del_ptr ∧ p.block = e.block)) := by
  have ho := hr.ordered
  rw [htr] at ho
  have h1 := ordered_split pre e post ho he
  refine ⟨h1, ?_⟩
  have hle : s.heap.delPtrCount e.block ≤ 1 := by
    have hinv := hr.invariant
    by_cases hb : e.block < s.heap.next
    · rw [(hinv.1.hooks e.block hb).1]
      split_ifs <;> omega
    · rw [(hinv.1.nohooks e.block (by omega)).1]
      omega
  simp only [Heap.delPtrCount, htr, List.countP_append, List.countP_cons] at hle
  have hpost : 1 ≤ post.countP (fun e1 => decide (e1.hook = Hook.del_ptr ∧ e1.block = e.block)) := by
    obtain ⟨p, hp, hq⟩ := h1
    exact List.countP_pos_iff.mpr ⟨p, hp, by simpa using hq⟩
  have hpre : pre.countP (fun e1 => decide (e1.hook = Hook.del_ptr ∧ e1.block = e.block)) = 0 := by
    omega
  intro p hp hq
  rw [List.countP_eq_zero] at hpre
  exact hpre p hp (by simpa using hq)

/-- Witness for C18: the record after `allGoneOps` is the `del_object` call on block
`0` preceded by the `del_ptr` call made by `~SharedPtr` when one Weak Handle was
alive. -/
theorem C18_release_order_witness :
    Reachable (after allGoneOps) ∧
    (after allGoneOps).heap.trace
      = [] ++ { hook := Hook.del_object, block := 0, shared_count := 0, weak_count := 0 }
          :: [{ hook := Hook.del_ptr, block := 0, shared_count := 0, weak_count := 1 }] ∧
    ∃ p, p ∈ [({ hook := Hook.del_ptr, block := 0, shared_count := 0, weak_count := 1 }
        : Event)] ∧ p.hook = Hook.del_ptr ∧ p.block = 0 :=
  ⟨allGone_reachable, by decide,
   (C18_release_order (after allGoneOps) allGone_reachable []
      [{ hook := Hook.del_ptr, block := 0, shared_count := 0, weak_count := 1 }]
      { hook := Hook.del_object, block := 0, shared_count := 0, weak_count := 0 }
      (by decide) rfl).1⟩

/-! ## C19: a managed object that holds Weak Handles on its own block -/

/-- With no member handles the destructor is `SharedPtr::~SharedPtr` as embedded
before. -/
theorem dtor_with_nil (h : Heap) (a : SharedPtr) :
    SharedPtr.dtor_with h a [] = SharedPtr.dtor h a := rfl

/-- C19 (the code at a failing input): block `0` has one Strong Handle and one Weak
Handle, and the Weak Handle is a member of the managed object.  Destroying the
Strong Handle brings `shared_count` to 0 and calls `del_ptr`; the destruction of
the object runs `~WeakPtr`, which brings `weak_count` to 0 and calls `del_object`;
back in `~SharedPtr` the test `weak_count == 0` is evaluated on the released block
and `del_object` is called a second time. -/
theorem C19_reentrant_release :
    ((after lockOps).heap.blocks 0).shared_count = 1 ∧
    ((after lockOps).heap.blocks 0).weak_count = 1 ∧
    (after lockOps).getS 0 = some (SharedPtr.onObject 0) ∧
    (after lockOps).getW 0 = some (WeakPtr.onObject 0) ∧
    (del_ptr_with ((after lockOps).heap.write 0
        { (after lockOps).heap.blocks 0 with shared_count := 0 }) 0
        [WeakPtr.onObject 0]).delObjectCount 0 = 1 ∧
    SharedPtr.dtor_reads_released (after lockOps).heap (SharedPtr.onObject 0)
      [WeakPtr.onObject 0] = true ∧
    (SharedPtr.dtor_with (after lockOps).heap (SharedPtr.onObject 0)
      [WeakPtr.onObject 0]).delPtrCount 0 = 1 ∧
    (SharedPtr.dtor_with (after lockOps).heap (SharedPtr.onObject 0)
      [WeakPtr.onObject 0]).delObjectCount 0 = 2 := by
  decide

/-! ## C4: the block is released twice when the object owns its last Weak Handle -/

/-- C4 (the code at a failing input): in the reachable state after `ownerOps` block
`0` has one Strong Handle and one Weak Handle (`shared_count == 1`,
`weak_count == 1`), and the Weak Handle is owned by the managed object (or its
deleter).  Destroying the Strong Handle destroys every handle on the block:
`del_ptr` runs `~WeakPtr`, which calls `del_object` with both counters at 0, and
`~SharedPtr` then calls `del_object` again.  The record of hook calls is
`del_object`, `del_object`, `del_ptr` (newest first): the block-release hook has
been called twice on block `0`, not at most once. -/
theorem C4_block_released_twice :
    Reachable (after ownerOps) ∧
    (after ownerOps).getS 0 = some SharedPtr.onRaw7 ∧
    (after ownerOps).getW 0 = some WeakPtr.onRaw7 ∧
    (after ownerOps).numStrong 0 = 1 ∧ (after ownerOps).numWeak 0 = 1 ∧
    ((after ownerOps).heap.blocks 0).shared_count = 1 ∧
    ((after ownerOps).heap.blocks 0).weak_count = 1 ∧
    (after ownerOps).heap.delObjectCount 0 = 0 ∧
    ((SharedPtr.dtor_with (after ownerOps).heap SharedPtr.onRaw7
      [WeakPtr.onRaw7]).blocks 0).shared_count = 0 ∧
    ((SharedPtr.dtor_with (after ownerOps).heap SharedPtr.onRaw7
      [WeakPtr.onRaw7]).blocks 0).weak_count = 0 ∧
    (SharedPtr.dtor_with (after ownerOps).heap SharedPtr.onRaw7 [WeakPtr.onRaw7]).trace
      = [{ hook := Hook.del_object, block := 0, shared_count := 0, weak_count := 0 },
         { hook := Hook.del_object, block := 0, shared_count := 0, weak_count := 0 },
         { hook := Hook.del_ptr, block := 0, shared_count := 0, weak_count := 1 }] ∧
    (SharedPtr.dtor_with (after ownerOps).heap SharedPtr.onRaw7
      [WeakPtr.onRaw7]).delObjectCount 0 = 2 ∧
    ¬ ((SharedPtr.dtor_with (after ownerOps).heap SharedPtr.onRaw7
      [WeakPtr.onRaw7]).delObjectCount 0 ≤ 1) :=
  ⟨Reachable.after_ops ownerOps (by decide), by decide⟩

/-! ## C20: the counters do not wrap -/

theorem WeakPtr.weak_dtor_count (h : Heap) (w : WeakPtr) (x : Nat)
    (hw : w.contorol_block_ = some x) (h1 : 1 ≤ (h.blocks x).weak_count)
    (h2 : (h.blocks x).weak_count < SIZE_MOD) :
    ((WeakPtr.dtor h w).blocks x).weak_count + 1 = (h.blocks x).weak_count := by
  have hdec := mod_pred h1 h2
  unfold WeakPtr.dtor
  simp only [hw, write_blocks, if_true, hdec]
  split_ifs <;> simp <;> omega

theorem copy_ctor_shared_ge (h : Heap) (p : SharedPtr) (x : Nat)
    (hp : ∀ y, p.contorol_block_ = some y → (h.blocks y).shared_count + 1 < SIZE_MOD) :
    (h.blocks x).shared_count ≤ ((SharedPtr.copy_ctor h p).1.blocks x).shared_count ∧
    ((SharedPtr.copy_ctor h p).1.blocks x).shared_count ≤ (h.blocks x).shared_count + 1 := by
  unfold SharedPtr.copy_ctor
  cases hc : p.contorol_block_ with
  | none => exact ⟨le_refl _, Nat.le_succ _⟩
  | some b =>
    by_cases hx : x = b
    · subst hx
      simp [mod_succ (hp x hc)]
    · simp [hx]

theorem weak_copy_ctor_weak_ge (h : Heap) (p : WeakPtr) (x : Nat)
    (hp : ∀ y, p.contorol_block_ = some y → (h.blocks y).weak_count + 1 < SIZE_MOD) :
    (h.blocks x).weak_count ≤ ((WeakPtr.copy_ctor h p).1.blocks x).weak_count ∧
    ((WeakPtr.copy_ctor h p).1.blocks x).weak_count ≤ (h.blocks x).weak_count + 1 := by
  unfold WeakPtr.copy_ctor
  cases hc : p.contorol_block_ with
  | none => exact ⟨le_refl _, Nat.le_succ _⟩
  | some b =>
    by_cases hx : x = b
    · subst hx
      simp [mod_succ (hp x hc)]
    · simp [hx]

/-- C20: in every reachable state,
(1) a live non-empty Strong Handle on block `b` finds `shared_count ≥ 1`, and its
destructor (run by destruction, `reset` or move assignment) leaves exactly one less;
(2) the same holds for the temporary of a copy assignment `a = c`, whose destructor
runs after the copy of `c` has been counted;
(3) and (4) say the same of Weak Handles and `weak_count`;
(5) once `shared_count` of an allocated block is 0 it is 0 in every state reached
afterwards. -/
theorem C20_no_underflow (s : State) (hr : Reachable s) :
    (∀ i a b, s.getS i = some a → a.contorol_block_ = some b →
      1 ≤ (s.heap.blocks b).shared_count ∧
      ((SharedPtr.dtor s.heap a).blocks b).shared_count + 1
        = (s.heap.blocks b).shared_count) ∧
    (∀ i j a c b, s.getS i = some a → s.getS j = some c → a.contorol_block_ = some b →
      s.live + 1 < SIZE_MOD →
      1 ≤ ((SharedPtr.copy_ctor s.heap c).1.blocks b).shared_count ∧
      ((SharedPtr.dtor (SharedPtr.copy_ctor s.heap c).1 a).blocks b).shared_count + 1
        = ((SharedPtr.copy_ctor s.heap c).1.blocks b).shared_count) ∧
    (∀ j w b, s.getW j = some w → w.contorol_block_ = some b →
      1 ≤ (s.heap.blocks b).weak_count ∧
      ((WeakPtr.dtor s.heap w).blocks b).weak_count + 1 = (s.heap.blocks b).weak_count) ∧
    (∀ i j w c b, s.getW i = some w → s.getW j = some c → w.contorol_block_ = some b →
      s.live + 1 < SIZE_MOD →
      1 ≤ ((WeakPtr.copy_ctor s.heap c).1.blocks b).weak_count ∧
      ((WeakPtr.dtor (WeakPtr.copy_ctor s.heap c).1 w).blocks b).weak_count + 1
        = ((WeakPtr.copy_ctor s.heap c).1.blocks b).weak_count) ∧
    (∀ b t, b < s.heap.next → (s.heap.blocks b).shared_count = 0 → Steps s t →
      (t.heap.blocks b).shared_count = 0) := by
  have hinv := hr.invariant
  have hlive := hinv.2
  have hS : ∀ i a b, s.getS i = some a → a.contorol_block_ = some b →
      b < s.heap.next ∧ 1 ≤ (s.heap.blocks b).shared_count ∧
      (s.heap.blocks b).shared_count ≤ s.live := by
    intro i a b hi ha
    have hpos := numStrong_pos hi ha
    have hlt := hinv.1.lt_next_of_strong hpos
    have hc := (hinv.1.counts b hlt).1
    have hle := numStrong_le_live s b
    exact ⟨hlt, by omega, by omega⟩
  have hW : ∀ j w b, s.getW j = some w → w.contorol_block_ = some b →
      b < s.heap.next ∧ 1 ≤ (s.heap.blocks b).weak_count ∧
      (s.heap.blocks b).weak_count ≤ s.live := by
    intro j w b hj hw
    have hpos := numWeak_pos hj hw
    have hlt := hinv.1.lt_next_of_weak hpos
    have hc := (hinv.1.counts b hlt).2
    have hle := numWeak_le_live s b
    exact ⟨hlt, by omega, by omega⟩
  refine ⟨?_, ?_, ?_, ?_, ?_⟩
  · intro i a b hi ha
    obtain ⟨_, h1, h2⟩ := hS i a b hi ha
    exact ⟨h1, (SharedPtr.dtor_effect s.heap a b ha h1 (by omega)).1⟩
  · intro i j a c b hi hj ha hfit
    obtain ⟨_, h1, h2⟩ := hS i a b hi ha
    have hge := copy_ctor_shared_ge s.heap c b (by
      intro y hy
      have := (hS j c y hj hy).2.2
      omega)
    exact ⟨by omega,
      (SharedPtr.dtor_effect (SharedPtr.copy_ctor s.heap c).1 a b ha (by omega)
        (by omega)).1⟩
  · intro j w b hj hw
    obtain ⟨_, h1, h2⟩ := hW j w b hj hw
    exact ⟨h1, WeakPtr.weak_dtor_count s.heap w b hw h1 (by omega)⟩
  · intro i j w c b hi hj hw hfit
    obtain ⟨_, h1, h2⟩ := hW i w b hi hw
    have hge := weak_copy_ctor_weak_ge s.heap c b (by
      intro y hy
      have := (hW j c y hj hy).2.2
      omega)
    exact ⟨by omega,
      WeakPtr.weak_dtor_count (WeakPtr.copy_ctor s.heap c).1 w b hw (by omega) (by omega)⟩
  · intro b t hb h0 hsteps
    have g := hsteps.grows
    have hinvt := (hsteps.reachable hr).invariant
    have hbt : b < t.heap.next := lt_of_lt_of_le hb g.next_le
    have hc := (hinv.1.counts b hb).1
    have hk := (hinv.1.hooks b hb).1
    have hkt := (hinvt.1.hooks b hbt).1
    have hct := (hinvt.1.counts b hbt).1
    have hmono := delPtrCount_mono g b
    rw [hc] at h0
    rw [hk, if_pos h0, hkt] at hmono
    rw [hct]
    by_contra hne
    rw [if_neg hne] at hmono
    omega

theorem allGone_steps : Steps (after lockExpiredOps) (after (lockExpiredOps ++ [Op.S_make])) :=
  Steps.steps_of_run [Op.S_make] (by decide) rfl

theorem lockExpired_reachable : Reachable (after lockExpiredOps) :=
  Reachable.after_ops lockExpiredOps (by decide)

/-- Witness for C20: in `lockExpiredOps` the Weak Handle of slot 0 finds
`weak_count == 1`, and block `0`, whose `shared_count` is 0, still has
`shared_count == 0` after a further `MakeShared`. -/
theorem C20_no_underflow_witness :
    Reachable (after lockExpiredOps) ∧
    (after lockExpiredOps).getW 0 = some (WeakPtr.onObject 0) ∧
    (1 ≤ ((after lockExpiredOps).heap.blocks 0).weak_count ∧
      ((WeakPtr.dtor (after lockExpiredOps).heap (WeakPtr.onObject 0)).blocks 0).weak_count + 1
        = ((after lockExpiredOps).heap.blocks 0).weak_count) ∧
    ((after lockExpiredOps).heap.blocks 0).shared_count = 0 ∧
    ((after (lockExpiredOps ++ [Op.S_make])).heap.blocks 0).shared_count = 0 :=
  ⟨lockExpired_reachable, by decide,
   (C20_no_underflow (after lockExpiredOps) lockExpired_reachable).2.2.1 0
     (WeakPtr.onObject 0) 0 (by decide) rfl,
   by decide,
   (C20_no_underflow (after lockExpiredOps) lockExpired_reachable).2.2.2.2 0
     (after (lockExpiredOps ++ [Op.S_make])) (by decide) (by decide) allGone_steps⟩

end SmartPointers
